import Mathlib

/-!
Verification of the baby-malloc heap allocator (src/unnamed/part_002 together
with src/internal.h and src/malloc.h).

The C code is shallowly embedded as follows.

* `usz` (64-bit `size_t`) values are `Nat`; the arithmetic the C code performs
  on them is modelled with explicit wrap-around helpers (`add64`, `sub64`,
  `mul64`) and the bit-trick macro `ALIGN_UP` is modelled with `Nat.land`,
  exactly as the C evaluates it over 64-bit words.
* A span's memory is a contiguous tiling of blocks: the span body starts
  `SPAN_HDR_PADSZ` bytes after the span base and every block begins where the
  previous one ends.  A block header is a record of the fields the code reads
  and writes (packed size word split into `gross`/`inUse`/`prevInUse`, owner
  back-pointer, the footer word stored in the last 8 bytes of the block's
  extent, and the debug magic).  Block payload bytes are not modelled
  (`memset`/`memcpy` only touch payload bytes).
* The per-span doubly-linked free list is modelled by the list of block
  offsets in list order (`sp->free_list` is the head, `bp->next` the tail).
* Every C `assert`, and every memory access whose meaning depends on bytes
  the model does not track, is modelled by returning `none`: an execution
  that returns `none` corresponds to an aborted/undefined C execution and
  has no successor state.
* The OS page provider (`mmap`/`munmap`, `sysconf`) is an oracle: each public
  operation receives the value the OS would answer, and the guards
  `mmapOk`/`psOk` restrict the oracle to answers a real OS can give
  (nonzero page-aligned disjoint mappings, length > 0, power-of-two page
  size).
-/

namespace BabyMalloc

/-- Modulus of the 64-bit machine words (`usz`, `uptr`). -/
def U64 : Nat := 2 ^ 64

/-- Constants from src/malloc.h and src/internal.h.  `MIN_BLKSZ`,
`MIN_MMAPSZ` and `SPAN_CACHE` are used by src/unnamed/part_002 but their
defining header revision is not among the sources; their values are pinned by
the spec (minimum block gross size 64, minimum map request 65536, retention
count 1) and by the static asserts and tests in src. -/
def ALIGNMENT : Nat := 16

def SPAN_HDR_PADSZ : Nat := 32

def BLOCK_HDR_PADSZ : Nat := 48

def MIN_BLKSZ : Nat := 64

def MIN_MMAPSZ : Nat := 65536

def SPAN_CACHE : Nat := 1

def MAGIC_BABY : Nat := 0xbebebebe

def MAGIC_SPENT : Nat := 0xdededede

/-- 64-bit wrapping addition (C unsigned `+`). -/
def add64 (a b : Nat) : Nat := (a + b) % U64

/-- 64-bit wrapping subtraction (C unsigned `-`), for arguments `< U64`. -/
def sub64 (a b : Nat) : Nat := (a + (U64 - b % U64)) % U64

/-- 64-bit wrapping multiplication (C unsigned `*`). -/
def mul64 (a b : Nat) : Nat := (a * b) % U64

/-- C macro `ALIGN_UP(n,a) = ((n)+(a)-1) & ~((a)-1)` evaluated on 64-bit
unsigned words: the bitwise complement of `a-1` is `U64 - a`, and the
addition `n + a - 1` wraps. -/
def ALIGN_UP (n a : Nat) : Nat := Nat.land ((n + a - 1) % U64) (U64 - a)

/-- C `usz_max` from src/internal.h. -/
def usz_max (a b : Nat) : Nat := if a > b then a else b

/-- C `gross_size` from src/internal.h: header plus the request rounded up to
the alignment. -/
def gross_size (size : Nat) : Nat := add64 BLOCK_HDR_PADSZ (ALIGN_UP size ALIGNMENT)

/-- Modelled from the spec: `blksizerequest` is called by `m_malloc`,
`m_realloc`, `realloc_truncate` and `realloc_extend` in src/unnamed/part_002
but its definition is in a header revision absent from src/.  The spec fixes
it: "Compute `gross = gross_size(n)` (never less than 64)", i.e. the gross
size clamped from below to the minimum block size; the in-src test
`test_realloc_nosize` (tests.c) confirms `blksizerequest(0) = MIN_BLKSZ`. -/
def blksizerequest (size : Nat) : Nat := usz_max (gross_size size) MIN_BLKSZ

/-- Block header (`struct block` of the part_002 revision).  `gross`,
`inUse` and `prevInUse` are the packed `size` word (`blksize`,
`BIT_IN_USE`, `BIT_PREV_IN_USE`); `footer` is the `usz` stored in the last
8 bytes of the block's extent (meaningful only while the block is free);
the free-list `prev`/`next` pointers are represented by the span's
`freelist` list instead. -/
structure Block where
  gross : Nat
  inUse : Bool
  prevInUse : Bool
  owner : Nat
  footer : Nat
  magic : Nat
deriving Repr, DecidableEq

/-- Span header (`struct span`) plus the memory it owns: `blocks` is the
physical tiling of the span body (first block at offset `SPAN_HDR_PADSZ`,
each next block starting where the previous ends), `freelist` the offsets on
the span's free list in list order, `base` the address `mmap` returned. -/
structure Span where
  base : Nat
  size : Nat
  blkcount : Nat
  blocks : List Block
  freelist : List Nat
deriving Repr, DecidableEq

/-- Global allocator state: the span list (head = `base`), the `span_count`
counter and the cached `pagesize`. -/
structure Heap where
  spans : List Span
  spanCount : Nat
  pagesize : Nat
deriving Repr, DecidableEq

/-- The state before the first call: no spans, no cached page size. -/
def emptyHeap : Heap := { spans := [], spanCount := 0, pagesize := 0 }

/-- Dereference the block header at offset `o`, walking the tiling from
offset `cur`.  `none` means no header lives at that address (reading it in C
would reinterpret arbitrary bytes). -/
def blkAt : List Block → Nat → Nat → Option Block
  | [], _, _ => none
  | b :: bs, cur, o => if o = cur then some b else blkAt bs (cur + b.gross) o

def getBlk (sp : Span) (o : Nat) : Option Block :=
  blkAt sp.blocks SPAN_HDR_PADSZ o

/-- Overwrite the single block header at offset `o`. -/
def modifyAt : List Block → Nat → Nat → (Block → Block) → Option (List Block)
  | [], _, _, _ => none
  | b :: bs, cur, o, f =>
    if o = cur then some (f b :: bs)
    else (modifyAt bs (cur + b.gross) o f).map (b :: ·)

/-- Replace the block at offset `o` by the blocks `repl` (which must cover
the same extent; used for splits). -/
def replaceAt : List Block → Nat → Nat → List Block → Option (List Block)
  | [], _, _, _ => none
  | b :: bs, cur, o, repl =>
    if o = cur then some (repl ++ bs)
    else (replaceAt bs (cur + b.gross) o repl).map (b :: ·)

/-- Replace the block at offset `o` and its physical successor by the blocks
`repl` (used for merges). -/
def replace2At : List Block → Nat → Nat → List Block → Option (List Block)
  | [], _, _, _ => none
  | [_], _, _, _ => none
  | a :: b :: bs, cur, o, repl =>
    if o = cur then some (repl ++ bs)
    else (replace2At (b :: bs) (cur + a.gross) o repl).map (a :: ·)

/-- The footer word stored in the 8 bytes just below offset `o`: it belongs
to the block whose extent ends at `o`. -/
def prevFooter : List Block → Nat → Nat → Option Nat
  | [], _, _ => none
  | b :: bs, cur, o =>
    if cur + b.gross = o then some b.footer else prevFooter bs (cur + b.gross) o

def spSetBlk (sp : Span) (o : Nat) (f : Block → Block) : Option Span :=
  (modifyAt sp.blocks SPAN_HDR_PADSZ o f).map (fun bs => { sp with blocks := bs })

/-- C `ptr_in_span` (note both bounds are inclusive in the source). -/
def ptr_in_span (p : Nat) (sp : Span) : Bool :=
  decide (sp.base ≤ p) && decide (p ≤ sp.base + sp.size)

/-- The asserts performed by C `blkinit` when a block header is (re)written
at offset `o` with size `size`. -/
def blkinitOk (sp : Span) (o size : Nat) : Bool :=
  ptr_in_span (sp.base + o) sp && decide ((sp.base + o) % ALIGNMENT = 0) &&
    ptr_in_span (sp.base + o + size) sp

/-- C `blksever`: unlink a block from its span's free list.  The source
asserts the doubly-linked-list back pointers are coherent; a block that is
not on the list at all fails those asserts. -/
def blksever (sp : Span) (o : Nat) : Option Span :=
  if o ∈ sp.freelist then some { sp with freelist := sp.freelist.erase o } else none

/-- C `blkprepend`: push a free block on the front of its span's free list
(asserts the block is free). -/
def blkprepend (sp : Span) (o : Nat) : Option Span :=
  match getBlk sp o with
  | none => none
  | some b => if b.inUse then none else some { sp with freelist := o :: sp.freelist }

/-- C `blknextadj`: address of the physically next block, `some none` when
the block is the last one in its span.  The caller always dereferences the
returned pointer, so an in-range address that is not a block header is a
stuck execution. -/
def blknextadj (sp : Span) (o : Nat) : Option (Option Nat) :=
  match getBlk sp o with
  | none => none
  | some b =>
    let next := o + b.gross
    if (sp.base + next) % ALIGNMENT ≠ 0 then none
    else if sp.size ≤ next then some none
    else if (getBlk sp next).isSome then some (some next) else none

/-- C `blkprevadj`: locate the (free) physically previous block through the
footer stored just below `o`; `some none` when the footer address would land
inside the span header (the block is the first one). -/
def blkprevadj (sp : Span) (o : Nat) : Option (Option Nat) :=
  match getBlk sp o with
  | none => none
  | some b =>
    if b.prevInUse then none
    else if o < SPAN_HDR_PADSZ + 8 then some none
    else
      match prevFooter sp.blocks SPAN_HDR_PADSZ o with
      | none => none
      | some v =>
        let cand := sub64 o v
        if add64 sp.base cand % ALIGNMENT ≠ 0 then none
        else some (some cand)

/-- C `blkcoalesce`: extend the free block at `oa` over its free physical
successor at `ob`, unlinking `ob` and rewriting the footer of the merged
block. -/
def blkcoalesce (sp : Span) (oa ob : Nat) : Option Span :=
  match getBlk sp oa, getBlk sp ob with
  | some a, some b =>
    if blknextadj sp oa ≠ some (some ob) then none
    else if a.inUse || b.inUse then none
    else
      match blksever sp ob with
      | none => none
      | some sp1 =>
        let bsz := add64 a.gross b.gross
        (replace2At sp1.blocks SPAN_HDR_PADSZ oa [{ a with gross := bsz, footer := bsz }]).map
          (fun bs => { sp1 with blocks := bs })
  | _, _ => none

/-- C `coalesce`: try to merge a free block with its physical successor and
then with its physical predecessor; returns the offset of the surviving
block. -/
def coalesce (sp : Span) (o : Nat) : Option (Span × Nat) :=
  match getBlk sp o with
  | none => none
  | some b =>
    if b.inUse then none
    else
      let step1 : Option Span :=
        match blknextadj sp o with
        | none => none
        | some none => some sp
        | some (some oq) =>
          match getBlk sp oq with
          | none => none
          | some q => if q.inUse then some sp else blkcoalesce sp o oq
      match step1 with
      | none => none
      | some sp1 =>
        match getBlk sp1 o with
        | none => none
        | some b1 =>
          if b1.prevInUse then some (sp1, o)
          else
            match blkprevadj sp1 o with
            | none => none
            | some none => some (sp1, o)
            | some (some c) => (blkcoalesce sp1 c o).map (fun sp2 => (sp2, c))

/-- C `blksplit`: shrink the free block at `o` by `gross` bytes (leaving it
on the free list, footer refreshed) and carve an in-use block of size
`gross` out of its tail.  The tail header is written over bytes the model
does not track; its `footer` is modelled as 0 (it is never read while the
block is in use) and `prevInUse` is definitively cleared by the source's
`blksetprevfree`. -/
def blksplit (sp : Span) (o gross : Nat) : Option (Span × Nat) :=
  match getBlk sp o with
  | none => none
  | some b =>
    if ¬ gross < b.gross then none
    else
      let bsz := b.gross - gross
      let nb := o + bsz
      if (sp.base + nb) % ALIGNMENT ≠ 0 then none
      else if ¬ ptr_in_span (sp.base + nb) sp then none
      else
        let tail : Block :=
          { gross := gross, inUse := true, prevInUse := false, owner := sp.base,
            footer := 0, magic := MAGIC_SPENT }
        (replaceAt sp.blocks SPAN_HDR_PADSZ o [{ b with gross := bsz, footer := bsz }, tail]).map
          (fun bs => ({ sp with blocks := bs }, nb))

/-- C `blkalloc`: serve a request of gross size `gross` from the free block
at `o`: take the whole block when the remainder would be below `MIN_BLKSZ`
(note the source's `blksize(bp) - gross` is a wrapping subtraction),
otherwise split; then bump `blkcount` and flag the next physical block's
`PREV_IN_USE`. -/
def blkalloc (sp : Span) (o gross : Nat) : Option (Span × Nat) :=
  match getBlk sp o with
  | none => none
  | some b =>
    if b.inUse then none
    else
      let step : Option (Span × Nat) :=
        if sub64 b.gross gross < MIN_BLKSZ then
          match blksever sp o with
          | none => none
          | some sp1 =>
            if ¬ blkinitOk sp1 o b.gross then none
            else
              (modifyAt sp1.blocks SPAN_HDR_PADSZ o
                  (fun bb => { bb with inUse := true, magic := MAGIC_SPENT })).map
                (fun bs => ({ sp1 with blocks := bs }, o))
        else blksplit sp o gross
      match step with
      | none => none
      | some (sp1, ro) =>
        let sp2 := { sp1 with blkcount := sp1.blkcount + 1 }
        match blknextadj sp2 ro with
        | none => none
        | some none => some (sp2, ro)
        | some (some oq) => (spSetBlk sp2 oq (fun q => { q with prevInUse := true })).map
            (fun sp3 => (sp3, ro))

/-- C `blkfree`: give the in-use block at `o` back to its span: drop
`blkcount`, reinitialize the header as free (footer = size, fresh magic,
`PREV_IN_USE` untouched), prepend it to the free list, and clear the next
physical block's `PREV_IN_USE`. -/
def blkfree (sp : Span) (o : Nat) : Option Span :=
  match getBlk sp o with
  | none => none
  | some b =>
    if sp.blkcount = 0 then none
    else
      let sp1 := { sp with blkcount := sp.blkcount - 1 }
      if ¬ blkinitOk sp1 o b.gross then none
      else
        match modifyAt sp1.blocks SPAN_HDR_PADSZ o
            (fun bb => { bb with inUse := false, footer := bb.gross, magic := MAGIC_BABY }) with
        | none => none
        | some bs =>
          let sp2 := { sp1 with blocks := bs }
          match blkprepend sp2 o with
          | none => none
          | some sp3 =>
            match blknextadj sp3 o with
            | none => none
            | some none => some sp3
            | some (some oq) => spSetBlk sp3 oq (fun q => { q with prevInUse := false })

/-- The span size `spalloc` computes for a block of gross size `gross`:
`max(gross + SPAN_HDR_PADSZ, MIN_MMAPSZ)` rounded up to the page size. -/
def spanSizeFor (pagesize gross : Nat) : Nat :=
  ALIGN_UP (usz_max (add64 gross SPAN_HDR_PADSZ) MIN_MMAPSZ) pagesize

/-- Contract of the OS page provider for a successful `mmap` answer: a
nonzero page-aligned (hence 16-aligned) address, a positive length that fits
in the address space, disjoint from every live mapping. -/
def mmapOk (spans : List Span) (base spsz : Nat) : Bool :=
  decide (base ≠ 0) && decide (base % ALIGNMENT = 0) && decide (0 < spsz) &&
    decide (base + spsz ≤ U64) &&
    spans.all (fun sp => decide (base + spsz ≤ sp.base) || decide (sp.base + sp.size ≤ base))

/-- Contract of `sysconf(_SC_PAGESIZE)`: a power of two between 16 and
2^32. -/
def psOk (ps : Nat) : Bool :=
  (List.range 33).any (fun k => decide (4 ≤ k) && decide (ps = 2 ^ k))

/-- C `spalloc`: map a fresh span for a block of gross size `gross`.  The
oracle `os` is the address `mmap` answers (`none` = `MAP_FAILED`).  The
fresh pages are zero-initialized, so the all-covering initial free block
gets `prevInUse = false` (nothing in the source sets that bit). -/
def spalloc (h : Heap) (os : Option Nat) (gross : Nat) : Option (Heap × Option Nat) :=
  let spsz := spanSizeFor h.pagesize gross
  match os with
  | none => some (h, none)
  | some b =>
    if ¬ mmapOk h.spans b spsz then none
    else
      let size := sub64 spsz SPAN_HDR_PADSZ
      let sp0 : Span := { base := b, size := spsz, blkcount := 0, blocks := [], freelist := [] }
      if ¬ blkinitOk sp0 SPAN_HDR_PADSZ size then none
      else
        let blk : Block :=
          { gross := size, inUse := false, prevInUse := false, owner := b,
            footer := size, magic := MAGIC_BABY }
        let sp : Span := { sp0 with blocks := [blk], freelist := [SPAN_HDR_PADSZ] }
        some ({ h with spans := sp :: h.spans, spanCount := h.spanCount + 1 }, some b)

/-- C `spsever`: splice the span with base `b` out of the span list. -/
def spsever (h : Heap) (b : Nat) : Option Heap :=
  if h.spans.any (fun sp => decide (sp.base = b)) then
    some { h with spans := h.spans.eraseP (fun sp => decide (sp.base = b)) }
  else none

/-- C `spfree`: decrement the span counter, unlink the span and unmap it. -/
def spfree (h : Heap) (b : Nat) : Option Heap :=
  (spsever h b).map (fun h1 => { h1 with spanCount := h1.spanCount - 1 })

/-- Inner loop of C `blkfind`: first block on the free list (in list order)
whose gross size is at least `g`. -/
def blkfindSpan (sp : Span) : List Nat → Nat → Option (Option Nat)
  | [], _ => some none
  | o :: rest, g =>
    match getBlk sp o with
    | none => none
    | some b => if g ≤ b.gross then some (some o) else blkfindSpan sp rest g

/-- C `blkfind`: first-fit search, outer loop over spans in list order. -/
def blkfind : List Span → Nat → Option (Option (Span × Nat))
  | [], _ => some none
  | sp :: rest, g =>
    match blkfindSpan sp sp.freelist g with
    | none => none
    | some (some o) => some (some (sp, o))
    | some none => blkfind rest g

/-- Replace the span with the same base in the span list. -/
def updSpan (h : Heap) (sp : Span) : Heap :=
  { h with spans := h.spans.map (fun s => if s.base = sp.base then sp else s) }

/-- C `blkpayload` as an absolute address. -/
def payloadAddr (sp : Span) (o : Nat) : Nat := add64 (add64 sp.base o) BLOCK_HDR_PADSZ

/-- C `plblk`: step back from a payload pointer to its block header. -/
def plblkAddr (p : Nat) : Nat := sub64 p BLOCK_HDR_PADSZ

/-- Find the span and block offset of the block header at absolute address
`a`; this is the memory the C code reads when it dereferences a
`struct block *`. -/
def locate : List Span → Nat → Option (Span × Nat)
  | [], _ => none
  | sp :: rest, a =>
    if sp.base ≤ a ∧ (blkAt sp.blocks SPAN_HDR_PADSZ (a - sp.base)).isSome
    then some (sp, a - sp.base)
    else locate rest a

/-- C `m_malloc`.  `ps` is the `sysconf` oracle (used on the first call
only), `os` the `mmap` oracle (used only when no free block fits).  Returns
`none` for aborted executions, otherwise the returned pointer (`none` =
NULL) and the new heap. -/
def m_malloc (ps : Nat) (os : Option Nat) (size : Nat) (h : Heap) :
    Option (Option Nat × Heap) :=
  if size = 0 then some (none, h)
  else
    match (if h.pagesize = 0 then
             (if psOk ps then some { h with pagesize := ps } else none)
           else some h) with
    | none => none
    | some h1 =>
      let gross := blksizerequest size
      if gross < MIN_BLKSZ then none
      else
        match blkfind h1.spans gross with
        | none => none
        | some found =>
          let chosen : Option (Option ((Span × Nat) × Heap)) :=
            match found with
            | some x => some (some (x, h1))
            | none =>
              match spalloc h1 os gross with
              | none => none
              | some (_, none) => some none
              | some (h2, some sb) =>
                match h2.spans.find? (fun s => decide (s.base = sb)) with
                | none => none
                | some sp =>
                  match sp.freelist.head? with
                  | none => none
                  | some o => some (some ((sp, o), h2))
          match chosen with
          | none => none
          | some none => some (none, h1)
          | some (some ((sp, o), h2)) =>
            match blkalloc sp o gross with
            | none => none
            | some (sp', ro) => some (some (payloadAddr sp' ro), updSpan h2 sp')

/-- C `m_free`.  The poison `memset` touches only payload bytes and is not
modelled. -/
def m_free (p : Nat) (h : Heap) : Option Heap :=
  if p = 0 then some h
  else
    match locate h.spans (plblkAddr p) with
    | none => none
    | some (sp, o) =>
      match getBlk sp o with
      | none => none
      | some b =>
        if ¬ b.inUse then none
        else if b.owner ≠ sp.base then none
        else
          match blkfree sp o with
          | none => none
          | some sp1 =>
            let h1 := updSpan h sp1
            if sp1.blkcount = 0 ∧ SPAN_CACHE < h1.spanCount then spfree h1 sp1.base
            else
              match coalesce sp1 o with
              | none => none
              | some (sp2, _) => some (updSpan h1 sp2)

/-- C `m_calloc`: the byte count is the 64-bit wrapping product `s * n`;
the zeroing `memset` touches only payload bytes and is not modelled. -/
def m_calloc (ps : Nat) (os : Option Nat) (n s : Nat) (h : Heap) :
    Option (Option Nat × Heap) :=
  let bytes := mul64 s n
  m_malloc ps os bytes h

/-- C `realloc_truncate` on the in-use block at offset `o` of span `sp`.
`blksetsize` does not rewrite a footer, so the truncated block's `footer`
field (now arbitrary payload bytes) is modelled as 0; it is never read while
the block is in use. -/
def realloc_truncate (sp : Span) (o size : Nat) (h : Heap) : Option (Option Nat × Heap) :=
  match getBlk sp o with
  | none => none
  | some b =>
    if ¬ b.inUse then none
    else
      let p := payloadAddr sp o
      let gross := blksizerequest size
      if ¬ (MIN_BLKSZ ≤ gross ∧ gross ≤ b.gross) then none
      else if b.gross - gross < MIN_BLKSZ ∨ gross < MIN_BLKSZ then some (some p, h)
      else
        let nsz := b.gross - gross
        let nbOff := o + gross
        if (sp.base + nbOff) % ALIGNMENT ≠ 0 then none
        else if ¬ blkinitOk sp nbOff nsz then none
        else
          let nb : Block :=
            { gross := nsz, inUse := false, prevInUse := true, owner := sp.base,
              footer := nsz, magic := MAGIC_BABY }
          match replaceAt sp.blocks SPAN_HDR_PADSZ o [{ b with gross := gross, footer := 0 }, nb] with
          | none => none
          | some bs =>
            let sp1 := { sp with blocks := bs, freelist := nbOff :: sp.freelist }
            match blknextadj sp1 nbOff with
            | none => none
            | some none => some (some p, updSpan h sp1)
            | some (some oq) =>
              match spSetBlk sp1 oq (fun q => { q with prevInUse := false }) with
              | none => none
              | some sp2 =>
                match coalesce sp2 nbOff with
                | none => none
                | some (sp3, _) => some (some p, updSpan h sp3)

/-- C `realloc_extend` on the in-use block at offset `o` of span `sp`.  In
the absorb path the source reads the severed neighbour's (still intact)
header after growing `bp`; the model computes that next-adjacent address
before the merge, which yields the same value.  The `memcpy` of the moving
path touches only payload bytes and is not modelled. -/
def realloc_extend (ps : Nat) (os : Option Nat) (sp : Span) (o size : Nat) (h : Heap) :
    Option (Option Nat × Heap) :=
  match getBlk sp o with
  | none => none
  | some b =>
    if ¬ b.inUse then none
    else
      let gross := blksizerequest size
      if ¬ b.gross < gross then none
      else
        let p := payloadAddr sp o
        let movePath : Option (Option Nat × Heap) :=
          match m_malloc ps os size h with
          | none => none
          | some (none, h1) => some (none, h1)
          | some (some q, h1) =>
            match m_free p h1 with
            | none => none
            | some h2 => some (some q, h2)
        match blknextadj sp o with
        | none => none
        | some none => movePath
        | some (some oq) =>
          match getBlk sp oq with
          | none => none
          | some q =>
            if q.inUse = false ∧ gross - b.gross ≤ q.gross then
              let leftover := b.gross + q.gross - gross
              if leftover % ALIGNMENT ≠ 0 then none
              else if leftover < MIN_BLKSZ then
                match blknextadj sp oq with
                | none => none
                | some nextOpt =>
                  match blksever sp oq with
                  | none => none
                  | some sp1 =>
                    match replace2At sp1.blocks SPAN_HDR_PADSZ o
                        [{ b with gross := b.gross + q.gross, footer := q.footer }] with
                    | none => none
                    | some bs =>
                      let sp2 := { sp1 with blocks := bs }
                      match nextOpt with
                      | none => some (some p, updSpan h sp2)
                      | some onext =>
                        match spSetBlk sp2 onext (fun r => { r with prevInUse := true }) with
                        | none => none
                        | some sp3 => some (some p, updSpan h sp3)
              else
                let nbOff := o + gross
                if ¬ blkinitOk sp nbOff leftover then none
                else
                  match blksever sp oq with
                  | none => none
                  | some sp1 =>
                    let nb : Block :=
                      { gross := leftover, inUse := false, prevInUse := true,
                        owner := sp.base, footer := leftover, magic := MAGIC_BABY }
                    match replace2At sp1.blocks SPAN_HDR_PADSZ o
                        [{ b with gross := gross, footer := 0 }, nb] with
                    | none => none
                    | some bs =>
                      some (some p, updSpan h { sp1 with blocks := bs, freelist := nbOff :: sp1.freelist })
            else movePath

/-- C `m_realloc`. -/
def m_realloc (ps : Nat) (os : Option Nat) (p size : Nat) (h : Heap) :
    Option (Option Nat × Heap) :=
  if p = 0 then m_malloc ps os size h
  else
    match locate h.spans (plblkAddr p) with
    | none => none
    | some (sp, o) =>
      match getBlk sp o with
      | none => none
      | some b =>
        let gross := blksizerequest size
        if gross = b.gross then some (some p, h)
        else if size = 0 ∨ gross < b.gross then realloc_truncate sp o size h
        else realloc_extend ps os sp o size h

/-- The block that results from `blkcoalesce` extending `a` over `b`:
the sizes add and the footer is rewritten. -/
def mergeBlocks (a b : Block) : Block :=
  { a with gross := a.gross + b.gross, footer := a.gross + b.gross }

/-- The header `blkfree`/`blkinitfree` writes when freeing a block in place:
cleared `IN_USE`, footer refreshed, fresh magic; `PREV_IN_USE` untouched. -/
def blkFreed (b : Block) : Block :=
  { b with inUse := false, footer := b.gross, magic := MAGIC_BABY }

/-- The header `blkalloc`/`blkinitused` writes when an entire free block is
handed out: set `IN_USE`, spent magic; sizes and `PREV_IN_USE` untouched. -/
def blkUsed (b : Block) : Block :=
  { b with inUse := true, magic := MAGIC_SPENT }

/-! ## Well-formedness invariant -/

/-- Total gross size of a list of blocks. -/
def sumGross (bs : List Block) : Nat := bs.foldr (fun b acc => b.gross + acc) 0

/-- The `IN_USE` flag of the last block, `c` for the empty list. -/
def endUse (c : Bool) (bs : List Block) : Bool := bs.foldl (fun _ b => b.inUse) c

/-- Boundary-tag coherence: each block's `PREV_IN_USE` equals the previous
block's `IN_USE`; `c` plays the role of the flag before the first block. -/
def chainFlags : Bool → List Block → Bool
  | _, [] => true
  | c, b :: bs => (b.prevInUse == c) && chainFlags b.inUse bs

/-- No two physically-adjacent free blocks; the carry `c` is the `IN_USE`
flag of the preceding block (`true` before the first block makes the first
pair vacuous). -/
def noAdjFrom : Bool → List Block → Bool
  | _, [] => true
  | c, b :: bs => (c || b.inUse) && noAdjFrom b.inUse bs

/-- The physical tiling of a block list starting at offset `cur`: each block
paired with its offset. -/
def offsetsFrom (cur : Nat) : List Block → List (Nat × Block)
  | [] => []
  | b :: bs => (cur, b) :: offsetsFrom (cur + b.gross) bs

/-- Offsets of the free blocks of a tiling starting at `cur`. -/
def fOffs (cur : Nat) (bs : List Block) : List Nat :=
  ((offsetsFrom cur bs).filter (fun x => x.2.inUse = false)).map Prod.fst

/-- Offsets of the free blocks of a span, in physical order. -/
def freeOffsets (sp : Span) : List Nat := fOffs SPAN_HDR_PADSZ sp.blocks

/-- Per-block well-formedness: minimum gross size, 16-alignment, correct
owner back-pointer, and a valid boundary-tag footer whenever free. -/
def blockOk (base : Nat) (b : Block) : Prop :=
  MIN_BLKSZ ≤ b.gross ∧ b.gross % ALIGNMENT = 0 ∧ b.owner = base ∧
    (b.inUse = false → b.footer = b.gross)

/-- The geometric facts about a span that the pointer-arithmetic helpers
rely on: an aligned nonzero mapped base, blocks tiling the span body, and
every block at least minimum-sized and 16-aligned. -/
def spanBasics (sp : Span) : Prop :=
  sp.base ≠ 0 ∧ sp.base % ALIGNMENT = 0 ∧ sp.base + sp.size ≤ U64 ∧
  SPAN_HDR_PADSZ + sumGross sp.blocks = sp.size ∧
  (∀ b ∈ sp.blocks, MIN_BLKSZ ≤ b.gross ∧ b.gross % ALIGNMENT = 0)

/-- Span well-formedness except eager coalescing: a valid mapped range, the
blocks tile the span body exactly, every block is well formed, the
`PREV_IN_USE` chain is coherent (and conventionally `false` for the first
block, as `spalloc` leaves it), the free list is duplicate-free and holds
exactly the offsets of the free blocks, and `blkcount` counts the in-use
blocks. -/
def spanWF0 (sp : Span) : Prop :=
  sp.base ≠ 0 ∧ sp.base % ALIGNMENT = 0 ∧ sp.base + sp.size ≤ U64 ∧
  MIN_MMAPSZ ≤ sp.size ∧
  SPAN_HDR_PADSZ + sumGross sp.blocks = sp.size ∧
  (∀ b ∈ sp.blocks, blockOk sp.base b) ∧
  chainFlags false sp.blocks = true ∧
  sp.freelist.Nodup ∧
  (∀ o ∈ sp.freelist, o ∈ freeOffsets sp) ∧
  (∀ o ∈ freeOffsets sp, o ∈ sp.freelist) ∧
  sp.blkcount = (sp.blocks.filter (fun b => b.inUse)).length

/-- Full span well-formedness: additionally no two physically-adjacent free
blocks (eager coalescing). -/
def spanWF (sp : Span) : Prop := spanWF0 sp ∧ noAdjFrom true sp.blocks = true

/-- Heap well-formedness: every span is well formed, spans occupy pairwise
disjoint address ranges, the `span_count` counter matches the list, and the
cached page size is unset or a sane `sysconf` answer (and set as soon as a
span exists). -/
def heapWF (h : Heap) : Prop :=
  (∀ sp ∈ h.spans, spanWF sp) ∧
  h.spans.Pairwise (fun s t => s.base + s.size ≤ t.base ∨ t.base + t.size ≤ s.base) ∧
  h.spanCount = h.spans.length ∧
  (h.pagesize = 0 ∨ psOk h.pagesize = true) ∧
  (h.spans ≠ [] → h.pagesize ≠ 0)

instance (base : Nat) (b : Block) : Decidable (blockOk base b) := by
  unfold blockOk; infer_instance

instance (sp : Span) : Decidable (spanWF0 sp) := by unfold spanWF0; infer_instance

instance (sp : Span) : Decidable (spanWF sp) := by unfold spanWF; infer_instance

instance (h : Heap) : Decidable (heapWF h) := by unfold heapWF; infer_instance

/-! ## Reachability through the public operations -/

/-- One public operation, with its OS oracle answers baked in: `allocate`,
`free`, `zero_alloc` or `resize`.  Only completed (non-aborted) executions
produce a successor state. -/
inductive Step : Heap → Heap → Prop where
  | malloc (ps : Nat) (os : Option Nat) (n : Nat) (r : Option Nat) (h h' : Heap) :
      m_malloc ps os n h = some (r, h') → Step h h'
  | free (p : Nat) (h h' : Heap) : m_free p h = some h' → Step h h'
  | calloc (ps : Nat) (os : Option Nat) (n s : Nat) (r : Option Nat) (h h' : Heap) :
      m_calloc ps os n s h = some (r, h') → Step h h'
  | realloc (ps : Nat) (os : Option Nat) (p n : Nat) (r : Option Nat) (h h' : Heap) :
      m_realloc ps os p n h = some (r, h') → Step h h'

/-- Heap states reachable from the initial empty state by public
operations. -/
inductive Reachable : Heap → Prop where
  | init : Reachable emptyHeap
  | step {h h' : Heap} : Reachable h → Step h h' → Reachable h'


/-! ## Concrete example heaps (used by the claim witnesses) -/

/-- The 64-byte block `allocate(1)` hands out at the tail of a fresh span
mapped at `0x10000`. -/
def blkA : Block :=
  { gross := 64, inUse := true, prevInUse := false, owner := 65536,
    footer := 0, magic := MAGIC_SPENT }

/-- The leading free block left after that allocation. -/
def blkAfree : Block :=
  { gross := 65440, inUse := false, prevInUse := false, owner := 65536,
    footer := 65440, magic := MAGIC_BABY }

/-- The span `allocate(1)` builds from the empty heap with `sysconf`
answering 4096 and `mmap` answering `0x10000`. -/
def spanA : Span :=
  { base := 65536, size := 65536, blkcount := 1,
    blocks := [blkAfree, blkA], freelist := [SPAN_HDR_PADSZ] }

/-- The heap `allocate(1)` builds from the empty heap (oracles as above);
the returned payload pointer is `131056`. -/
def chpA : Heap := { spans := [spanA], spanCount := 1, pagesize := 4096 }

/-- An empty heap whose page size is already cached. -/
def exH0 : Heap := { spans := [], spanCount := 0, pagesize := 4096 }

/-- The all-covering free block of a fresh 64 KiB span at `0x10000`. -/
def blkF : Block :=
  { gross := 65504, inUse := false, prevInUse := false, owner := 65536,
    footer := 65504, magic := MAGIC_BABY }

/-- The fresh span `spalloc` maps at `0x10000` for a 64-byte request. -/
def spanF : Span :=
  { base := 65536, size := 65536, blkcount := 0,
    blocks := [blkF], freelist := [SPAN_HDR_PADSZ] }

/-- `exH0` after that `spalloc`. -/
def exH5 : Heap := { spans := [spanF], spanCount := 1, pagesize := 4096 }

/-- An in-use block of gross size 80: the smallest in-use block that
`resize(p, 0)` does not truncate (the 16-byte remainder is below the
minimum block size). -/
def blk80 : Block :=
  { gross := 80, inUse := true, prevInUse := false, owner := 65536,
    footer := 0, magic := MAGIC_SPENT }

/-- The free remainder of the span holding `blk80`. -/
def blk80free : Block :=
  { gross := 65424, inUse := false, prevInUse := true, owner := 65536,
    footer := 65424, magic := MAGIC_BABY }

/-- A well-formed one-span heap holding `blk80` (payload pointer `65616`). -/
def span80 : Span :=
  { base := 65536, size := 65536, blkcount := 1,
    blocks := [blk80, blk80free], freelist := [112] }

/-- The heap around `span80`. -/
def chp80 : Heap := { spans := [span80], spanCount := 1, pagesize := 4096 }

/-! ## Basic lemmas about the tiling and the invariant components -/

@[simp] theorem mergeBlocks_gross (a b : Block) :
    (mergeBlocks a b).gross = a.gross + b.gross := rfl

@[simp] theorem mergeBlocks_inUse (a b : Block) :
    (mergeBlocks a b).inUse = a.inUse := rfl

@[simp] theorem mergeBlocks_prevInUse (a b : Block) :
    (mergeBlocks a b).prevInUse = a.prevInUse := rfl

@[simp] theorem mergeBlocks_owner (a b : Block) :
    (mergeBlocks a b).owner = a.owner := rfl

@[simp] theorem mergeBlocks_footer (a b : Block) :
    (mergeBlocks a b).footer = a.gross + b.gross := rfl

@[simp] theorem mergeBlocks_magic (a b : Block) :
    (mergeBlocks a b).magic = a.magic := rfl

@[simp] theorem sumGross_nil : sumGross [] = 0 := rfl

@[simp] theorem sumGross_cons (b : Block) (bs : List Block) :
    sumGross (b :: bs) = b.gross + sumGross bs := rfl

@[simp] theorem sumGross_append (xs ys : List Block) :
    sumGross (xs ++ ys) = sumGross xs + sumGross ys := by
  induction xs with
  | nil => simp
  | cons b bs ih => simp [ih, Nat.add_assoc]

@[simp] theorem endUse_nil (c : Bool) : endUse c [] = c := rfl

@[simp] theorem endUse_cons (c : Bool) (b : Block) (bs : List Block) :
    endUse c (b :: bs) = endUse b.inUse bs := rfl

@[simp] theorem endUse_append (c : Bool) (xs ys : List Block) :
    endUse c (xs ++ ys) = endUse (endUse c xs) ys := by
  induction xs generalizing c with
  | nil => rfl
  | cons b bs ih => simp [ih]

@[simp] theorem chainFlags_nil (c : Bool) : chainFlags c [] = true := rfl

@[simp] theorem chainFlags_cons (c : Bool) (b : Block) (bs : List Block) :
    chainFlags c (b :: bs) = ((b.prevInUse == c) && chainFlags b.inUse bs) := rfl

theorem chainFlags_append (c : Bool) (xs ys : List Block) :
    chainFlags c (xs ++ ys) = (chainFlags c xs && chainFlags (endUse c xs) ys) := by
  induction xs generalizing c with
  | nil => simp
  | cons b bs ih => simp [ih, Bool.and_assoc]

@[simp] theorem noAdjFrom_nil (c : Bool) : noAdjFrom c [] = true := rfl

@[simp] theorem noAdjFrom_cons (c : Bool) (b : Block) (bs : List Block) :
    noAdjFrom c (b :: bs) = ((c || b.inUse) && noAdjFrom b.inUse bs) := rfl

theorem noAdjFrom_append (c : Bool) (xs ys : List Block) :
    noAdjFrom c (xs ++ ys) = (noAdjFrom c xs && noAdjFrom (endUse c xs) ys) := by
  induction xs generalizing c with
  | nil => simp
  | cons b bs ih => simp [ih, Bool.and_assoc]

@[simp] theorem offsetsFrom_nil (cur : Nat) : offsetsFrom cur [] = [] := rfl

@[simp] theorem offsetsFrom_cons (cur : Nat) (b : Block) (bs : List Block) :
    offsetsFrom cur (b :: bs) = (cur, b) :: offsetsFrom (cur + b.gross) bs := rfl

theorem offsetsFrom_append (cur : Nat) (xs ys : List Block) :
    offsetsFrom cur (xs ++ ys) =
      offsetsFrom cur xs ++ offsetsFrom (cur + sumGross xs) ys := by
  induction xs generalizing cur with
  | nil => simp
  | cons b bs ih => simp [ih, Nat.add_assoc]

theorem offsetsFrom_le {cur : Nat} {bs : List Block} :
    ∀ x ∈ offsetsFrom cur bs, cur ≤ x.1 := by
  induction bs generalizing cur with
  | nil => simp
  | cons b bs ih =>
    intro x hx
    simp only [offsetsFrom_cons, List.mem_cons] at hx
    rcases hx with rfl | hx
    · exact Nat.le_refl _
    · exact Nat.le_trans (Nat.le_add_right _ _) (ih x hx)

theorem offsetsFrom_mod {cur : Nat} {bs : List Block}
    (h16 : ∀ b ∈ bs, b.gross % ALIGNMENT = 0) (hc : cur % ALIGNMENT = 0) :
    ∀ x ∈ offsetsFrom cur bs, x.1 % ALIGNMENT = 0 := by
  induction bs generalizing cur with
  | nil => simp
  | cons b bs ih =>
    intro x hx
    simp only [offsetsFrom_cons, List.mem_cons] at hx
    rcases hx with rfl | hx
    · exact hc
    · refine ih (fun b hb => h16 b (List.mem_cons_of_mem _ hb)) ?_ x hx
      have hbg := h16 b (List.mem_cons_self _ _)
      simp only [ALIGNMENT] at hc hbg ⊢
      omega

theorem offsetsFrom_ub {cur : Nat} {bs : List Block} :
    ∀ x ∈ offsetsFrom cur bs, x.1 + x.2.gross ≤ cur + sumGross bs := by
  induction bs generalizing cur with
  | nil => simp
  | cons b bs ih =>
    intro x hx
    simp only [offsetsFrom_cons, List.mem_cons] at hx
    rcases hx with rfl | hx
    · simp only [sumGross_cons]; omega
    · have := ih x hx
      simp only [sumGross_cons]
      omega

theorem mem_of_blkAt_eq_some {bs : List Block} {cur o : Nat} {b : Block}
    (h : blkAt bs cur o = some b) : (o, b) ∈ offsetsFrom cur bs := by
  induction bs generalizing cur with
  | nil => simp [blkAt] at h
  | cons hd tl ih =>
    rw [blkAt] at h
    by_cases ho : o = cur
    · simp [ho] at h
      simp [ho, h]
    · simp [ho] at h
      exact List.mem_cons_of_mem _ (ih h)

theorem blkAt_eq_some_of_mem {bs : List Block} {cur o : Nat} {b : Block}
    (hpos : ∀ b ∈ bs, 0 < b.gross) (h : (o, b) ∈ offsetsFrom cur bs) :
    blkAt bs cur o = some b := by
  induction bs generalizing cur with
  | nil => simp at h
  | cons hd tl ih =>
    simp only [offsetsFrom_cons, List.mem_cons] at h
    rw [blkAt]
    rcases h with h | h
    · have h1 : o = cur := congrArg Prod.fst h
      have h2 : b = hd := congrArg Prod.snd h
      simp [h1, h2]
    · have hlt : cur < o := by
        have h0 : 0 < hd.gross := hpos hd (List.mem_cons_self _ _)
        have := offsetsFrom_le (o, b) h
        simp at this
        omega
      have ho : ¬ o = cur := by omega
      simp [ho]
      exact ih (fun b hb => hpos b (List.mem_cons_of_mem _ hb)) h

theorem replaceAt_eq_some {bs bs' repl : List Block} {cur o : Nat}
    (h : replaceAt bs cur o repl = some bs') :
    ∃ pre b post, bs = pre ++ b :: post ∧ bs' = pre ++ repl ++ post ∧
      o = cur + sumGross pre := by
  induction bs generalizing cur bs' with
  | nil => simp [replaceAt] at h
  | cons hd tl ih =>
    rw [replaceAt] at h
    by_cases ho : o = cur
    · simp [ho] at h
      exact ⟨[], hd, tl, by simp, by simp [h], by simp [ho]⟩
    · simp [ho] at h
      obtain ⟨ts, hts, rfl⟩ := h
      obtain ⟨pre, b, post, h1, h2, h3⟩ := ih hts
      exact ⟨hd :: pre, b, post, by simp [h1], by simp [h2], by simp [h3]; omega⟩

theorem replaceAt_of_decomp {pre post repl : List Block} {b : Block} {cur : Nat}
    (hpos : ∀ x ∈ pre, 0 < x.gross) :
    replaceAt (pre ++ b :: post) cur (cur + sumGross pre) repl =
      some (pre ++ repl ++ post) := by
  induction pre generalizing cur with
  | nil => simp [replaceAt]
  | cons hd tl ih =>
    have h0 : 0 < hd.gross := hpos hd (List.mem_cons_self _ _)
    have ho : ¬ (cur + sumGross (hd :: tl) = cur) := by simp; omega
    rw [List.cons_append, replaceAt, if_neg ho]
    have := @ih (cur + hd.gross) (fun x hx => hpos x (List.mem_cons_of_mem _ hx))
    rw [show cur + hd.gross + sumGross tl = cur + sumGross (hd :: tl) by simp; omega] at this
    rw [this]
    simp

theorem replace2At_eq_some {bs bs' repl : List Block} {cur o : Nat}
    (h : replace2At bs cur o repl = some bs') :
    ∃ pre a b post, bs = pre ++ a :: b :: post ∧ bs' = pre ++ repl ++ post ∧
      o = cur + sumGross pre := by
  induction bs generalizing cur bs' with
  | nil => simp [replace2At] at h
  | cons hd tl ih =>
    match tl, h with
    | [], h => simp [replace2At] at h
    | b2 :: rest, h =>
      rw [replace2At] at h
      by_cases ho : o = cur
      · simp [ho] at h
        exact ⟨[], hd, b2, rest, by simp, by simp [h], by simp [ho]⟩
      · simp [ho] at h
        obtain ⟨ts, hts, rfl⟩ := h
        obtain ⟨pre, a, b, post, h1, h2, h3⟩ := ih hts
        exact ⟨hd :: pre, a, b, post, by simp [h1], by simp [h2], by simp [h3]; omega⟩

theorem replace2At_of_decomp {pre post repl : List Block} {a b : Block} {cur : Nat}
    (hpos : ∀ x ∈ pre, 0 < x.gross) :
    replace2At (pre ++ a :: b :: post) cur (cur + sumGross pre) repl =
      some (pre ++ repl ++ post) := by
  induction pre generalizing cur with
  | nil => simp [replace2At]
  | cons hd tl ih =>
    have h0 : 0 < hd.gross := hpos hd (List.mem_cons_self _ _)
    have ihtl := fun cur => @ih cur (fun x hx => hpos x (List.mem_cons_of_mem _ hx))
    cases tl with
    | nil =>
      have ho : ¬ (cur + sumGross [hd] = cur) := by simp; omega
      simp only [List.cons_append, List.nil_append]
      rw [replace2At, if_neg ho]
      have he : cur + sumGross ([hd] : List Block) = cur + hd.gross := by simp
      rw [he, replace2At, if_pos rfl]
      simp
    | cons t ts =>
      have ho : ¬ (cur + sumGross (hd :: t :: ts) = cur) := by simp; omega
      simp only [List.cons_append]
      rw [replace2At, if_neg ho]
      have he : cur + sumGross (hd :: t :: ts) = cur + hd.gross + sumGross (t :: ts) := by
        simp; omega
      rw [he]
      have := ihtl (cur + hd.gross)
      simp only [List.cons_append] at this
      rw [this]
      simp

theorem modifyAt_eq_some {bs bs' : List Block} {cur o : Nat} {f : Block → Block}
    (h : modifyAt bs cur o f = some bs') :
    ∃ pre b post, bs = pre ++ b :: post ∧ bs' = pre ++ f b :: post ∧
      o = cur + sumGross pre := by
  induction bs generalizing cur bs' with
  | nil => simp [modifyAt] at h
  | cons hd tl ih =>
    rw [modifyAt] at h
    by_cases ho : o = cur
    · simp [ho] at h
      exact ⟨[], hd, tl, by simp, by simp [h], by simp [ho]⟩
    · simp [ho] at h
      obtain ⟨ts, hts, rfl⟩ := h
      obtain ⟨pre, b, post, h1, h2, h3⟩ := ih hts
      exact ⟨hd :: pre, b, post, by simp [h1], by simp [h2], by simp [h3]; omega⟩

theorem modifyAt_of_decomp {pre post : List Block} {b : Block} {cur : Nat} {f : Block → Block}
    (hpos : ∀ x ∈ pre, 0 < x.gross) :
    modifyAt (pre ++ b :: post) cur (cur + sumGross pre) f =
      some (pre ++ f b :: post) := by
  induction pre generalizing cur with
  | nil => simp [modifyAt]
  | cons hd tl ih =>
    have h0 : 0 < hd.gross := hpos hd (List.mem_cons_self _ _)
    have ho : ¬ (cur + sumGross (hd :: tl) = cur) := by simp; omega
    rw [List.cons_append, modifyAt, if_neg ho]
    have := @ih (cur + hd.gross) (fun x hx => hpos x (List.mem_cons_of_mem _ hx))
    rw [show cur + hd.gross + sumGross tl = cur + sumGross (hd :: tl) by simp; omega] at this
    rw [this]
    simp

theorem blkAt_of_decomp {pre post : List Block} {b : Block} {cur : Nat}
    (hpos : ∀ x ∈ pre, 0 < x.gross) :
    blkAt (pre ++ b :: post) cur (cur + sumGross pre) = some b := by
  induction pre generalizing cur with
  | nil => simp [blkAt]
  | cons hd tl ih =>
    have h0 : 0 < hd.gross := hpos hd (List.mem_cons_self _ _)
    have ho : ¬ (cur + sumGross (hd :: tl) = cur) := by simp; omega
    rw [List.cons_append, blkAt, if_neg ho]
    have := @ih (cur + hd.gross) (fun x hx => hpos x (List.mem_cons_of_mem _ hx))
    rw [show cur + hd.gross + sumGross tl = cur + sumGross (hd :: tl) by simp; omega] at this
    exact this

theorem prevFooter_of_decomp {pre post : List Block} {a : Block} {cur : Nat}
    (hpos : ∀ x ∈ pre, 0 < x.gross) (ha : 0 < a.gross) :
    prevFooter (pre ++ a :: post) cur (cur + sumGross pre + a.gross) =
      some a.footer := by
  induction pre generalizing cur with
  | nil => simp [prevFooter]
  | cons hd tl ih =>
    have h0 : 0 < hd.gross := hpos hd (List.mem_cons_self _ _)
    have hsum : ∀ x ∈ tl, 0 < x.gross := fun x hx => hpos x (List.mem_cons_of_mem _ hx)
    have hlb : cur + hd.gross ≤ cur + sumGross (hd :: tl) := by
      simp only [sumGross_cons]; omega
    have ho : ¬ (cur + hd.gross = cur + sumGross (hd :: tl) + a.gross) := by
      simp only [sumGross_cons] at *
      omega
    rw [List.cons_append, prevFooter, if_neg ho]
    have := @ih (cur + hd.gross) hsum
    rw [show cur + hd.gross + sumGross tl + a.gross = cur + sumGross (hd :: tl) + a.gross by
      simp; omega] at this
    exact this

@[simp] theorem fOffs_nil (cur : Nat) : fOffs cur [] = [] := rfl

theorem fOffs_cons (cur : Nat) (b : Block) (bs : List Block) :
    fOffs cur (b :: bs) =
      (if b.inUse = false then [cur] else []) ++ fOffs (cur + b.gross) bs := by
  unfold fOffs
  by_cases hb : b.inUse = false <;> simp [hb]

theorem fOffs_append (cur : Nat) (xs ys : List Block) :
    fOffs cur (xs ++ ys) = fOffs cur xs ++ fOffs (cur + sumGross xs) ys := by
  unfold fOffs
  rw [offsetsFrom_append, List.filter_append, List.map_append]

theorem snd_mem_of_mem_offsetsFrom {cur : Nat} {bs : List Block} {x : Nat × Block}
    (h : x ∈ offsetsFrom cur bs) : x.2 ∈ bs := by
  induction bs generalizing cur with
  | nil => simp at h
  | cons hd tl ih =>
    simp only [offsetsFrom_cons, List.mem_cons] at h
    rcases h with he | h
    · have : x.2 = hd := congrArg Prod.snd he
      simp [this]
    · exact List.mem_cons_of_mem _ (ih h)

theorem mem_fOffs_bounds {cur o : Nat} {bs : List Block}
    (hpos : ∀ x ∈ bs, 0 < x.gross) (h : o ∈ fOffs cur bs) :
    cur ≤ o ∧ o < cur + sumGross bs := by
  unfold fOffs at h
  simp only [List.mem_map, List.mem_filter] at h
  obtain ⟨⟨o', b⟩, ⟨hmem, hfree⟩, rfl⟩ := h
  have h1 := offsetsFrom_le _ hmem
  have h2 := offsetsFrom_ub _ hmem
  have h3 : 0 < b.gross := hpos b (snd_mem_of_mem_offsetsFrom hmem)
  simp only at h1 h2
  exact ⟨h1, by omega⟩

theorem mem_fOffs_of_free {cur : Nat} {pre post : List Block} {b : Block}
    (hb : b.inUse = false) :
    cur + sumGross pre ∈ fOffs cur (pre ++ b :: post) := by
  rw [fOffs_append, fOffs_cons]
  simp [hb]

/-- Every block whose offset is in `fOffs` is free; conversely handled by
`mem_fOffs_of_free`. -/
theorem blkAt_free_of_mem_fOffs {cur o : Nat} {bs : List Block}
    (hpos : ∀ x ∈ bs, 0 < x.gross) (h : o ∈ fOffs cur bs) :
    ∃ b, blkAt bs cur o = some b ∧ b.inUse = false := by
  unfold fOffs at h
  simp only [List.mem_map, List.mem_filter] at h
  obtain ⟨⟨o', b⟩, ⟨hmem, hfree⟩, rfl⟩ := h
  simp only [decide_eq_true_eq] at hfree
  exact ⟨b, blkAt_eq_some_of_mem hpos hmem, hfree⟩

/-! ## Arithmetic facts about wrap-around helpers, `ALIGN_UP` and sizes -/

theorem add64_eq {a b : Nat} (h : a + b < U64) : add64 a b = a + b :=
  Nat.mod_eq_of_lt h

theorem sub64_eq {a b : Nat} (hb : b ≤ a) (ha : a < U64) : sub64 a b = a - b := by
  unfold sub64
  have hbU : b < U64 := by omega
  rw [Nat.mod_eq_of_lt hbU]
  have h1 : a + (U64 - b) = U64 + (a - b) := by omega
  rw [h1, Nat.add_mod_left, Nat.mod_eq_of_lt (by omega)]

theorem mod16_U64 : (16 : Nat) ∣ U64 := by
  have : U64 = 16 * 2 ^ 60 := by norm_num [U64]
  exact ⟨2 ^ 60, this⟩

theorem add64_mod16 (a b : Nat) : add64 a b % 16 = (a + b) % 16 := by
  unfold add64
  exact Nat.mod_mod_of_dvd _ mod16_U64

theorem sumGross_mod16 {bs : List Block}
    (h16 : ∀ x ∈ bs, x.gross % ALIGNMENT = 0) : sumGross bs % 16 = 0 := by
  induction bs with
  | nil => simp
  | cons b tl ih =>
    have hb := h16 b (List.mem_cons_self _ _)
    have ht := ih (fun x hx => h16 x (List.mem_cons_of_mem _ hx))
    simp only [ALIGNMENT] at hb
    simp only [sumGross_cons]
    omega

theorem land_mask (k K x : Nat) (hk : k ≤ K) (hx : x < 2 ^ K) :
    Nat.land x (2 ^ K - 2 ^ k) = x - x % 2 ^ k := by
  have h1 : 2 ^ K - 2 ^ k = (2 ^ (K - k) - 1) <<< k := by
    rw [Nat.shiftLeft_eq, Nat.sub_mul, Nat.one_mul, ← Nat.pow_add, Nat.sub_add_cancel hk]
  have h2 : x - x % 2 ^ k = (x >>> k) <<< k := by
    rw [Nat.shiftLeft_eq, Nat.shiftRight_eq_div_pow]
    have h := Nat.div_add_mod x (2 ^ k)
    rw [Nat.mul_comm] at h
    omega
  have hland : Nat.land x (2 ^ K - 2 ^ k) = x &&& (2 ^ K - 2 ^ k) := rfl
  rw [hland, h1, h2]
  apply Nat.eq_of_testBit_eq
  intro i
  rw [Nat.testBit_land, Nat.testBit_shiftLeft, Nat.testBit_shiftLeft, Nat.testBit_shiftRight,
    Nat.testBit_two_pow_sub_one]
  by_cases hik : k ≤ i
  · have hki : k + (i - k) = i := by omega
    rw [hki]
    have h3 : decide (i ≥ k) = true := by simpa using hik
    rw [h3]
    by_cases hiK : i < K
    · have h4 : decide (i - k < K - k) = true := by simp; omega
      rw [h4]
      cases x.testBit i <;> simp
    · have h5 : x.testBit i = false :=
        Nat.testBit_lt_two_pow (lt_of_lt_of_le hx (Nat.pow_le_pow_right (by omega) (by omega)))
      rw [h5]
      simp
  · have h3 : decide (i ≥ k) = false := by simpa using hik
    rw [h3]
    simp

/-- For power-of-two alignments without overflow, the C bit trick computes
the usual round-up. -/
theorem alignUp_pow2 {n k : Nat} (hk : k ≤ 64) (hw : n + 2 ^ k ≤ U64) :
    ALIGN_UP n (2 ^ k) = (n + 2 ^ k - 1) - (n + 2 ^ k - 1) % 2 ^ k := by
  have hp : 0 < 2 ^ k := Nat.pos_pow_of_pos _ (by omega)
  have hy : n + 2 ^ k - 1 < U64 := by
    have : (0:Nat) < U64 := by simp [U64]
    omega
  have hmod : (n + 2 ^ k - 1) % U64 = n + 2 ^ k - 1 := Nat.mod_eq_of_lt hy
  unfold ALIGN_UP
  rw [hmod]
  have hU : U64 = 2 ^ 64 := rfl
  rw [hU]
  exact land_mask k 64 _ hk (hU ▸ hy)

theorem alignUp_pow2_dvd {n k : Nat} (hk : k ≤ 64) (hw : n + 2 ^ k ≤ U64) :
    2 ^ k ∣ ALIGN_UP n (2 ^ k) := by
  rw [alignUp_pow2 hk hw]
  have h := Nat.div_add_mod (n + 2 ^ k - 1) (2 ^ k)
  exact ⟨(n + 2 ^ k - 1) / 2 ^ k, by omega⟩

theorem alignUp_pow2_ge {n k : Nat} (hk : k ≤ 64) (hw : n + 2 ^ k ≤ U64) :
    n ≤ ALIGN_UP n (2 ^ k) := by
  rw [alignUp_pow2 hk hw]
  have hp : 0 < 2 ^ k := Nat.pos_pow_of_pos _ (by omega)
  have := Nat.mod_lt (n + 2 ^ k - 1) hp
  omega

theorem alignUp_pow2_lt {n k : Nat} (hk : k ≤ 64) (hw : n + 2 ^ k ≤ U64) :
    ALIGN_UP n (2 ^ k) < n + 2 ^ k := by
  rw [alignUp_pow2 hk hw]
  have hp : 0 < 2 ^ k := Nat.pos_pow_of_pos _ (by omega)
  omega

theorem psOk_spec {ps : Nat} (h : psOk ps = true) :
    ∃ k, 4 ≤ k ∧ k ≤ 32 ∧ ps = 2 ^ k := by
  unfold psOk at h
  rw [List.any_eq_true] at h
  obtain ⟨k, hk, hh⟩ := h
  rw [List.mem_range] at hk
  rw [Bool.and_eq_true, decide_eq_true_eq, decide_eq_true_eq] at hh
  exact ⟨k, hh.1, by omega, hh.2⟩

/-- The size request helper for requests up to `2 ^ 63` bytes: at least the
minimum block size, 16-aligned, and bounded. -/
theorem blksizerequest_spec {n : Nat} (hn : n ≤ 2 ^ 63) :
    MIN_BLKSZ ≤ blksizerequest n ∧ blksizerequest n % ALIGNMENT = 0 ∧
      blksizerequest n ≤ 2 ^ 63 + MIN_BLKSZ := by
  have h16 : (ALIGNMENT : Nat) = 2 ^ 4 := rfl
  have hw : n + 2 ^ 4 ≤ U64 := by
    have : (2:Nat) ^ 63 + 2 ^ 4 ≤ 2 ^ 64 := by norm_num
    simp only [U64]
    omega
  have hd : 2 ^ 4 ∣ ALIGN_UP n ALIGNMENT := h16 ▸ alignUp_pow2_dvd (by omega) hw
  have hge : n ≤ ALIGN_UP n ALIGNMENT := h16 ▸ alignUp_pow2_ge (by omega) hw
  have hlt : ALIGN_UP n ALIGNMENT < n + 2 ^ 4 := h16 ▸ alignUp_pow2_lt (by omega) hw
  have hgs : gross_size n = BLOCK_HDR_PADSZ + ALIGN_UP n ALIGNMENT := by
    unfold gross_size add64
    apply Nat.mod_eq_of_lt
    simp only [U64, BLOCK_HDR_PADSZ]
    omega
  have hmod : gross_size n % ALIGNMENT = 0 := by
    rw [hgs]
    obtain ⟨c, hc⟩ := hd
    simp only [ALIGNMENT, BLOCK_HDR_PADSZ] at *
    omega
  unfold blksizerequest usz_max
  by_cases hcmp : gross_size n > MIN_BLKSZ
  · simp only [if_pos hcmp]
    refine ⟨by omega, hmod, ?_⟩
    rw [hgs]
    simp only [BLOCK_HDR_PADSZ, MIN_BLKSZ]
    omega
  · simp only [if_neg hcmp]
    exact ⟨Nat.le_refl _, by simp [MIN_BLKSZ, ALIGNMENT], by simp only [MIN_BLKSZ]; omega⟩

/-- The span size `spalloc` computes, for sane page sizes and bounded
requests: no overflow, page-aligned (hence 16-aligned), at least the minimum
map size and large enough for the request plus the span header. -/
theorem spanSizeFor_spec {ps g : Nat} (hps : psOk ps = true) (hg : g ≤ 2 ^ 63 + MIN_BLKSZ) :
    MIN_MMAPSZ ≤ spanSizeFor ps g ∧ g + SPAN_HDR_PADSZ ≤ spanSizeFor ps g ∧
      spanSizeFor ps g % ALIGNMENT = 0 ∧ spanSizeFor ps g ≤ 2 ^ 63 + 2 ^ 40 := by
  obtain ⟨k, hk4, hk32, rfl⟩ := psOk_spec hps
  have hadd : add64 g SPAN_HDR_PADSZ = g + SPAN_HDR_PADSZ := by
    unfold add64
    apply Nat.mod_eq_of_lt
    simp only [U64, SPAN_HDR_PADSZ, MIN_BLKSZ] at *
    omega
  unfold spanSizeFor
  rw [hadd]
  set m := usz_max (g + SPAN_HDR_PADSZ) MIN_MMAPSZ with hm
  have hmge1 : g + SPAN_HDR_PADSZ ≤ m := by
    rw [hm]; unfold usz_max; split <;> omega
  have hmge2 : MIN_MMAPSZ ≤ m := by
    rw [hm]; unfold usz_max; split <;> omega
  have hmub : m ≤ 2 ^ 63 + 2 ^ 17 := by
    rw [hm]; unfold usz_max
    simp only [SPAN_HDR_PADSZ, MIN_BLKSZ, MIN_MMAPSZ] at *
    split <;> omega
  have hw : m + 2 ^ k ≤ U64 := by
    have h1 : (2:Nat) ^ k ≤ 2 ^ 32 := Nat.pow_le_pow_right (by omega) hk32
    simp only [U64]
    have : (2:Nat) ^ 63 + 2 ^ 17 + 2 ^ 32 ≤ 2 ^ 64 := by norm_num
    omega
  have hge := alignUp_pow2_ge (n := m) (by omega : k ≤ 64) hw
  have hlt := alignUp_pow2_lt (n := m) (by omega : k ≤ 64) hw
  have hdvd := alignUp_pow2_dvd (n := m) (by omega : k ≤ 64) hw
  refine ⟨by omega, by omega, ?_, ?_⟩
  · obtain ⟨c, hc⟩ := hdvd
    have h16 : (2:Nat) ^ 4 ∣ 2 ^ k := Nat.pow_dvd_pow 2 hk4
    obtain ⟨d, hd⟩ := h16
    simp only [ALIGNMENT]
    rw [hc, hd]
    have : 2 ^ 4 * d * c = 16 * (d * c) := by ring
    rw [this]
    omega
  · have h1 : (2:Nat) ^ k ≤ 2 ^ 32 := Nat.pow_le_pow_right (by omega) hk32
    have : (2:Nat) ^ 63 + 2 ^ 17 + 2 ^ 32 ≤ 2 ^ 63 + 2 ^ 40 := by norm_num
    omega

/-! ## Characterizations of the block primitives on decomposed spans -/

theorem spanWF0_basics {sp : Span} (h : spanWF0 sp) : spanBasics sp :=
  ⟨h.1, h.2.1, h.2.2.1, h.2.2.2.2.1, fun x hx =>
    ⟨(h.2.2.2.2.2.1 x hx).1, (h.2.2.2.2.2.1 x hx).2.1⟩⟩

theorem basics_pos {sp : Span} (h : spanBasics sp) : ∀ x ∈ sp.blocks, 0 < x.gross := by
  intro x hx
  have h64 := (h.2.2.2.2 x hx).1
  simp only [MIN_BLKSZ] at h64
  omega

theorem basics_mod {sp : Span} (h : spanBasics sp) :
    ∀ x ∈ sp.blocks, x.gross % ALIGNMENT = 0 := fun x hx => (h.2.2.2.2 x hx).2

theorem basics_size_lt {sp : Span} (h : spanBasics sp) : sp.size < U64 := by
  have h1 := h.1
  have h2 := h.2.1
  have h3 := h.2.2.1
  have : 0 < sp.base := by omega
  omega

theorem spanWF0_pos {sp : Span} (h : spanWF0 sp) : ∀ x ∈ sp.blocks, 0 < x.gross :=
  basics_pos (spanWF0_basics h)

theorem spanWF0_mod {sp : Span} (h : spanWF0 sp) :
    ∀ x ∈ sp.blocks, x.gross % ALIGNMENT = 0 := basics_mod (spanWF0_basics h)

theorem spanWF0_size_lt {sp : Span} (h : spanWF0 sp) : sp.size < U64 :=
  basics_size_lt (spanWF0_basics h)

theorem getBlk_of_decompB {sp : Span} {pre post : List Block} {b : Block} {o : Nat}
    (h0 : spanBasics sp) (hb : sp.blocks = pre ++ b :: post)
    (ho : o = SPAN_HDR_PADSZ + sumGross pre) : getBlk sp o = some b := by
  unfold getBlk
  rw [hb, ho]
  exact blkAt_of_decomp (fun x hx => basics_pos h0 x (by rw [hb]; exact List.mem_append_left _ hx))

theorem getBlk_of_decomp {sp : Span} {pre post : List Block} {b : Block} {o : Nat}
    (h0 : spanWF0 sp) (hb : sp.blocks = pre ++ b :: post)
    (ho : o = SPAN_HDR_PADSZ + sumGross pre) : getBlk sp o = some b :=
  getBlk_of_decompB (spanWF0_basics h0) hb ho

theorem decomp_off_modB {sp : Span} {pre post : List Block} {b : Block}
    (h0 : spanBasics sp) (hb : sp.blocks = pre ++ b :: post) :
    (SPAN_HDR_PADSZ + sumGross pre) % 16 = 0 := by
  have hmod : sumGross pre % 16 = 0 :=
    sumGross_mod16 (fun x hx => basics_mod h0 x (by rw [hb]; exact List.mem_append_left _ hx))
  simp only [SPAN_HDR_PADSZ]
  omega

theorem decomp_off_mod {sp : Span} {pre post : List Block} {b : Block}
    (h0 : spanWF0 sp) (hb : sp.blocks = pre ++ b :: post) :
    (SPAN_HDR_PADSZ + sumGross pre) % 16 = 0 :=
  decomp_off_modB (spanWF0_basics h0) hb

theorem decomp_off_ubB {sp : Span} {pre post : List Block} {b : Block}
    (h0 : spanBasics sp) (hb : sp.blocks = pre ++ b :: post) :
    SPAN_HDR_PADSZ + sumGross pre + b.gross + sumGross post = sp.size := by
  have hsum := h0.2.2.2.1
  rw [hb] at hsum
  simp only [sumGross_append, sumGross_cons] at hsum
  omega

theorem decomp_off_ub {sp : Span} {pre post : List Block} {b : Block}
    (h0 : spanWF0 sp) (hb : sp.blocks = pre ++ b :: post) :
    SPAN_HDR_PADSZ + sumGross pre + b.gross + sumGross post = sp.size :=
  decomp_off_ubB (spanWF0_basics h0) hb

theorem blknextadj_lastB {sp : Span} {pre : List Block} {b : Block} {o : Nat}
    (h0 : spanBasics sp) (hb : sp.blocks = pre ++ [b])
    (ho : o = SPAN_HDR_PADSZ + sumGross pre) : blknextadj sp o = some none := by
  have hub := decomp_off_ubB h0 hb
  simp only [sumGross_nil] at hub
  unfold blknextadj
  rw [getBlk_of_decompB h0 hb ho]
  dsimp only
  have halign : (sp.base + (o + b.gross)) % ALIGNMENT = 0 := by
    have h1 := h0.2.1
    have h2 := decomp_off_modB h0 hb
    have h3 := (h0.2.2.2.2 b (by rw [hb]; exact List.mem_append_right _ (by simp))).2
    simp only [ALIGNMENT] at *
    omega
  rw [if_neg (by simp [halign])]
  rw [if_pos (by omega)]

theorem blknextadj_last {sp : Span} {pre : List Block} {b : Block} {o : Nat}
    (h0 : spanWF0 sp) (hb : sp.blocks = pre ++ [b])
    (ho : o = SPAN_HDR_PADSZ + sumGross pre) : blknextadj sp o = some none :=
  blknextadj_lastB (spanWF0_basics h0) hb ho

theorem blknextadj_midB {sp : Span} {pre post : List Block} {b q : Block} {o : Nat}
    (h0 : spanBasics sp) (hb : sp.blocks = pre ++ b :: q :: post)
    (ho : o = SPAN_HDR_PADSZ + sumGross pre) :
    blknextadj sp o = some (some (o + b.gross)) := by
  have hub := decomp_off_ubB h0 hb
  have hq64 : MIN_BLKSZ ≤ q.gross :=
    (h0.2.2.2.2 q (by rw [hb]; exact List.mem_append_right _ (by simp))).1
  unfold blknextadj
  rw [getBlk_of_decompB h0 hb ho]
  dsimp only
  have halign : (sp.base + (o + b.gross)) % ALIGNMENT = 0 := by
    have h1 := h0.2.1
    have h2 := decomp_off_modB h0 hb
    have h3 := (h0.2.2.2.2 b (by rw [hb]; exact List.mem_append_right _ (by simp))).2
    simp only [ALIGNMENT] at *
    omega
  rw [if_neg (by simp [halign])]
  have hlt : ¬ sp.size ≤ o + b.gross := by
    simp only [sumGross_cons, MIN_BLKSZ] at hub hq64 ⊢
    omega
  rw [if_neg hlt]
  have hnext : getBlk sp (o + b.gross) = some q := by
    refine @getBlk_of_decompB _ (pre ++ [b]) _ _ _ h0 (by simpa using hb) ?_
    simp only [sumGross_append, sumGross_cons, sumGross_nil]
    omega
  rw [hnext]
  simp

theorem blknextadj_mid {sp : Span} {pre post : List Block} {b q : Block} {o : Nat}
    (h0 : spanWF0 sp) (hb : sp.blocks = pre ++ b :: q :: post)
    (ho : o = SPAN_HDR_PADSZ + sumGross pre) :
    blknextadj sp o = some (some (o + b.gross)) :=
  blknextadj_midB (spanWF0_basics h0) hb ho

theorem blkprevadj_first {sp : Span} {post : List Block} {b : Block}
    (h0 : spanWF0 sp) (hb : sp.blocks = b :: post) (hpf : b.prevInUse = false) :
    blkprevadj sp SPAN_HDR_PADSZ = some none := by
  unfold blkprevadj
  rw [@getBlk_of_decomp _ [] _ _ _ h0 (by simpa using hb) (by simp)]
  dsimp only
  rw [hpf]
  simp [SPAN_HDR_PADSZ]

theorem blkprevadj_mid {sp : Span} {pre post : List Block} {a b : Block} {o : Nat}
    (h0 : spanWF0 sp) (hb : sp.blocks = pre ++ a :: b :: post)
    (ho : o = SPAN_HDR_PADSZ + sumGross pre + a.gross)
    (hpf : b.prevInUse = false) (hafree : a.inUse = false) :
    blkprevadj sp o = some (some (SPAN_HDR_PADSZ + sumGross pre)) := by
  have hbOk := h0.2.2.2.2.2.1
  have haOk : blockOk sp.base a := hbOk a (by rw [hb]; exact List.mem_append_right _ (by simp))
  have ha64 : MIN_BLKSZ ≤ a.gross := haOk.1
  have hfoot : a.footer = a.gross := haOk.2.2.2 hafree
  unfold blkprevadj
  have hget : getBlk sp o = some b := by
    refine @getBlk_of_decomp _ (pre ++ [a]) _ _ _ h0 (by simpa using hb) ?_
    simp only [sumGross_append, sumGross_cons, sumGross_nil]
    omega
  rw [hget]
  dsimp only
  rw [hpf]
  simp only [Bool.false_eq_true, if_false]
  have hge : ¬ o < SPAN_HDR_PADSZ + 8 := by
    rw [ho]
    simp only [SPAN_HDR_PADSZ, MIN_BLKSZ] at ha64 ⊢
    omega
  rw [if_neg hge]
  have hfoot' : prevFooter sp.blocks SPAN_HDR_PADSZ o = some a.footer := by
    rw [hb, ho]
    exact prevFooter_of_decomp
      (fun x hx => spanWF0_pos h0 x (by rw [hb]; exact List.mem_append_left _ hx))
      (by simp only [MIN_BLKSZ] at ha64; omega)
  rw [hfoot']
  dsimp only
  rw [hfoot]
  have hub := @decomp_off_ub _ (pre ++ [a]) _ _ h0 (by simpa using hb)
  simp only [sumGross_append, sumGross_cons, sumGross_nil] at hub
  have hoU : o < U64 := by
    have := spanWF0_size_lt h0
    omega
  have hsub : sub64 o a.gross = SPAN_HDR_PADSZ + sumGross pre := by
    rw [sub64_eq (by omega) hoU]
    omega
  rw [hsub]
  have halign : add64 sp.base (SPAN_HDR_PADSZ + sumGross pre) % ALIGNMENT = 0 := by
    rw [show (ALIGNMENT : Nat) = 16 from rfl, add64_mod16]
    have h1 := h0.2.1
    have h2 : (SPAN_HDR_PADSZ + sumGross pre) % 16 = 0 := by
      have hmod : sumGross pre % 16 = 0 :=
        sumGross_mod16 (fun x hx => spanWF0_mod h0 x (by rw [hb]; exact List.mem_append_left _ hx))
      simp only [SPAN_HDR_PADSZ]
      omega
    simp only [ALIGNMENT] at h1
    omega
  rw [if_neg (by simp [halign])]

/-- Splitting the free-offset list of a span along a two-block window. -/
theorem freeOffsets_window {sp : Span} {pre post : List Block} {a b : Block}
    (hb : sp.blocks = pre ++ a :: b :: post) :
    freeOffsets sp =
      fOffs SPAN_HDR_PADSZ pre ++
      (if a.inUse = false then [SPAN_HDR_PADSZ + sumGross pre] else []) ++
      (if b.inUse = false then [SPAN_HDR_PADSZ + sumGross pre + a.gross] else []) ++
      fOffs (SPAN_HDR_PADSZ + sumGross pre + a.gross + b.gross) post := by
  unfold freeOffsets
  rw [hb, fOffs_append, fOffs_cons, fOffs_cons]
  simp only [List.append_assoc]

/-- C `blkcoalesce` on a well-formed span with two adjacent free blocks:
the exact result, which satisfies every invariant except possibly eager
coalescing. -/
theorem blkcoalesce_wf0 {sp : Span} {pre post : List Block} {a b : Block} {oa ob : Nat}
    (h0 : spanWF0 sp) (hb : sp.blocks = pre ++ a :: b :: post)
    (hoa : oa = SPAN_HDR_PADSZ + sumGross pre) (hob : ob = oa + a.gross)
    (hafree : a.inUse = false) (hbfree : b.inUse = false) :
    blkcoalesce sp oa ob =
      some { sp with
             blocks := pre ++ mergeBlocks a b :: post,
             freelist := sp.freelist.erase ob } ∧
    spanWF0 { sp with
              blocks := pre ++ mergeBlocks a b :: post,
              freelist := sp.freelist.erase ob } := by
  obtain ⟨hne, hbm, hbu, hmin, hsum, hblk, hchain, hnd, hsub, hsup, hcnt⟩ := h0
  have h0' : spanWF0 sp :=
    ⟨hne, hbm, hbu, hmin, hsum, hblk, hchain, hnd, hsub, hsup, hcnt⟩
  have hamem : a ∈ sp.blocks := by rw [hb]; exact List.mem_append_right _ (by simp)
  have hbmem : b ∈ sp.blocks := by rw [hb]; exact List.mem_append_right _ (by simp)
  have haOk := hblk a hamem
  have hbOk := hblk b hbmem
  have hub := decomp_off_ub h0' hb
  have hprepos : ∀ x ∈ pre, 0 < x.gross :=
    fun x hx => spanWF0_pos h0' x (by rw [hb]; exact List.mem_append_left _ hx)
  have ha64 : MIN_BLKSZ ≤ a.gross := haOk.1
  have hb64 : MIN_BLKSZ ≤ b.gross := hbOk.1
  have hapos : 0 < a.gross := by simp only [MIN_BLKSZ] at ha64; omega
  -- membership of ob in the free list
  have hobmem : ob ∈ sp.freelist := by
    refine hsup ob ?_
    rw [freeOffsets_window hb, hafree, hbfree]
    simp only [if_pos rfl]
    rw [hob, hoa]
    simp
  have hgetb : getBlk sp ob = some b := by
    refine @getBlk_of_decomp _ (pre ++ [a]) _ _ _ h0' (by simpa using hb) ?_
    simp only [sumGross_append, sumGross_cons, sumGross_nil]
    omega
  have hadd : add64 a.gross b.gross = a.gross + b.gross := by
    refine add64_eq ?_
    have hlt := spanWF0_size_lt h0'
    simp only [sumGross_cons] at hub
    omega
  -- evaluate blkcoalesce
  have heq : blkcoalesce sp oa ob =
      some { sp with
             blocks := pre ++ mergeBlocks a b :: post,
             freelist := sp.freelist.erase ob } := by
    unfold blkcoalesce
    rw [getBlk_of_decomp h0' hb hoa, hgetb]
    dsimp only
    rw [blknextadj_mid h0' hb hoa]
    rw [if_neg (by rw [hob]; exact fun hc => hc rfl)]
    rw [if_neg (by simp [hafree, hbfree])]
    unfold blksever
    rw [if_pos hobmem]
    dsimp only
    rw [hadd, hb]
    have hrepl := @replace2At_of_decomp pre post
      [{ a with gross := a.gross + b.gross, footer := a.gross + b.gross }]
      a b SPAN_HDR_PADSZ hprepos
    rw [← hoa] at hrepl
    rw [hrepl]
    simp [mergeBlocks]
  refine ⟨heq, ?_⟩
  -- spanWF0 of the result
  have hsum' : SPAN_HDR_PADSZ + sumGross (pre ++ mergeBlocks a b :: post) = sp.size := by
    rw [hb] at hsum
    simp only [sumGross_append, sumGross_cons, mergeBlocks_gross] at hsum ⊢
    omega
  have hchain' : chainFlags false (pre ++ mergeBlocks a b :: post) = true := by
    rw [hb] at hchain
    rw [chainFlags_append] at hchain ⊢
    simp only [chainFlags_cons, mergeBlocks_prevInUse, mergeBlocks_inUse] at hchain ⊢
    simp only [Bool.and_eq_true] at hchain ⊢
    have h1 : b.inUse = a.inUse := by rw [hafree, hbfree]
    rw [h1] at hchain
    exact ⟨hchain.1, hchain.2.1, hchain.2.2.2⟩
  -- the free offsets of the result are the old ones minus ob
  have hpostpos : ∀ x ∈ post, 0 < x.gross :=
    fun x hx => spanWF0_pos h0' x (by rw [hb]; exact List.mem_append_right _ (by simp [hx]))
  have hiff : ∀ o, o ∈ fOffs SPAN_HDR_PADSZ (pre ++ mergeBlocks a b :: post) ↔
      (o ∈ freeOffsets sp ∧ o ≠ ob) := by
    intro o
    rw [freeOffsets_window hb]
    rw [fOffs_append, fOffs_cons]
    simp only [hafree, hbfree, mergeBlocks_inUse, mergeBlocks_gross, List.mem_append,
      List.mem_singleton, if_true, eq_self_iff_true]
    have htail : SPAN_HDR_PADSZ + sumGross pre + (a.gross + b.gross)
        = SPAN_HDR_PADSZ + sumGross pre + a.gross + b.gross := by omega
    rw [htail]
    simp only [MIN_BLKSZ] at ha64 hb64
    constructor
    · rintro (h | h | h)
      · have hbd := mem_fOffs_bounds hprepos h
        refine ⟨Or.inl (Or.inl (Or.inl h)), ?_⟩
        rw [hob, hoa]
        omega
      · refine ⟨Or.inl (Or.inl (Or.inr h)), ?_⟩
        rw [h, hob, hoa]
        omega
      · have hbd := mem_fOffs_bounds hpostpos h
        refine ⟨Or.inr h, ?_⟩
        rw [hob, hoa]
        omega
    · rintro ⟨(((h | h) | h) | h), hne2⟩
      · exact Or.inl h
      · exact Or.inr (Or.inl h)
      · exact absurd h (by rw [hob, hoa] at hne2; exact hne2)
      · exact Or.inr (Or.inr h)
  refine ⟨hne, hbm, hbu, hmin, hsum', ?_, hchain', hnd.erase _, ?_, ?_, ?_⟩
  · intro x hx
    simp only [List.mem_append, List.mem_cons] at hx
    rcases hx with hx | hx | hx
    · exact hblk x (by rw [hb]; exact List.mem_append_left _ hx)
    · subst hx
      refine ⟨?_, ?_, by simp [haOk.2.2.1], by simp⟩
      · simp only [mergeBlocks_gross, MIN_BLKSZ] at ha64 ⊢
        omega
      · have h1 := haOk.2.1
        have h2 := hbOk.2.1
        simp only [mergeBlocks_gross, ALIGNMENT] at h1 h2 ⊢
        omega
    · exact hblk x (by rw [hb]; exact List.mem_append_right _ (by simp [hx]))
  · intro o hoe
    have hone : o ≠ ob := (hnd.mem_erase_iff.mp hoe).1
    have homem : o ∈ sp.freelist := (hnd.mem_erase_iff.mp hoe).2
    exact (hiff o).mpr ⟨hsub o homem, hone⟩
  · intro o hoe
    have := (hiff o).mp hoe
    exact hnd.mem_erase_iff.mpr ⟨this.2, hsup o this.1⟩
  · rw [hb] at hcnt
    simp only [List.filter_append, List.filter_cons, List.length_append,
      mergeBlocks_inUse] at hcnt ⊢
    simp only [hafree, hbfree] at hcnt ⊢
    simpa using hcnt


theorem endUse_indep (c d : Bool) (x : Block) (xs : List Block) :
    endUse c (x :: xs) = endUse d (x :: xs) := rfl

@[simp] theorem endUse_concat (c : Bool) (xs : List Block) (a : Block) :
    endUse c (xs ++ [a]) = a.inUse := by
  rw [endUse_append]
  rfl

theorem chain_decomp {sp : Span} {pre post : List Block} {b : Block}
    (h0 : spanWF0 sp) (hb : sp.blocks = pre ++ b :: post) :
    b.prevInUse = endUse false pre ∧ chainFlags b.inUse post = true := by
  have hchain := h0.2.2.2.2.2.2.1
  rw [hb, chainFlags_append] at hchain
  simp only [chainFlags_cons, Bool.and_eq_true, beq_iff_eq] at hchain
  exact ⟨hchain.2.1, hchain.2.2⟩

theorem freelist_mem_of_decomp {sp : Span} {pre post : List Block} {b : Block} {o : Nat}
    (h0 : spanWF0 sp) (hb : sp.blocks = pre ++ b :: post)
    (ho : o = SPAN_HDR_PADSZ + sumGross pre) (hfree : b.inUse = false) :
    o ∈ sp.freelist := by
  refine h0.2.2.2.2.2.2.2.2.2.1 o ?_
  unfold freeOffsets
  rw [hb, ho]
  exact mem_fOffs_of_free hfree

/-- C `coalesce` restores eager coalescing: called on a free block whose
physical neighbourhood is otherwise adjacent-free-free, it succeeds and
returns a fully well-formed span with unchanged base, size and block
count. -/
theorem coalesce_spec {sp : Span} {pre post : List Block} {b : Block} {o : Nat}
    (h0 : spanWF0 sp)
    (hb : sp.blocks = pre ++ b :: post) (ho : o = SPAN_HDR_PADSZ + sumGross pre)
    (hfree : b.inUse = false)
    (hpre : noAdjFrom true pre = true) (hpost : noAdjFrom true post = true) :
    ∃ sp2 c, coalesce sp o = some (sp2, c) ∧ spanWF sp2 ∧
      sp2.base = sp.base ∧ sp2.size = sp.size ∧ sp2.blkcount = sp.blkcount ∧
      (b.prevInUse = true → c = o ∧ ∃ b2 post2, sp2.blocks = pre ++ b2 :: post2 ∧
        b2.inUse = false) := by
  -- phase 1: merge with the physical successor when it is free
  have hphase1 : ∃ sp1 b1 post1,
      (match blknextadj sp o with
       | none => none
       | some none => some sp
       | some (some oq) =>
         match getBlk sp oq with
         | none => none
         | some q => if q.inUse then some sp else blkcoalesce sp o oq) = some sp1 ∧
      sp1.blocks = pre ++ b1 :: post1 ∧ spanWF0 sp1 ∧
      b1.inUse = false ∧ b1.prevInUse = b.prevInUse ∧
      noAdjFrom false post1 = true ∧ o ∈ sp1.freelist ∧
      sp1.base = sp.base ∧ sp1.size = sp.size ∧ sp1.blkcount = sp.blkcount := by
    cases hp : post with
    | nil =>
      rw [blknextadj_last h0 (by rw [hb, hp]) ho]
      exact ⟨sp, b, [], rfl, by rw [hb, hp], h0, hfree, rfl, rfl,
        freelist_mem_of_decomp h0 hb ho hfree, rfl, rfl, rfl⟩
    | cons q post' =>
      rw [blknextadj_mid h0 (by rw [hb, hp]) ho]
      dsimp only
      have hgetq : getBlk sp (o + b.gross) = some q := by
        refine @getBlk_of_decomp _ (pre ++ [b]) _ _ _ h0 (by simpa using hb.trans (by rw [hp])) ?_
        simp only [sumGross_append, sumGross_cons, sumGross_nil]
        omega
      rw [hgetq]
      dsimp only
      by_cases hq : q.inUse
      · rw [if_pos (by simp [hq])]
        refine ⟨sp, b, q :: post', rfl, by rw [hb, hp], h0, hfree, rfl, ?_,
          freelist_mem_of_decomp h0 hb ho hfree, rfl, rfl, rfl⟩
        rw [hp] at hpost
        simp only [noAdjFrom_cons, Bool.and_eq_true] at hpost ⊢
        exact ⟨by simp [hq], hpost.2⟩
      · have hqf : q.inUse = false := by simpa using hq
        obtain ⟨heq, hwf1⟩ := blkcoalesce_wf0 h0 (hb.trans (by rw [hp])) ho rfl hfree hqf
        rw [if_neg (by simp [hqf]), heq]
        refine ⟨_, mergeBlocks b q, post', rfl, rfl, hwf1, by simp [hfree], by simp, ?_, ?_,
          rfl, rfl, rfl⟩
        · rw [hp] at hpost
          simp only [noAdjFrom_cons, Bool.and_eq_true] at hpost
          rw [← hqf]
          exact hpost.2
        · have hbpos : 0 < b.gross := spanWF0_pos h0 b (by rw [hb]; simp)
          have homem : o ∈ sp.freelist := freelist_mem_of_decomp h0 hb ho hfree
          have hnd := h0.2.2.2.2.2.2.2.1
          exact hnd.mem_erase_iff.mpr ⟨by omega, homem⟩
  obtain ⟨sp1, b1, post1, hstep1, hb1, h01, hfree1, hprev1, hpost1, homem1, hbase1, hsize1,
    hcnt1⟩ := hphase1
  -- evaluate the definition up to phase 2
  unfold coalesce
  rw [getBlk_of_decomp h0 hb ho]
  dsimp only
  rw [if_neg (by simp [hfree]), hstep1]
  dsimp only
  rw [getBlk_of_decomp h01 hb1 ho]
  dsimp only
  -- phase 2: merge with the physical predecessor when it is free
  have hchain1 := chain_decomp h01 hb1
  by_cases hpu : b1.prevInUse
  · rw [if_pos (by simp [hpu])]
    refine ⟨sp1, o, rfl, ⟨h01, ?_⟩, hbase1, hsize1, hcnt1,
      fun hbp => ⟨rfl, b1, post1, hb1, hfree1⟩⟩
    rw [hb1, noAdjFrom_append]
    simp only [noAdjFrom_cons, Bool.and_eq_true]
    have hend : endUse true pre = true := by
      have h1 : endUse false pre = true := by rw [← hchain1.1]; exact hpu
      cases hpre0 : pre with
      | nil => rfl
      | cons x xs =>
        rw [endUse_indep true false x xs]
        rw [hpre0] at h1
        exact h1
    exact ⟨hpre, by simp [hend], by rw [hfree1]; exact hpost1⟩
  · have hpu' : b1.prevInUse = false := by simpa using hpu
    rw [if_neg (by simp [hpu'])]
    rcases List.eq_nil_or_concat pre with hpre0 | ⟨pre', a, hpre0⟩
    all_goals try rw [List.concat_eq_append] at hpre0
    · have ho32 : o = SPAN_HDR_PADSZ := by rw [ho, hpre0]; simp
      rw [ho32]
      rw [@blkprevadj_first _ post1 _ h01 (by rw [hb1, hpre0]; simp) hpu']
      dsimp only
      refine ⟨sp1, SPAN_HDR_PADSZ, rfl, ⟨h01, ?_⟩, hbase1, hsize1, hcnt1,
        fun hbp => absurd (hprev1.trans hbp) hpu⟩
      rw [hb1, hpre0]
      simp only [List.nil_append, noAdjFrom_cons, Bool.true_or, Bool.true_and]
      rw [hfree1]
      exact hpost1
    · have hafree : a.inUse = false := by
        have h1 := hchain1.1
        rw [hpu', hpre0] at h1
        simp only [endUse_concat] at h1
        exact h1.symm
      have hdecomp1 : sp1.blocks = pre' ++ a :: b1 :: post1 := by
        rw [hb1, hpre0]
        simp
      have ho' : o = SPAN_HDR_PADSZ + sumGross pre' + a.gross := by
        rw [ho, hpre0]
        simp only [sumGross_append, sumGross_cons, sumGross_nil]
        omega
      rw [blkprevadj_mid h01 hdecomp1 ho' hpu' hafree]
      dsimp only
      obtain ⟨heq2, hwf2⟩ := blkcoalesce_wf0 h01 hdecomp1 rfl ho' hafree hfree1
      rw [heq2]
      refine ⟨_, SPAN_HDR_PADSZ + sumGross pre', by simp, ⟨hwf2, ?_⟩, hbase1, hsize1, hcnt1,
        fun hbp => absurd (hprev1.trans hbp) hpu⟩
      rw [hpre0] at hpre
      rw [noAdjFrom_append] at hpre
      simp only [noAdjFrom_cons, noAdjFrom_nil, Bool.and_eq_true, Bool.and_true] at hpre
      rw [noAdjFrom_append]
      simp only [noAdjFrom_cons, mergeBlocks_inUse, hafree, Bool.and_eq_true]
      refine ⟨hpre.1, ?_, ?_⟩
      · have h2 := hpre.2
        rw [Bool.or_eq_true] at h2
        rcases h2 with h | h
        · simp [h]
        · rw [hafree] at h
          simp at h
      · exact hpost1

@[simp] theorem blkFreed_gross (b : Block) : (blkFreed b).gross = b.gross := rfl

@[simp] theorem blkFreed_inUse (b : Block) : (blkFreed b).inUse = false := rfl

@[simp] theorem blkFreed_prevInUse (b : Block) : (blkFreed b).prevInUse = b.prevInUse := rfl

@[simp] theorem blkFreed_owner (b : Block) : (blkFreed b).owner = b.owner := rfl

@[simp] theorem blkFreed_footer (b : Block) : (blkFreed b).footer = b.gross := rfl

@[simp] theorem blkUsed_gross (b : Block) : (blkUsed b).gross = b.gross := rfl

@[simp] theorem blkUsed_inUse (b : Block) : (blkUsed b).inUse = true := rfl

@[simp] theorem blkUsed_prevInUse (b : Block) : (blkUsed b).prevInUse = b.prevInUse := rfl

@[simp] theorem blkUsed_owner (b : Block) : (blkUsed b).owner = b.owner := rfl

@[simp] theorem blkUsed_footer (b : Block) : (blkUsed b).footer = b.footer := rfl

theorem noAdjFrom_true_of {c : Bool} {bs : List Block} (h : noAdjFrom c bs = true) :
    noAdjFrom true bs = true := by
  cases bs with
  | nil => rfl
  | cons x xs =>
    simp only [noAdjFrom_cons, Bool.and_eq_true] at h ⊢
    exact ⟨by simp, h.2⟩

/-- Splitting the free-offset list along a single block. -/
theorem freeOffsets_window1 {sp : Span} {pre post : List Block} {b : Block}
    (hb : sp.blocks = pre ++ b :: post) :
    freeOffsets sp =
      fOffs SPAN_HDR_PADSZ pre ++
      (if b.inUse = false then [SPAN_HDR_PADSZ + sumGross pre] else []) ++
      fOffs (SPAN_HDR_PADSZ + sumGross pre + b.gross) post := by
  unfold freeOffsets
  rw [hb, fOffs_append, fOffs_cons]
  simp only [List.append_assoc]

theorem offsets_mem_decomp {cur o : Nat} {bs : List Block} {b : Block}
    (h : (o, b) ∈ offsetsFrom cur bs) :
    ∃ pre post, bs = pre ++ b :: post ∧ o = cur + sumGross pre := by
  induction bs generalizing cur with
  | nil => simp at h
  | cons hd tl ih =>
    simp only [offsetsFrom_cons, List.mem_cons] at h
    rcases h with h | h
    · have h1 : o = cur := congrArg Prod.fst h
      have h2 : b = hd := congrArg Prod.snd h
      exact ⟨[], tl, by simp [h2], by simp [h1]⟩
    · obtain ⟨pre, post, hp1, hp2⟩ := ih h
      exact ⟨hd :: pre, post, by simp [hp1], by simp [hp2]; omega⟩

theorem getBlk_decomp {sp : Span} {o : Nat} {b : Block}
    (h : getBlk sp o = some b) :
    ∃ pre post, sp.blocks = pre ++ b :: post ∧ o = SPAN_HDR_PADSZ + sumGross pre :=
  offsets_mem_decomp (mem_of_blkAt_eq_some h)

theorem locate_sound {spans : List Span} {a : Nat} {sp : Span} {o : Nat}
    (h : locate spans a = some (sp, o)) :
    sp ∈ spans ∧ o = a - sp.base ∧ sp.base ≤ a ∧
      (blkAt sp.blocks SPAN_HDR_PADSZ o).isSome := by
  induction spans with
  | nil => simp [locate] at h
  | cons s rest ih =>
    rw [locate] at h
    by_cases hc : s.base ≤ a ∧ (blkAt s.blocks SPAN_HDR_PADSZ (a - s.base)).isSome
    · rw [if_pos hc] at h
      have h1 : s = sp := congrArg Prod.fst (Option.some.inj h)
      have h2 : a - s.base = o := congrArg Prod.snd (Option.some.inj h)
      subst h1
      exact ⟨List.mem_cons_self _ _, h2.symm, hc.1, h2 ▸ hc.2⟩
    · rw [if_neg hc] at h
      obtain ⟨hm, h2, h3, h4⟩ := ih h
      exact ⟨List.mem_cons_of_mem _ hm, h2, h3, h4⟩

theorem blkinitOk_true {sp : Span} {o size : Nat}
    (hbm : sp.base % ALIGNMENT = 0) (ho : o % 16 = 0) (hub : o + size ≤ sp.size) :
    blkinitOk sp o size = true := by
  unfold blkinitOk ptr_in_span
  have h1 : sp.base ≤ sp.base + o := Nat.le_add_right _ _
  have h2 : sp.base + o ≤ sp.base + sp.size := by omega
  have h3 : (sp.base + o) % ALIGNMENT = 0 := by
    simp only [ALIGNMENT] at *
    omega
  have h4 : sp.base ≤ sp.base + o + size := by omega
  have h5 : sp.base + o + size ≤ sp.base + sp.size := by omega
  simp [h1, h2, h3, h4, h5]

theorem filter_inUse_pos {bs : List Block} {b : Block} (hmem : b ∈ bs)
    (hused : b.inUse = true) : 0 < (bs.filter (fun x => x.inUse)).length := by
  have : b ∈ bs.filter (fun x => x.inUse) := List.mem_filter.mpr ⟨hmem, by simp [hused]⟩
  exact List.length_pos.mpr (fun he => by simp [he] at this)

/-- C `blkfree` on an in-use block of a fully well-formed span: it succeeds
and yields a span satisfying every invariant except eager coalescing, with
the freed block in place, the neighbour flags fixed, and the block count
decremented. -/
theorem blkfree_spec {sp : Span} {pre post : List Block} {b : Block} {o : Nat}
    (hwf : spanWF sp) (hb : sp.blocks = pre ++ b :: post)
    (ho : o = SPAN_HDR_PADSZ + sumGross pre) (hused : b.inUse = true) :
    ∃ sp1 post1, blkfree sp o = some sp1 ∧ spanWF0 sp1 ∧
      sp1.blocks = pre ++ blkFreed b :: post1 ∧
      noAdjFrom true pre = true ∧ noAdjFrom true post1 = true ∧
      sp1.base = sp.base ∧ sp1.size = sp.size ∧
      sp1.blkcount = sp.blkcount - 1 ∧ 1 ≤ sp.blkcount ∧
      sp1.freelist = o :: sp.freelist := by
  obtain ⟨h0, hnadj⟩ := hwf
  obtain ⟨hne, hbm, hbu, hmin, hsum, hblk, hchain, hnd, hsub, hsup, hcnt⟩ := h0
  have h0' : spanWF0 sp :=
    ⟨hne, hbm, hbu, hmin, hsum, hblk, hchain, hnd, hsub, hsup, hcnt⟩
  have hB := spanWF0_basics h0'
  have hbmem : b ∈ sp.blocks := by rw [hb]; exact List.mem_append_right _ (by simp)
  have hbOk := hblk b hbmem
  have hprepos : ∀ x ∈ pre, 0 < x.gross :=
    fun x hx => basics_pos hB x (by rw [hb]; exact List.mem_append_left _ hx)
  have hub := decomp_off_ubB hB hb
  have homod := decomp_off_modB hB hb
  have hcntpos : 0 < sp.blkcount := hcnt ▸ filter_inUse_pos hbmem hused
  -- the freed block's offset is not on the free list
  have honot : o ∉ sp.freelist := by
    intro hmem
    have hfo := hsub o hmem
    unfold freeOffsets at hfo
    obtain ⟨x, hx, hxf⟩ := blkAt_free_of_mem_fOffs
      (fun x hx => basics_pos hB x hx) hfo
    have hgb : blkAt sp.blocks SPAN_HDR_PADSZ o = some b := getBlk_of_decompB hB hb ho
    rw [hgb] at hx
    have hxb : x = b := (Option.some.inj hx).symm
    rw [hxb, hused] at hxf
    simp at hxf
  -- noAdjFrom pieces of the old span
  have hnadj2 : noAdjFrom true pre = true ∧ noAdjFrom true post = true := by
    rw [hb, noAdjFrom_append] at hnadj
    simp only [noAdjFrom_cons, Bool.and_eq_true] at hnadj
    refine ⟨hnadj.1, ?_⟩
    have := hnadj.2.2
    rw [hused] at this
    exact noAdjFrom_true_of this
  -- evaluate blkfree
  unfold blkfree
  rw [getBlk_of_decompB hB hb ho]
  dsimp only
  rw [if_neg (by omega)]
  have hinit : blkinitOk { sp with blkcount := sp.blkcount - 1 } o b.gross = true :=
    blkinitOk_true hbm (ho ▸ homod) (by show o + b.gross ≤ sp.size; omega)
  rw [if_neg (by simp [hinit])]
  have hmod : modifyAt ({ sp with blkcount := sp.blkcount - 1 } : Span).blocks
      SPAN_HDR_PADSZ o
      (fun bb => { bb with inUse := false, footer := bb.gross, magic := MAGIC_BABY })
      = some (pre ++ blkFreed b :: post) := by
    show modifyAt sp.blocks _ _ _ = _
    rw [hb, ho]
    exact modifyAt_of_decomp hprepos
  rw [hmod]
  dsimp only
  have hget2 : getBlk { sp with
      blkcount := sp.blkcount - 1,
      blocks := pre ++ blkFreed b :: post } o = some (blkFreed b) := by
    unfold getBlk
    show blkAt (pre ++ blkFreed b :: post) _ _ = _
    rw [ho]
    exact blkAt_of_decomp hprepos
  unfold blkprepend
  rw [hget2]
  dsimp only
  rw [if_neg (by simp)]
  dsimp only
  have hB3 : spanBasics { sp with
      blkcount := sp.blkcount - 1,
      blocks := pre ++ blkFreed b :: post,
      freelist := o :: sp.freelist } := by
    refine ⟨hne, hbm, hbu, ?_, ?_⟩
    · show SPAN_HDR_PADSZ + sumGross (pre ++ blkFreed b :: post) = sp.size
      rw [hb] at hsum
      simp only [sumGross_append, sumGross_cons, blkFreed_gross] at hsum ⊢
      omega
    · intro x hx
      simp only [List.mem_append, List.mem_cons] at hx
      rcases hx with hx | hx | hx
      · have := hblk x (by rw [hb]; exact List.mem_append_left _ hx)
        exact ⟨this.1, this.2.1⟩
      · subst hx
        exact ⟨hbOk.1, hbOk.2.1⟩
      · have := hblk x (by rw [hb]; exact List.mem_append_right _ (by simp [hx]))
        exact ⟨this.1, this.2.1⟩
  have hchain2 : (blkFreed b).prevInUse = endUse false pre ∧
      chainFlags b.inUse post = true := by
    rw [hb, chainFlags_append] at hchain
    simp only [chainFlags_cons, Bool.and_eq_true, beq_iff_eq] at hchain
    exact ⟨hchain.2.1, hchain.2.2⟩
  cases hp : post with
  | nil =>
    subst hp
    rw [@blknextadj_lastB _ pre _ _ hB3 (by show _ = pre ++ [blkFreed b]; rfl) ho]
    refine ⟨_, [], rfl, ?_, rfl, hnadj2.1, rfl, rfl, rfl, rfl, by omega, rfl⟩
    refine ⟨hne, hbm, hbu, hmin, ?_, ?_, ?_, ?_, ?_, ?_, ?_⟩
    · show SPAN_HDR_PADSZ + sumGross (pre ++ blkFreed b :: []) = sp.size
      rw [hb] at hsum
      simp only [sumGross_append, sumGross_cons, blkFreed_gross] at hsum ⊢
      omega
    · intro x hx
      simp only [List.mem_append, List.mem_cons] at hx
      rcases hx with hx | hx
      · exact hblk x (by rw [hb]; exact List.mem_append_left _ hx)
      · simp only [List.not_mem_nil, or_false] at hx
        subst hx
        exact ⟨hbOk.1, hbOk.2.1, by simp [hbOk.2.2.1], by simp⟩
    · show chainFlags false (pre ++ blkFreed b :: []) = true
      rw [chainFlags_append]
      rw [hb, chainFlags_append] at hchain
      simp only [chainFlags_cons, chainFlags_nil, Bool.and_eq_true, beq_iff_eq] at hchain ⊢
      exact ⟨hchain.1, hchain2.1, trivial⟩
    · show (o :: sp.freelist).Nodup
      exact List.nodup_cons.mpr ⟨honot, hnd⟩
    · intro oo hoo
      show oo ∈ freeOffsets _
      have hwin : freeOffsets { sp with
          blkcount := sp.blkcount - 1,
          blocks := pre ++ blkFreed b :: [],
          freelist := o :: sp.freelist } =
          fOffs SPAN_HDR_PADSZ pre ++ [SPAN_HDR_PADSZ + sumGross pre] ++
          fOffs (SPAN_HDR_PADSZ + sumGross pre + b.gross) [] := by
        refine (freeOffsets_window1 (b := blkFreed b) rfl).trans ?_
        simp
      rw [hwin]
      rcases List.mem_cons.mp hoo with rfl | hoo
      · simp [ho]
      · have hold := hsub oo hoo
        have hwin2 : freeOffsets sp =
            fOffs SPAN_HDR_PADSZ pre ++ [] ++
            fOffs (SPAN_HDR_PADSZ + sumGross pre + b.gross) [] := by
          refine (freeOffsets_window1 (b := b) hb).trans ?_
          simp [hused]
        rw [hwin2] at hold
        simp only [List.mem_append] at hold ⊢
        tauto
    · intro oo hoo
      have hwin : freeOffsets { sp with
          blkcount := sp.blkcount - 1,
          blocks := pre ++ blkFreed b :: [],
          freelist := o :: sp.freelist } =
          fOffs SPAN_HDR_PADSZ pre ++ [SPAN_HDR_PADSZ + sumGross pre] ++
          fOffs (SPAN_HDR_PADSZ + sumGross pre + b.gross) [] := by
        refine (freeOffsets_window1 (b := blkFreed b) rfl).trans ?_
        simp
      rw [hwin] at hoo
      show oo ∈ o :: sp.freelist
      simp only [List.mem_append, List.mem_singleton] at hoo
      rcases hoo with (hoo | hoo) | hoo
      · refine List.mem_cons_of_mem _ (hsup oo ?_)
        have hwin2 : freeOffsets sp =
            fOffs SPAN_HDR_PADSZ pre ++ [] ++
            fOffs (SPAN_HDR_PADSZ + sumGross pre + b.gross) [] := by
          refine (freeOffsets_window1 (b := b) hb).trans ?_
          simp [hused]
        rw [hwin2]
        simp only [List.mem_append]
        tauto
      · exact List.mem_cons.mpr (Or.inl (by rw [hoo, ho]))
      · simp at hoo
    · show sp.blkcount - 1 = ((pre ++ blkFreed b :: []).filter (fun x => x.inUse)).length
      rw [hb] at hcnt
      simp only [List.filter_append, List.filter_cons, List.length_append,
        blkFreed_inUse, hused] at hcnt ⊢
      simp at hcnt ⊢
      omega
  | cons q post' =>
    subst hp
    rw [@blknextadj_midB _ pre _ _ _ _ hB3 (by show _ = pre ++ blkFreed b :: q :: post'; rfl) ho]
    dsimp only
    unfold spSetBlk
    have hpos2 : ∀ x ∈ pre ++ [blkFreed b], 0 < x.gross := by
      intro x hx
      rcases List.mem_append.mp hx with hx | hx
      · exact hprepos x hx
      · simp only [List.mem_singleton] at hx
        subst hx
        have := hbOk.1
        simp only [MIN_BLKSZ, blkFreed_gross] at this ⊢
        omega
    have hmod2 : modifyAt (pre ++ blkFreed b :: q :: post') SPAN_HDR_PADSZ
        (o + (blkFreed b).gross) (fun r => { r with prevInUse := false })
        = some (pre ++ blkFreed b :: { q with prevInUse := false } :: post') := by
      have hh := @modifyAt_of_decomp (pre ++ [blkFreed b]) post' q SPAN_HDR_PADSZ
        (fun r => { r with prevInUse := false }) hpos2
      have hoff : SPAN_HDR_PADSZ + sumGross (pre ++ [blkFreed b]) = o + (blkFreed b).gross := by
        simp only [sumGross_append, sumGross_cons, sumGross_nil, blkFreed_gross, ho]
        omega
      rw [hoff] at hh
      simpa using hh
    rw [hmod2]
    dsimp only
    set q' : Block := { q with prevInUse := false } with hq'
    have hq'g : q'.gross = q.gross := rfl
    have hq'u : q'.inUse = q.inUse := rfl
    refine ⟨_, q' :: post', rfl, ?_, rfl, hnadj2.1, ?_, rfl, rfl, rfl, by omega, rfl⟩
    · -- spanWF0 of the result
      have hqmem : q ∈ sp.blocks := by rw [hb]; exact List.mem_append_right _ (by simp)
      have hqOk := hblk q hqmem
      refine ⟨hne, hbm, hbu, hmin, ?_, ?_, ?_, ?_, ?_, ?_, ?_⟩
      · show SPAN_HDR_PADSZ + sumGross (pre ++ blkFreed b :: q' :: post') = sp.size
        rw [hb] at hsum
        simp only [sumGross_append, sumGross_cons, blkFreed_gross, hq'g] at hsum ⊢
        omega
      · intro x hx
        simp only [List.mem_append, List.mem_cons] at hx
        rcases hx with hx | hx | hx | hx
        · exact hblk x (by rw [hb]; exact List.mem_append_left _ hx)
        · subst hx
          exact ⟨hbOk.1, hbOk.2.1, by simp [hbOk.2.2.1], by simp⟩
        · subst hx
          refine ⟨hqOk.1, hqOk.2.1, hqOk.2.2.1, ?_⟩
          intro hfq
          rw [hq'u] at hfq
          exact hqOk.2.2.2 hfq
        · exact hblk x (by rw [hb]; exact List.mem_append_right _ (by simp [hx]))
      · show chainFlags false (pre ++ blkFreed b :: q' :: post') = true
        rw [chainFlags_append]
        rw [hb, chainFlags_append] at hchain
        simp only [chainFlags_cons, Bool.and_eq_true, beq_iff_eq, blkFreed_inUse,
          blkFreed_prevInUse, hq'u] at hchain ⊢
        exact ⟨hchain.1, hchain.2.1, trivial, hchain.2.2.2⟩
      · exact List.nodup_cons.mpr ⟨honot, hnd⟩
      · intro oo hoo
        show oo ∈ freeOffsets _
        have hwin : freeOffsets { sp with
            blkcount := sp.blkcount - 1,
            blocks := pre ++ blkFreed b :: q' :: post',
            freelist := o :: sp.freelist } =
            fOffs SPAN_HDR_PADSZ pre ++ [SPAN_HDR_PADSZ + sumGross pre] ++
            (if q'.inUse = false then [SPAN_HDR_PADSZ + sumGross pre + (blkFreed b).gross]
             else []) ++
            fOffs (SPAN_HDR_PADSZ + sumGross pre + (blkFreed b).gross + q'.gross) post' := by
          refine (freeOffsets_window (a := blkFreed b) (b := q') rfl).trans ?_
          simp
        have hwin2 : freeOffsets sp =
            fOffs SPAN_HDR_PADSZ pre ++ [] ++
            (if q.inUse = false then [SPAN_HDR_PADSZ + sumGross pre + b.gross] else []) ++
            fOffs (SPAN_HDR_PADSZ + sumGross pre + b.gross + q.gross) post' := by
          refine (freeOffsets_window (a := b) (b := q) hb).trans ?_
          simp [hused]
        rw [hwin]
        rcases List.mem_cons.mp hoo with rfl | hoo
        · simp [ho]
        · have hold := hsub oo hoo
          rw [hwin2] at hold
          simp only [List.mem_append, List.mem_singleton, blkFreed_gross, hq'g, hq'u,
            List.not_mem_nil, or_false] at hold ⊢
          tauto
      · intro oo hoo
        have hwin : freeOffsets { sp with
            blkcount := sp.blkcount - 1,
            blocks := pre ++ blkFreed b :: q' :: post',
            freelist := o :: sp.freelist } =
            fOffs SPAN_HDR_PADSZ pre ++ [SPAN_HDR_PADSZ + sumGross pre] ++
            (if q'.inUse = false then [SPAN_HDR_PADSZ + sumGross pre + (blkFreed b).gross]
             else []) ++
            fOffs (SPAN_HDR_PADSZ + sumGross pre + (blkFreed b).gross + q'.gross) post' := by
          refine (freeOffsets_window (a := blkFreed b) (b := q') rfl).trans ?_
          simp
        have hwin2 : freeOffsets sp =
            fOffs SPAN_HDR_PADSZ pre ++ [] ++
            (if q.inUse = false then [SPAN_HDR_PADSZ + sumGross pre + b.gross] else []) ++
            fOffs (SPAN_HDR_PADSZ + sumGross pre + b.gross + q.gross) post' := by
          refine (freeOffsets_window (a := b) (b := q) hb).trans ?_
          simp [hused]
        rw [hwin] at hoo
        show oo ∈ o :: sp.freelist
        simp only [List.mem_append, List.mem_singleton, blkFreed_gross, hq'g, hq'u] at hoo
        rcases hoo with ((hoo | hoo) | hoo) | hoo
        · refine List.mem_cons_of_mem _ (hsup oo ?_)
          rw [hwin2]
          simp only [List.mem_append, List.not_mem_nil, or_false]
          tauto
        · exact List.mem_cons.mpr (Or.inl (by rw [hoo, ho]))
        · refine List.mem_cons_of_mem _ (hsup oo ?_)
          rw [hwin2]
          simp only [List.mem_append, List.not_mem_nil, or_false]
          tauto
        · refine List.mem_cons_of_mem _ (hsup oo ?_)
          rw [hwin2]
          simp only [List.mem_append, List.not_mem_nil, or_false]
          tauto
      · show sp.blkcount - 1 =
            ((pre ++ blkFreed b :: q' :: post').filter (fun x => x.inUse)).length
        rw [hb] at hcnt
        by_cases hqi : q.inUse = true
        · simp only [List.filter_append, List.filter_cons, List.length_append,
            blkFreed_inUse, hused, hq'u, hqi] at hcnt ⊢
          simp at hcnt ⊢
          omega
        · have hqi' : q.inUse = false := by simpa using hqi
          simp only [List.filter_append, List.filter_cons, List.length_append,
            blkFreed_inUse, hused, hq'u, hqi'] at hcnt ⊢
          simp at hcnt ⊢
          omega
    · -- the suffix after the freed block stays adjacent-free-free internally
      have h2 := hnadj2.2
      simp only [noAdjFrom_cons, Bool.and_eq_true, hq'u] at h2 ⊢
      exact ⟨by simp, h2.2⟩

/-! ## Heap-level lemmas -/

theorem heapWF_span_pos {h : Heap} (hwf : heapWF h) {sp : Span} (hsp : sp ∈ h.spans) :
    0 < sp.size := by
  have := (hwf.1 sp hsp).1.2.2.2.1
  simp only [MIN_MMAPSZ] at this
  omega

theorem span_base_inj {h : Heap} (hwf : heapWF h) {s t : Span}
    (hs : s ∈ h.spans) (ht : t ∈ h.spans) (hbase : s.base = t.base) : s = t := by
  by_cases he : s = t
  · exact he
  · have hR := List.Pairwise.forall (by intro a b hab; exact Or.symm hab) hwf.2.1 hs ht he
    have h1 := heapWF_span_pos hwf hs
    have h2 := heapWF_span_pos hwf ht
    exfalso
    rcases hR with hR | hR <;> omega

theorem bases_pairwise_ne {h : Heap} (hwf : heapWF h) :
    h.spans.Pairwise (fun s t => s.base ≠ t.base) := by
  refine List.Pairwise.imp_of_mem ?_ hwf.2.1
  intro s t hs ht hR hbase
  have h1 := heapWF_span_pos hwf hs
  have h2 := heapWF_span_pos hwf ht
  rcases hR with hR | hR <;> omega

@[simp] theorem updSpan_spans (h : Heap) (sp : Span) :
    (updSpan h sp).spans = h.spans.map (fun s => if s.base = sp.base then sp else s) := rfl

@[simp] theorem updSpan_spanCount (h : Heap) (sp : Span) :
    (updSpan h sp).spanCount = h.spanCount := rfl

@[simp] theorem updSpan_pagesize (h : Heap) (sp : Span) :
    (updSpan h sp).pagesize = h.pagesize := rfl

theorem updSpan_updSpan (h : Heap) {sp1 sp2 : Span} (hb : sp1.base = sp2.base) :
    updSpan (updSpan h sp1) sp2 = updSpan h sp2 := by
  unfold updSpan
  simp only [List.map_map]
  have hf : ((fun s => if s.base = sp2.base then sp2 else s) ∘
      fun s => if s.base = sp1.base then sp1 else s)
      = fun s => if s.base = sp2.base then sp2 else s := by
    funext s
    by_cases hc : s.base = sp1.base
    · simp only [Function.comp]
      rw [if_pos hc, if_pos hb, if_pos (hc.trans hb)]
    · simp only [Function.comp]
      rw [if_neg hc]
  rw [hf]

theorem mem_updSpan_self {h : Heap} {sp sp' : Span} (hsp : sp ∈ h.spans)
    (hb : sp'.base = sp.base) : sp' ∈ (updSpan h sp').spans := by
  rw [updSpan_spans]
  refine List.mem_map.mpr ⟨sp, hsp, ?_⟩
  rw [if_pos (hb ▸ rfl)]

/-- Replacing a span by a well-formed span with the same base and size
preserves heap well-formedness. -/
theorem updSpan_wf {h : Heap} {sp sp' : Span} (hwf : heapWF h) (hsp : sp ∈ h.spans)
    (hwf' : spanWF sp') (hb : sp'.base = sp.base) (hsz : sp'.size = sp.size) :
    heapWF (updSpan h sp') := by
  obtain ⟨hall, hpw, hcnt, hps, hne⟩ := hwf
  have hwf0 : heapWF h := ⟨hall, hpw, hcnt, hps, hne⟩
  refine ⟨?_, ?_, ?_, hps, ?_⟩
  · intro t ht
    rw [updSpan_spans] at ht
    obtain ⟨s, hs, rfl⟩ := List.mem_map.mp ht
    by_cases hc : s.base = sp'.base
    · rw [if_pos hc]
      exact hwf'
    · rw [if_neg hc]
      exact hall s hs
  · rw [updSpan_spans]
    rw [List.pairwise_map]
    refine List.Pairwise.imp_of_mem ?_ hpw
    intro s t hs ht hR
    have hkey : ∀ u ∈ h.spans, (if u.base = sp'.base then sp' else u).base = u.base ∧
        (if u.base = sp'.base then sp' else u).size = u.size := by
      intro u hu
      by_cases hc : u.base = sp'.base
      · have hu2 : u = sp := span_base_inj hwf0 hu hsp (hc.trans hb)
        rw [if_pos hc, hb, hsz, hu2]
        exact ⟨rfl, rfl⟩
      · rw [if_neg hc]
        exact ⟨rfl, rfl⟩
    show (if s.base = sp'.base then sp' else s).base +
        (if s.base = sp'.base then sp' else s).size ≤
        (if t.base = sp'.base then sp' else t).base ∨
        (if t.base = sp'.base then sp' else t).base +
        (if t.base = sp'.base then sp' else t).size ≤
        (if s.base = sp'.base then sp' else s).base
    rw [(hkey s hs).1, (hkey s hs).2, (hkey t ht).1, (hkey t ht).2]
    exact hR
  · rw [updSpan_spanCount, hcnt, updSpan_spans, List.length_map]
  · rw [updSpan_spans, updSpan_pagesize]
    intro hmap
    exact hne (fun hnil => hmap (by rw [hnil]; rfl))

theorem eraseP_no_match {l : List Span} (hpw : l.Pairwise (fun s t => s.base ≠ t.base))
    (bb : Nat) :
    ∀ t ∈ l.eraseP (fun s => decide (s.base = bb)), t.base ≠ bb := by
  induction l with
  | nil => simp
  | cons s rest ih =>
    rw [List.pairwise_cons] at hpw
    intro t ht
    rw [List.eraseP_cons] at ht
    by_cases hc : s.base = bb
    · simp only [hc, decide_eq_true_eq, decide_True, cond_true] at ht
      · have := hpw.1 t ht
        omega
    · simp only [decide_eq_false hc, cond_false] at ht
      rcases List.mem_cons.mp ht with rfl | ht
      · exact hc
      · exact ih hpw.2 t ht

theorem eraseP_map_upd {l : List Span} (hpw : l.Pairwise (fun s t => s.base ≠ t.base))
    (sp1 : Span) :
    ((l.map (fun s => if s.base = sp1.base then sp1 else s)).eraseP
        (fun s => decide (s.base = sp1.base)))
      = l.eraseP (fun s => decide (s.base = sp1.base)) := by
  induction l with
  | nil => simp
  | cons s rest ih =>
    rw [List.pairwise_cons] at hpw
    simp only [List.map_cons, List.eraseP_cons]
    by_cases hc : s.base = sp1.base
    · rw [if_pos hc]
      simp only [decide_True, decide_eq_true_eq, cond_true, hc]
      have hrest : rest.map (fun s => if s.base = sp1.base then sp1 else s) = rest := by
        refine (List.map_congr_left ?_).trans (List.map_id rest)
        intro u hu
        have := hpw.1 u hu
        rw [if_neg (by rw [← hc]; omega)]
        rfl
      simp [hrest]
    · rw [if_neg hc]
      simp only [decide_eq_false hc, cond_false]
      rw [ih hpw.2]

/-- C `m_free` on a valid in-use payload of a well-formed heap: it succeeds,
preserves well-formedness, and unmaps the owning span exactly when its block
count hits zero while more than `SPAN_CACHE` spans exist. -/
theorem m_free_spec {h : Heap} {p : Nat} {sp : Span} {o : Nat} {b : Block}
    (hwf : heapWF h) (hp : p ≠ 0)
    (hloc : locate h.spans (plblkAddr p) = some (sp, o))
    (hget : getBlk sp o = some b) (hused : b.inUse = true) :
    ∃ h', m_free p h = some h' ∧ heapWF h' ∧ h'.pagesize = h.pagesize ∧
      (sp.blkcount = 1 ∧ SPAN_CACHE < h.spanCount →
         (∀ t ∈ h'.spans, t.base ≠ sp.base) ∧ h'.spanCount = h.spanCount - 1) ∧
      (¬ (sp.blkcount = 1 ∧ SPAN_CACHE < h.spanCount) →
         (∃ t ∈ h'.spans, t.base = sp.base) ∧ h'.spanCount = h.spanCount) := by
  have hsp : sp ∈ h.spans := (locate_sound hloc).1
  have hspwf : spanWF sp := hwf.1 sp hsp
  obtain ⟨pre, post, hdec, ho⟩ := getBlk_decomp hget
  obtain ⟨sp1, post1, hbf, h01, hb1, hnpre, hnpost, hbase1, hsize1, hcnt1, hcpos, hfl1⟩ :=
    blkfree_spec hspwf hdec ho hused
  have howner : b.owner = sp.base := (hspwf.1.2.2.2.2.2.1 b (by
    rw [hdec]; exact List.mem_append_right _ (by simp))).2.2.1
  unfold m_free
  rw [if_neg hp, hloc]
  try dsimp only
  rw [hget]
  try dsimp only
  rw [if_neg (by simp [hused]), if_neg (by simp [howner]), hbf]
  try dsimp only
  by_cases hcond : sp1.blkcount = 0 ∧ SPAN_CACHE < (updSpan h sp1).spanCount
  · rw [if_pos hcond]
    -- retention branch: the span is unmapped
    have hcond' : sp.blkcount = 1 ∧ SPAN_CACHE < h.spanCount := by
      rw [updSpan_spanCount] at hcond
      omega
    have hmem1 : sp1 ∈ (updSpan h sp1).spans := mem_updSpan_self hsp hbase1
    unfold spfree spsever
    rw [if_pos (List.any_eq_true.mpr ⟨sp1, hmem1, by simp⟩)]
    try dsimp only
    have hpwne := bases_pairwise_ne hwf
    have herase : ((updSpan h sp1).spans.eraseP (fun s => decide (s.base = sp1.base)))
        = h.spans.eraseP (fun s => decide (s.base = sp1.base)) := by
      rw [updSpan_spans]
      exact eraseP_map_upd hpwne sp1
    refine ⟨_, rfl, ?_, rfl, fun hc2 => ?_, fun hc2 => absurd hcond' hc2⟩
    · -- heapWF of the erased heap
      refine ⟨?_, ?_, ?_, hwf.2.2.2.1, ?_⟩
      · intro t ht
        simp only [herase] at ht
        exact hwf.1 t (List.mem_of_mem_eraseP ht)
      · show List.Pairwise _ ((updSpan h sp1).spans.eraseP _)
        rw [herase]
        exact hwf.2.1.sublist (List.eraseP_sublist _)
      · show (updSpan h sp1).spanCount - 1 = _
        rw [updSpan_spanCount]
        show _ = ((updSpan h sp1).spans.eraseP _).length
        rw [herase]
        have hlen : (h.spans.eraseP (fun s => decide (s.base = sp1.base))).length
            = h.spans.length - 1 := by
          refine List.length_eraseP_of_mem hsp ?_
          simp [hbase1]
        rw [hlen, ← hwf.2.2.1]
      · intro hne2
        refine hwf.2.2.2.2 (fun hnil => hne2 ?_)
        show ((updSpan h sp1).spans.eraseP _) = []
        rw [herase, hnil]
        rfl
    · constructor
      · intro t ht
        simp only [herase] at ht
        have := eraseP_no_match hpwne sp1.base t ht
        rw [hbase1] at this
        exact this
      · show (updSpan h sp1).spanCount - 1 = _
        rw [updSpan_spanCount]
  · rw [if_neg hcond]
    have hcond' : ¬ (sp.blkcount = 1 ∧ SPAN_CACHE < h.spanCount) := by
      rw [updSpan_spanCount] at hcond
      omega
    obtain ⟨sp2, c, hco, hwf2, hbase2, hsize2, hcnt2⟩ :=
      coalesce_spec h01 hb1 ho (by simp) hnpre hnpost
    rw [hco]
    dsimp only
    rw [updSpan_updSpan h hbase2.symm]
    refine ⟨_, rfl, ?_, rfl, fun hc2 => absurd hc2 hcond', fun hc2 => ?_⟩
    · exact updSpan_wf hwf hsp hwf2 (hbase2.trans hbase1) (hsize2.trans hsize1)
    · refine ⟨⟨sp2, mem_updSpan_self hsp (hbase2.trans hbase1), hbase2.trans hbase1⟩, rfl⟩

/-- Heap well-formedness is preserved by every completed `m_free`. -/
theorem m_free_wf {h h' : Heap} {p : Nat} (hwf : heapWF h)
    (hs : m_free p h = some h') : heapWF h' := by
  by_cases hp : p = 0
  · unfold m_free at hs
    rw [if_pos hp] at hs
    exact Option.some.inj hs ▸ hwf
  · rcases hl : locate h.spans (plblkAddr p) with _ | ⟨sp, o⟩
    · unfold m_free at hs
      rw [if_neg hp, hl] at hs
      exact absurd hs (by simp)
    · rcases hg : getBlk sp o with _ | b
      · unfold m_free at hs
        rw [if_neg hp, hl] at hs
        dsimp only at hs
        rw [hg] at hs
        exact absurd hs (by simp)
      · by_cases hu : b.inUse = true
        · obtain ⟨h'', heq, hwf'', _⟩ := m_free_spec hwf hp hl hg hu
          rw [heq] at hs
          exact Option.some.inj hs ▸ hwf''
        · unfold m_free at hs
          rw [if_neg hp, hl] at hs
          dsimp only at hs
          rw [hg] at hs
          dsimp only at hs
          rw [if_pos (by simpa using hu)] at hs
          exact absurd hs (by simp)

/-- C `blkalloc` on a free block big enough for the request: it succeeds and
yields a fully well-formed span with one more in-use block; the returned
offset holds an in-use block of at least minimum size lying inside the
span. -/
theorem blkalloc_spec {sp : Span} {pre post : List Block} {b : Block} {o g : Nat}
    (hwf : spanWF sp) (hb : sp.blocks = pre ++ b :: post)
    (ho : o = SPAN_HDR_PADSZ + sumGross pre) (hfree : b.inUse = false)
    (hg64 : MIN_BLKSZ ≤ g) (hg16 : g % ALIGNMENT = 0) (hgle : g ≤ b.gross) :
    ∃ sp' ro b', blkalloc sp o g = some (sp', ro) ∧ spanWF sp' ∧
      sp'.base = sp.base ∧ sp'.size = sp.size ∧
      sp'.blkcount = sp.blkcount + 1 ∧
      getBlk sp' ro = some b' ∧ b'.inUse = true ∧
      ro % 16 = 0 ∧ MIN_BLKSZ ≤ b'.gross ∧ ro + b'.gross ≤ sp.size := by
  obtain ⟨h0, hnadj⟩ := hwf
  obtain ⟨hne, hbm, hbu, hmin, hsum, hblk, hchain, hnd, hsub, hsup, hcnt⟩ := h0
  have h0' : spanWF0 sp :=
    ⟨hne, hbm, hbu, hmin, hsum, hblk, hchain, hnd, hsub, hsup, hcnt⟩
  have hB := spanWF0_basics h0'
  have hbmem : b ∈ sp.blocks := by rw [hb]; exact List.mem_append_right _ (by simp)
  have hbOk := hblk b hbmem
  have hprepos : ∀ x ∈ pre, 0 < x.gross :=
    fun x hx => basics_pos hB x (by rw [hb]; exact List.mem_append_left _ hx)
  have hub := decomp_off_ubB hB hb
  have homod := decomp_off_modB hB hb
  have hglt : g < U64 := by
    have := basics_size_lt hB
    omega
  have hsubeq : sub64 b.gross g = b.gross - g := by
    refine sub64_eq hgle ?_
    have := basics_size_lt hB
    omega
  have homem : o ∈ sp.freelist := by
    refine hsup o ?_
    unfold freeOffsets
    rw [hb, ho]
    exact mem_fOffs_of_free hfree
  -- the prefix boundary: the block before a free block is in use (or absent)
  have hendpre : endUse true pre = true := by
    rw [hb, noAdjFrom_append] at hnadj
    simp only [noAdjFrom_cons, Bool.and_eq_true, Bool.or_eq_true] at hnadj
    rcases hnadj.2.1 with hx | hx
    · exact hx
    · rw [hfree] at hx
      simp at hx
  have hnpost : noAdjFrom b.inUse post = true := by
    rw [hb, noAdjFrom_append] at hnadj
    simp only [noAdjFrom_cons, Bool.and_eq_true] at hnadj
    exact hnadj.2.2
  have hchain2 : b.prevInUse = endUse false pre ∧ chainFlags b.inUse post = true := by
    rw [hb, chainFlags_append] at hchain
    simp only [chainFlags_cons, Bool.and_eq_true, beq_iff_eq] at hchain
    exact ⟨hchain.2.1, hchain.2.2⟩
  unfold blkalloc
  rw [getBlk_of_decompB hB hb ho]
  dsimp only
  rw [if_neg (by simp [hfree])]
  by_cases hwhole : sub64 b.gross g < MIN_BLKSZ
  · -- take the whole block
    rw [if_pos hwhole]
    unfold blksever
    rw [if_pos homem]
    try dsimp only
    have hinit : blkinitOk { sp with freelist := sp.freelist.erase o } o b.gross = true :=
      blkinitOk_true hbm (ho ▸ homod) (by show o + b.gross ≤ sp.size; omega)
    rw [if_neg (by simp [hinit])]
    have hmodf : modifyAt sp.blocks SPAN_HDR_PADSZ o
        (fun bb => { bb with inUse := true, magic := MAGIC_SPENT })
        = some (pre ++ blkUsed b :: post) := by
      rw [hb, ho]
      exact modifyAt_of_decomp hprepos
    rw [show ({ sp with freelist := sp.freelist.erase o } : Span).blocks = sp.blocks from rfl,
      hmodf, Option.map_some']
    try dsimp only
    -- now the blknextadj fix-up on the updated span
    have hB3 : spanBasics { sp with
        freelist := sp.freelist.erase o,
        blocks := pre ++ blkUsed b :: post,
        blkcount := sp.blkcount + 1 } := by
      refine ⟨hne, hbm, hbu, ?_, ?_⟩
      · show SPAN_HDR_PADSZ + sumGross (pre ++ blkUsed b :: post) = sp.size
        rw [hb] at hsum
        simp only [sumGross_append, sumGross_cons, blkUsed_gross] at hsum ⊢
        omega
      · intro x hx
        simp only [List.mem_append, List.mem_cons] at hx
        rcases hx with hx | hx | hx
        · have := hblk x (by rw [hb]; exact List.mem_append_left _ hx)
          exact ⟨this.1, this.2.1⟩
        · subst hx
          exact ⟨hbOk.1, hbOk.2.1⟩
        · have := hblk x (by rw [hb]; exact List.mem_append_right _ (by simp [hx]))
          exact ⟨this.1, this.2.1⟩
    -- common facts for both post shapes
    have hhsub : ∀ oo ∈ sp.freelist.erase o,
        oo ∈ freeOffsets sp ∧ oo ≠ o :=
      fun oo hoo => ⟨hsub oo (hnd.mem_erase_iff.mp hoo).2, (hnd.mem_erase_iff.mp hoo).1⟩
    cases hp : post with
    | nil =>
      subst hp
      rw [@blknextadj_lastB _ pre _ _ hB3 (by show _ = pre ++ [blkUsed b]; rfl) ho]
      refine ⟨_, o, blkUsed b, rfl, ?_, rfl, rfl, rfl, ?_, rfl, ho ▸ homod, by
        simpa using hbOk.1, by simpa using (by omega : o + b.gross ≤ sp.size)⟩
      · constructor
        · refine ⟨hne, hbm, hbu, hmin, ?_, ?_, ?_, hnd.erase o, ?_, ?_, ?_⟩
          · show SPAN_HDR_PADSZ + sumGross (pre ++ blkUsed b :: []) = sp.size
            rw [hb] at hsum
            simp only [sumGross_append, sumGross_cons, blkUsed_gross] at hsum ⊢
            omega
          · intro x hx
            simp only [List.mem_append, List.mem_cons] at hx
            rcases hx with hx | hx
            · exact hblk x (by rw [hb]; exact List.mem_append_left _ hx)
            · simp only [fOffs_nil, List.not_mem_nil, or_false] at hx
              subst hx
              exact ⟨hbOk.1, hbOk.2.1, by simp [hbOk.2.2.1], by simp⟩
          · show chainFlags false (pre ++ blkUsed b :: []) = true
            rw [chainFlags_append]
            rw [hb, chainFlags_append] at hchain
            simp only [chainFlags_cons, chainFlags_nil, Bool.and_eq_true, beq_iff_eq,
              blkUsed_prevInUse] at hchain ⊢
            exact ⟨hchain.1, hchain.2.1, trivial⟩
          · intro oo hoo
            obtain ⟨hold, hone⟩ := hhsub oo hoo
            show oo ∈ freeOffsets _
            have hwin : freeOffsets { sp with
                freelist := sp.freelist.erase o,
                blocks := pre ++ blkUsed b :: [],
                blkcount := sp.blkcount + 1 } =
                fOffs SPAN_HDR_PADSZ pre ++ [] ++
                fOffs (SPAN_HDR_PADSZ + sumGross pre + b.gross) [] := by
              refine (freeOffsets_window1 (b := blkUsed b) rfl).trans ?_
              simp
            have hwin2 : freeOffsets sp =
                fOffs SPAN_HDR_PADSZ pre ++ [SPAN_HDR_PADSZ + sumGross pre] ++
                fOffs (SPAN_HDR_PADSZ + sumGross pre + b.gross) [] := by
              refine (freeOffsets_window1 (b := b) hb).trans ?_
              simp [hfree]
            rw [hwin]
            rw [hwin2] at hold
            simp only [List.mem_append, List.mem_singleton, fOffs_nil, List.not_mem_nil,
              or_false] at hold ⊢
            rcases hold with hold | hold
            · exact hold
            · exact absurd (by rw [hold, ho]) hone
          · intro oo hoo
            have hwin : freeOffsets { sp with
                freelist := sp.freelist.erase o,
                blocks := pre ++ blkUsed b :: [],
                blkcount := sp.blkcount + 1 } =
                fOffs SPAN_HDR_PADSZ pre ++ [] ++
                fOffs (SPAN_HDR_PADSZ + sumGross pre + b.gross) [] := by
              refine (freeOffsets_window1 (b := blkUsed b) rfl).trans ?_
              simp
            have hwin2 : freeOffsets sp =
                fOffs SPAN_HDR_PADSZ pre ++ [SPAN_HDR_PADSZ + sumGross pre] ++
                fOffs (SPAN_HDR_PADSZ + sumGross pre + b.gross) [] := by
              refine (freeOffsets_window1 (b := b) hb).trans ?_
              simp [hfree]
            rw [hwin] at hoo
            show oo ∈ sp.freelist.erase o
            simp only [List.mem_append, fOffs_nil, List.not_mem_nil, or_false] at hoo
            refine hnd.mem_erase_iff.mpr ⟨?_, hsup oo (by
              rw [hwin2]
              simp only [List.mem_append, fOffs_nil, List.not_mem_nil, or_false]
              exact Or.inl hoo)⟩
            have hbd := mem_fOffs_bounds hprepos hoo
            rw [ho]
            omega
          · show sp.blkcount + 1 = ((pre ++ blkUsed b :: []).filter (fun x => x.inUse)).length
            rw [hb] at hcnt
            simp only [List.filter_append, List.filter_cons, List.length_append,
              blkUsed_inUse, hfree] at hcnt ⊢
            simp at hcnt ⊢
            omega
        · show noAdjFrom true (pre ++ blkUsed b :: []) = true
          rw [noAdjFrom_append]
          rw [hb, noAdjFrom_append] at hnadj
          simp only [noAdjFrom_cons, noAdjFrom_nil, Bool.and_eq_true, blkUsed_inUse] at hnadj ⊢
          exact ⟨hnadj.1, by simp, trivial⟩
      · show getBlk _ o = some (blkUsed b)
        unfold getBlk
        show blkAt (pre ++ blkUsed b :: []) _ _ = _
        rw [ho]
        exact blkAt_of_decomp hprepos
    | cons q post' =>
      subst hp
      rw [@blknextadj_midB _ pre _ _ _ _ hB3 (by show _ = pre ++ blkUsed b :: q :: post'; rfl) ho]
      try dsimp only
      unfold spSetBlk
      have hpos2 : ∀ x ∈ pre ++ [blkUsed b], 0 < x.gross := by
        intro x hx
        rcases List.mem_append.mp hx with hx | hx
        · exact hprepos x hx
        · simp only [List.mem_singleton] at hx
          subst hx
          have := hbOk.1
          simp only [MIN_BLKSZ, blkUsed_gross] at this ⊢
          omega
      have hmod2 : modifyAt (pre ++ blkUsed b :: q :: post') SPAN_HDR_PADSZ
          (o + (blkUsed b).gross) (fun r => { r with prevInUse := true })
          = some (pre ++ blkUsed b :: { q with prevInUse := true } :: post') := by
        have hh := @modifyAt_of_decomp (pre ++ [blkUsed b]) post' q SPAN_HDR_PADSZ
          (fun r => { r with prevInUse := true }) hpos2
        have hoff : SPAN_HDR_PADSZ + sumGross (pre ++ [blkUsed b])
            = o + (blkUsed b).gross := by
          simp only [sumGross_append, sumGross_cons, sumGross_nil, blkUsed_gross, ho]
          omega
        rw [hoff] at hh
        simpa using hh
      rw [hmod2]
      try dsimp only
      set q' : Block := { q with prevInUse := true } with hq'
      have hq'g : q'.gross = q.gross := rfl
      have hq'u : q'.inUse = q.inUse := rfl
      have hqmem : q ∈ sp.blocks := by rw [hb]; exact List.mem_append_right _ (by simp)
      have hqOk := hblk q hqmem
      have hqused : q.inUse = true := by
        simp only [noAdjFrom_cons, Bool.and_eq_true, Bool.or_eq_true, hfree] at hnpost
        rcases hnpost.1 with hx | hx
        · simp at hx
        · exact hx
      refine ⟨_, o, blkUsed b, rfl, ?_, rfl, rfl, rfl, ?_, rfl, ho ▸ homod, by
        simpa using hbOk.1, by simpa using (by omega : o + b.gross ≤ sp.size)⟩
      · constructor
        · refine ⟨hne, hbm, hbu, hmin, ?_, ?_, ?_, hnd.erase o, ?_, ?_, ?_⟩
          · show SPAN_HDR_PADSZ + sumGross (pre ++ blkUsed b :: q' :: post') = sp.size
            rw [hb] at hsum
            simp only [sumGross_append, sumGross_cons, blkUsed_gross, hq'g] at hsum ⊢
            omega
          · intro x hx
            simp only [List.mem_append, List.mem_cons] at hx
            rcases hx with hx | hx | hx | hx
            · exact hblk x (by rw [hb]; exact List.mem_append_left _ hx)
            · subst hx
              exact ⟨hbOk.1, hbOk.2.1, by simp [hbOk.2.2.1], by simp⟩
            · subst hx
              refine ⟨hqOk.1, hqOk.2.1, hqOk.2.2.1, ?_⟩
              intro hfq
              rw [hq'u] at hfq
              exact hqOk.2.2.2 hfq
            · exact hblk x (by rw [hb]; exact List.mem_append_right _ (by simp [hx]))
          · show chainFlags false (pre ++ blkUsed b :: q' :: post') = true
            rw [chainFlags_append]
            rw [hb, chainFlags_append] at hchain
            simp only [chainFlags_cons, Bool.and_eq_true, beq_iff_eq, blkUsed_inUse,
              blkUsed_prevInUse, hq'u] at hchain ⊢
            exact ⟨hchain.1, hchain.2.1, trivial, hchain.2.2.2⟩
          · intro oo hoo
            obtain ⟨hold, hone⟩ := hhsub oo hoo
            show oo ∈ freeOffsets _
            have hwin : freeOffsets { sp with
                freelist := sp.freelist.erase o,
                blocks := pre ++ blkUsed b :: q' :: post',
                blkcount := sp.blkcount + 1 } =
                fOffs SPAN_HDR_PADSZ pre ++ [] ++
                (if q'.inUse = false then [SPAN_HDR_PADSZ + sumGross pre + (blkUsed b).gross]
                 else []) ++
                fOffs (SPAN_HDR_PADSZ + sumGross pre + (blkUsed b).gross + q'.gross)
                  post' := by
              refine (freeOffsets_window (a := blkUsed b) (b := q') rfl).trans ?_
              simp
            have hwin2 : freeOffsets sp =
                fOffs SPAN_HDR_PADSZ pre ++ [SPAN_HDR_PADSZ + sumGross pre] ++
                (if q.inUse = false then [SPAN_HDR_PADSZ + sumGross pre + b.gross] else []) ++
                fOffs (SPAN_HDR_PADSZ + sumGross pre + b.gross + q.gross) post' := by
              refine (freeOffsets_window (a := b) (b := q) hb).trans ?_
              simp [hfree]
            rw [hwin]
            rw [hwin2] at hold
            simp only [List.mem_append, List.mem_singleton, blkUsed_gross, hq'g, hq'u,
              fOffs_nil, List.not_mem_nil, or_false] at hold ⊢
            rcases hold with ((hold | hold) | hold) | hold
            · tauto
            · exact absurd (by rw [hold, ho]) hone
            · tauto
            · tauto
          · intro oo hoo
            have hwin : freeOffsets { sp with
                freelist := sp.freelist.erase o,
                blocks := pre ++ blkUsed b :: q' :: post',
                blkcount := sp.blkcount + 1 } =
                fOffs SPAN_HDR_PADSZ pre ++ [] ++
                (if q'.inUse = false then [SPAN_HDR_PADSZ + sumGross pre + (blkUsed b).gross]
                 else []) ++
                fOffs (SPAN_HDR_PADSZ + sumGross pre + (blkUsed b).gross + q'.gross)
                  post' := by
              refine (freeOffsets_window (a := blkUsed b) (b := q') rfl).trans ?_
              simp
            have hwin2 : freeOffsets sp =
                fOffs SPAN_HDR_PADSZ pre ++ [SPAN_HDR_PADSZ + sumGross pre] ++
                (if q.inUse = false then [SPAN_HDR_PADSZ + sumGross pre + b.gross] else []) ++
                fOffs (SPAN_HDR_PADSZ + sumGross pre + b.gross + q.gross) post' := by
              refine (freeOffsets_window (a := b) (b := q) hb).trans ?_
              simp [hfree]
            rw [hwin] at hoo
            show oo ∈ sp.freelist.erase o
            simp only [List.mem_append, List.mem_singleton, blkUsed_gross, hq'g, hq'u,
              fOffs_nil, List.not_mem_nil, or_false] at hoo
            have hooold : oo ∈ freeOffsets sp := by
              rw [hwin2]
              simp only [List.mem_append, List.mem_singleton]
              tauto
            refine hnd.mem_erase_iff.mpr ⟨?_, hsup oo hooold⟩
            rcases hoo with (hoo | hoo) | hoo
            · have hbd := mem_fOffs_bounds hprepos hoo
              rw [ho]
              omega
            · rw [hqused] at hoo
              simp at hoo
            · have hpostpos : ∀ x ∈ post', 0 < x.gross := by
                intro x hx
                refine basics_pos hB x ?_
                rw [hb]
                exact List.mem_append_right _ (by simp [hx])
              have hbd := mem_fOffs_bounds hpostpos hoo
              rw [ho]
              have := hbOk.1
              simp only [MIN_BLKSZ] at this
              omega
          · show sp.blkcount + 1 =
                ((pre ++ blkUsed b :: q' :: post').filter (fun x => x.inUse)).length
            rw [hb] at hcnt
            simp only [List.filter_append, List.filter_cons, List.length_append,
              blkUsed_inUse, hfree, hq'u, hqused] at hcnt ⊢
            simp at hcnt ⊢
            omega
        · show noAdjFrom true (pre ++ blkUsed b :: q' :: post') = true
          rw [noAdjFrom_append]
          rw [hb, noAdjFrom_append] at hnadj
          simp only [noAdjFrom_cons, Bool.and_eq_true, blkUsed_inUse, hq'u] at hnadj ⊢
          refine ⟨hnadj.1, by simp, by simp, hnadj.2.2.2⟩
      · show getBlk _ o = some (blkUsed b)
        unfold getBlk
        show blkAt (pre ++ blkUsed b :: q' :: post') _ _ = _
        rw [ho]
        exact blkAt_of_decomp hprepos
  · -- split off a tail block
    rw [if_neg hwhole]
    rw [hsubeq] at hwhole
    have hglb : g + MIN_BLKSZ ≤ b.gross := by omega
    unfold blksplit
    rw [getBlk_of_decompB hB hb ho]
    dsimp only
    rw [if_neg (not_not_intro (by simp only [MIN_BLKSZ] at hglb; omega))]
    have halign : (sp.base + (o + (b.gross - g))) % ALIGNMENT = 0 := by
      have h3 := hbOk.2.1
      simp only [ALIGNMENT] at hbm h3 hg16 ⊢
      rw [ho]
      omega
    rw [if_neg (not_not_intro halign)]
    have hpis : ptr_in_span (sp.base + (o + (b.gross - g))) sp = true := by
      unfold ptr_in_span
      simp only [Bool.and_eq_true, decide_eq_true_eq]
      constructor
      · omega
      · rw [ho]
        omega
    rw [if_neg (by simp [hpis])]
    have hrep : replaceAt sp.blocks SPAN_HDR_PADSZ o
        [{ b with gross := b.gross - g, footer := b.gross - g },
          { gross := g, inUse := true, prevInUse := false, owner := sp.base,
            footer := 0, magic := MAGIC_SPENT }] =
        some (pre ++ [{ b with gross := b.gross - g, footer := b.gross - g },
          { gross := g, inUse := true, prevInUse := false, owner := sp.base,
            footer := 0, magic := MAGIC_SPENT }] ++ post) := by
      rw [hb, ho]
      exact replaceAt_of_decomp hprepos
    rw [hrep, Option.map_some']
    try dsimp only
    set s1 : Block := { b with gross := b.gross - g, footer := b.gross - g } with hs1
    set t1 : Block := { gross := g, inUse := true, prevInUse := false, owner := sp.base, footer := 0, magic := MAGIC_SPENT } with ht1
    have hs1g : s1.gross = b.gross - g := rfl
    have hs1u : s1.inUse = b.inUse := rfl
    have hs1p : s1.prevInUse = b.prevInUse := rfl
    have ht1g : t1.gross = g := rfl
    have ht1u : t1.inUse = true := rfl
    have ht1p : t1.prevInUse = false := rfl
    have hs1pos : 0 < s1.gross := by
      rw [hs1g]
      simp only [MIN_BLKSZ] at hwhole
      omega
    have hromod : (o + (b.gross - g)) % 16 = 0 := by
      have h3 := hbOk.2.1
      simp only [ALIGNMENT] at h3 hg16
      rw [ho]
      omega
    have hs1Ok : blockOk sp.base s1 := by
      refine ⟨?_, ?_, ?_, ?_⟩
      · rw [hs1g]
        exact Nat.le_of_not_lt hwhole
      · rw [hs1g]
        have h3 := hbOk.2.1
        simp only [ALIGNMENT] at h3 hg16 ⊢
        omega
      · show s1.owner = sp.base
        rw [hs1]
        exact hbOk.2.2.1
      · intro hf
        rfl
    have ht1Ok : blockOk sp.base t1 := by
      refine ⟨?_, ?_, rfl, ?_⟩
      · rw [ht1g]
        exact hg64
      · rw [ht1g]
        exact hg16
      · intro hf
        rw [ht1u] at hf
        exact Bool.noConfusion hf
    have hoff1 : o + (b.gross - g) = SPAN_HDR_PADSZ + sumGross (pre ++ [s1]) := by
      simp only [sumGross_append, sumGross_cons, sumGross_nil, hs1g]
      omega
    have hpos2 : ∀ x ∈ pre ++ [s1], 0 < x.gross := by
      intro x hx
      rcases List.mem_append.mp hx with hx | hx
      · exact hprepos x hx
      · simp only [List.mem_singleton] at hx
        subst hx
        exact hs1pos
    have hB3 : spanBasics { sp with
        blocks := pre ++ [s1, t1] ++ post,
        blkcount := sp.blkcount + 1 } := by
      refine ⟨hne, hbm, hbu, ?_, ?_⟩
      · show SPAN_HDR_PADSZ + sumGross (pre ++ [s1, t1] ++ post) = sp.size
        rw [hb] at hsum
        simp only [sumGross_append, sumGross_cons, sumGross_nil, hs1g, ht1g] at hsum ⊢
        omega
      · intro x hx
        simp only [List.mem_append, List.mem_cons, List.not_mem_nil, or_false] at hx
        rcases hx with (hx | hx | hx) | hx
        · have := hblk x (by rw [hb]; exact List.mem_append_left _ hx)
          exact ⟨this.1, this.2.1⟩
        · subst hx
          exact ⟨hs1Ok.1, hs1Ok.2.1⟩
        · subst hx
          exact ⟨ht1Ok.1, ht1Ok.2.1⟩
        · have := hblk x (by rw [hb]; exact List.mem_append_right _ (by simp [hx]))
          exact ⟨this.1, this.2.1⟩
    cases hp : post with
    | nil =>
      subst hp
      rw [@blknextadj_lastB _ (pre ++ [s1]) _ _ hB3 (by show _ = (pre ++ [s1]) ++ [t1]; simp) hoff1]
      have hfo : fOffs SPAN_HDR_PADSZ (pre ++ [s1, t1] ++ ([] : List Block))
          = freeOffsets sp := by
        unfold freeOffsets
        rw [hb]
        simp [fOffs_append, fOffs_cons, hs1u, hfree, ht1u]
      refine ⟨_, o + (b.gross - g), t1, rfl, ?_, rfl, rfl, rfl, ?_, ht1u, hromod,
        le_of_le_of_eq hg64 ht1g.symm, by rw [ht1g]; omega⟩
      · constructor
        · refine ⟨hne, hbm, hbu, hmin, hB3.2.2.2.1, ?_, ?_, hnd, ?_, ?_, ?_⟩
          · intro x hx
            simp only [List.mem_append, List.mem_cons, List.not_mem_nil, or_false] at hx
            rcases hx with hx | hx | hx
            · exact hblk x (by rw [hb]; exact List.mem_append_left _ hx)
            · subst hx
              exact hs1Ok
            · subst hx
              exact ht1Ok
          · show chainFlags false (pre ++ [s1, t1] ++ []) = true
            rw [List.append_nil, chainFlags_append]
            rw [hb, chainFlags_append] at hchain
            simp only [chainFlags_cons, chainFlags_nil, Bool.and_eq_true, beq_iff_eq,
              hs1p, hs1u, ht1p, ht1u, hfree] at hchain ⊢
            exact ⟨hchain.1, hchain.2.1, trivial, trivial⟩
          · intro oo hoo
            show oo ∈ fOffs SPAN_HDR_PADSZ (pre ++ [s1, t1] ++ ([] : List Block))
            rw [hfo]
            exact hsub oo hoo
          · intro oo hoo
            have hoo2 : oo ∈ fOffs SPAN_HDR_PADSZ (pre ++ [s1, t1] ++ ([] : List Block)) := hoo
            rw [hfo] at hoo2
            exact hsup oo hoo2
          · show sp.blkcount + 1 = ((pre ++ [s1, t1] ++ []).filter (fun x : Block => x.inUse)).length
            rw [hb] at hcnt
            simp only [List.append_nil, List.filter_append, List.filter_cons,
              List.filter_nil, List.length_append, hs1u, ht1u, hfree] at hcnt ⊢
            simp at hcnt ⊢
            omega
        · show noAdjFrom true (pre ++ [s1, t1] ++ []) = true
          rw [List.append_nil, noAdjFrom_append]
          rw [hb, noAdjFrom_append] at hnadj
          simp only [noAdjFrom_cons, noAdjFrom_nil, Bool.and_eq_true, Bool.or_eq_true,
            hs1u, ht1u, hendpre] at hnadj ⊢
          simp [hnadj.1]
      · show getBlk _ (o + (b.gross - g)) = some t1
        unfold getBlk
        rw [hoff1]
        have hh := @blkAt_of_decomp (pre ++ [s1]) [] t1 SPAN_HDR_PADSZ hpos2
        simpa using hh
    | cons q post2 =>
      subst hp
      rw [@blknextadj_midB _ (pre ++ [s1]) _ _ _ _ hB3 (by show _ = (pre ++ [s1]) ++ t1 :: q :: post2; simp) hoff1]
      try dsimp only
      unfold spSetBlk
      have hqmem : q ∈ sp.blocks := by rw [hb]; exact List.mem_append_right _ (by simp)
      have hqOk := hblk q hqmem
      have hqused : q.inUse = true := by
        simp only [noAdjFrom_cons, Bool.and_eq_true, Bool.or_eq_true, hfree] at hnpost
        rcases hnpost.1 with hx | hx
        · simp at hx
        · exact hx
      have hpos3 : ∀ x ∈ pre ++ [s1, t1], 0 < x.gross := by
        intro x hx
        simp only [List.mem_append, List.mem_cons, List.not_mem_nil, or_false] at hx
        rcases hx with hx | hx | hx
        · exact hprepos x hx
        · subst hx
          exact hs1pos
        · subst hx
          rw [ht1g]
          simp only [MIN_BLKSZ] at hg64
          omega
      have hmod2 : modifyAt (pre ++ [s1, t1] ++ q :: post2) SPAN_HDR_PADSZ
          (o + (b.gross - g) + t1.gross) (fun r => { r with prevInUse := true })
          = some (pre ++ [s1, t1] ++ { q with prevInUse := true } :: post2) := by
        have hh := @modifyAt_of_decomp (pre ++ [s1, t1]) post2 q SPAN_HDR_PADSZ
          (fun r => { r with prevInUse := true }) hpos3
        have hoff : SPAN_HDR_PADSZ + sumGross (pre ++ [s1, t1])
            = o + (b.gross - g) + t1.gross := by
          simp only [sumGross_append, sumGross_cons, sumGross_nil, hs1g, ht1g]
          omega
        rw [hoff] at hh
        simpa using hh
      rw [hmod2, Option.map_some']
      try dsimp only
      set q1 : Block := { q with prevInUse := true } with hq1
      have hq1g : q1.gross = q.gross := rfl
      have hq1u : q1.inUse = q.inUse := rfl
      have hq1p : q1.prevInUse = true := rfl
      have htails : fOffs (SPAN_HDR_PADSZ + sumGross pre) (s1 :: t1 :: q1 :: post2)
          = fOffs (SPAN_HDR_PADSZ + sumGross pre) (b :: q :: post2) := by
        have harith : SPAN_HDR_PADSZ + sumGross pre + (b.gross - g) + g
            = SPAN_HDR_PADSZ + sumGross pre + b.gross := by omega
        rw [fOffs_cons, fOffs_cons, fOffs_cons]
        rw [@fOffs_cons (SPAN_HDR_PADSZ + sumGross pre) b (q :: post2),
          @fOffs_cons (SPAN_HDR_PADSZ + sumGross pre + b.gross) q post2]
        simp only [hs1u, hfree, ht1u, hq1u, hqused, hs1g, ht1g, hq1g, harith]
        simp
      have hfo : fOffs SPAN_HDR_PADSZ (pre ++ [s1, t1] ++ q1 :: post2)
          = freeOffsets sp := by
        unfold freeOffsets
        rw [hb]
        rw [show pre ++ [s1, t1] ++ q1 :: post2 = pre ++ s1 :: t1 :: q1 :: post2 by simp]
        rw [fOffs_append, fOffs_append, htails]
      refine ⟨_, o + (b.gross - g), t1, rfl, ?_, rfl, rfl, rfl, ?_, ht1u, hromod,
        le_of_le_of_eq hg64 ht1g.symm, by rw [ht1g]; omega⟩
      · constructor
        · refine ⟨hne, hbm, hbu, hmin, ?_, ?_, ?_, hnd, ?_, ?_, ?_⟩
          · show SPAN_HDR_PADSZ + sumGross (pre ++ [s1, t1] ++ q1 :: post2) = sp.size
            rw [hb] at hsum
            simp only [sumGross_append, sumGross_cons, sumGross_nil, hs1g, ht1g,
              hq1g] at hsum ⊢
            omega
          · intro x hx
            simp only [List.mem_append, List.mem_cons, List.not_mem_nil, or_false] at hx
            rcases hx with (hx | hx | hx) | hx | hx
            · exact hblk x (by rw [hb]; exact List.mem_append_left _ hx)
            · subst hx
              exact hs1Ok
            · subst hx
              exact ht1Ok
            · subst hx
              refine ⟨hqOk.1, hqOk.2.1, hqOk.2.2.1, ?_⟩
              intro hf
              rw [hq1u] at hf
              exact hqOk.2.2.2 hf
            · exact hblk x (by rw [hb]; exact List.mem_append_right _ (by simp [hx]))
          · show chainFlags false (pre ++ [s1, t1] ++ q1 :: post2) = true
            rw [show (pre ++ [s1, t1]) ++ q1 :: post2 = pre ++ s1 :: t1 :: q1 :: post2 by simp]
            rw [chainFlags_append]
            rw [hb, chainFlags_append] at hchain
            simp only [chainFlags_cons, Bool.and_eq_true, beq_iff_eq, hs1p, hs1u, ht1p,
              ht1u, hq1p, hq1u, hfree] at hchain ⊢
            exact ⟨hchain.1, hchain.2.1, trivial, trivial, hchain.2.2.2⟩
          · intro oo hoo
            show oo ∈ fOffs SPAN_HDR_PADSZ (pre ++ [s1, t1] ++ q1 :: post2)
            rw [hfo]
            exact hsub oo hoo
          · intro oo hoo
            have hoo2 : oo ∈ fOffs SPAN_HDR_PADSZ (pre ++ [s1, t1] ++ q1 :: post2) := hoo
            rw [hfo] at hoo2
            exact hsup oo hoo2
          · show sp.blkcount + 1 =
                ((pre ++ [s1, t1] ++ q1 :: post2).filter (fun x : Block => x.inUse)).length
            rw [hb] at hcnt
            simp only [List.filter_append, List.filter_cons, List.filter_nil,
              List.length_append, hs1u, ht1u, hq1u, hfree, hqused] at hcnt ⊢
            simp at hcnt ⊢
            omega
        · show noAdjFrom true (pre ++ [s1, t1] ++ q1 :: post2) = true
          rw [show (pre ++ [s1, t1]) ++ q1 :: post2 = pre ++ s1 :: t1 :: q1 :: post2 by simp]
          rw [noAdjFrom_append]
          rw [hb, noAdjFrom_append] at hnadj
          simp only [noAdjFrom_cons, noAdjFrom_nil, Bool.and_eq_true, Bool.or_eq_true,
            hs1u, ht1u, hq1u, hendpre] at hnadj ⊢
          have hnq : noAdjFrom q.inUse post2 = true := by
            simp only [noAdjFrom_cons, Bool.and_eq_true] at hnpost
            exact hnpost.2
          simp [hnadj.1, hnq]
      · show getBlk _ (o + (b.gross - g)) = some t1
        unfold getBlk
        rw [hoff1]
        have hh := @blkAt_of_decomp (pre ++ [s1]) (q1 :: post2) t1 SPAN_HDR_PADSZ hpos2
        simpa using hh

theorem blksizerequest_min (n : Nat) : MIN_BLKSZ ≤ blksizerequest n := by
  unfold blksizerequest usz_max
  split <;> omega

theorem alignUp16_mod (n : Nat) : ALIGN_UP n ALIGNMENT % 16 = 0 := by
  unfold ALIGN_UP
  have hx : (n + ALIGNMENT - 1) % U64 < 2 ^ 64 := Nat.mod_lt _ (by norm_num [U64])
  have hm := land_mask 4 64 ((n + ALIGNMENT - 1) % U64) (by omega) hx
  rw [show U64 - ALIGNMENT = 2 ^ 64 - 2 ^ 4 by norm_num [U64, ALIGNMENT]]
  rw [hm, show (2:Nat) ^ 4 = 16 from by norm_num]
  omega

theorem blksizerequest_mod16 (n : Nat) : blksizerequest n % ALIGNMENT = 0 := by
  have hau := alignUp16_mod n
  have hgs : gross_size n % 16 = 0 := by
    unfold gross_size
    rw [add64_mod16]
    simp only [BLOCK_HDR_PADSZ]
    omega
  unfold blksizerequest usz_max
  simp only [ALIGNMENT] at *
  split
  · exact hgs
  · norm_num [MIN_BLKSZ]

theorem blkfindSpan_inv {sp : Span} {g o : Nat} : ∀ {fl : List Nat},
    blkfindSpan sp fl g = some (some o) →
    o ∈ fl ∧ ∃ b, getBlk sp o = some b ∧ g ≤ b.gross := by
  intro fl
  induction fl with
  | nil => intro h; simp [blkfindSpan] at h
  | cons a rest ih =>
    intro h
    rw [blkfindSpan] at h
    rcases hg : getBlk sp a with _ | b
    · rw [hg] at h
      simp at h
    · rw [hg] at h
      dsimp only at h
      by_cases hfit : g ≤ b.gross
      · rw [if_pos hfit] at h
        have ho : a = o := by
          have := Option.some.inj h
          exact Option.some.inj this
        subst ho
        exact ⟨List.mem_cons_self _ _, b, hg, hfit⟩
      · rw [if_neg hfit] at h
        obtain ⟨hmem, hb⟩ := ih h
        exact ⟨List.mem_cons_of_mem _ hmem, hb⟩

theorem blkfindSpan_total {sp : Span} {g : Nat} (hwf : spanWF0 sp) : ∀ {fl : List Nat},
    (∀ o ∈ fl, o ∈ freeOffsets sp) → ∃ r, blkfindSpan sp fl g = some r := by
  intro fl
  induction fl with
  | nil => intro hsub; exact ⟨none, rfl⟩
  | cons a rest ih =>
    intro hsub
    have hmem : a ∈ freeOffsets sp := hsub a (List.mem_cons_self _ _)
    have hpos : ∀ x ∈ sp.blocks, 0 < x.gross := by
      intro x hx
      have := basics_pos (spanWF0_basics hwf) x hx
      exact this
    obtain ⟨b, hb, hbf⟩ := blkAt_free_of_mem_fOffs hpos hmem
    have hget : getBlk sp a = some b := hb
    rw [blkfindSpan, hget]
    dsimp only
    by_cases hfit : g ≤ b.gross
    · rw [if_pos hfit]
      exact ⟨some a, rfl⟩
    · rw [if_neg hfit]
      exact ih (fun o ho => hsub o (List.mem_cons_of_mem _ ho))

theorem blkfind_inv {g : Nat} {sp : Span} {o : Nat} : ∀ {spans : List Span},
    blkfind spans g = some (some (sp, o)) →
    sp ∈ spans ∧ o ∈ sp.freelist ∧ ∃ b, getBlk sp o = some b ∧ g ≤ b.gross := by
  intro spans
  induction spans with
  | nil => intro h; simp [blkfind] at h
  | cons s rest ih =>
    intro h
    rw [blkfind] at h
    rcases hf : blkfindSpan s s.freelist g with _ | fo
    · rw [hf] at h
      simp at h
    · rw [hf] at h
      rcases fo with _ | oo
      · dsimp only at h
        obtain ⟨hmem, hrest⟩ := ih h
        exact ⟨List.mem_cons_of_mem _ hmem, hrest⟩
      · dsimp only at h
        have hpair : s = sp ∧ oo = o := by
          have h1 := Option.some.inj h
          have h2 := Option.some.inj h1
          exact ⟨congrArg Prod.fst h2, congrArg Prod.snd h2⟩
        obtain ⟨rfl, rfl⟩ := hpair
        obtain ⟨hmem, hb⟩ := blkfindSpan_inv hf
        exact ⟨List.mem_cons_self _ _, hmem, hb⟩

theorem blkfind_total {g : Nat} : ∀ {spans : List Span},
    (∀ s ∈ spans, spanWF s) → ∃ r, blkfind spans g = some r := by
  intro spans
  induction spans with
  | nil => intro hwf; exact ⟨none, rfl⟩
  | cons s rest ih =>
    intro hwf
    have hw := hwf s (List.mem_cons_self _ _)
    obtain ⟨r1, hr1⟩ := blkfindSpan_total (g := g) hw.1 hw.1.2.2.2.2.2.2.2.2.1
    rw [blkfind, hr1]
    rcases r1 with _ | oo
    · dsimp only
      exact ih (fun t ht => hwf t (List.mem_cons_of_mem _ ht))
    · exact ⟨some (s, oo), rfl⟩

/-- What a successful first-fit search yields, in a well-formed span list:
a member span holding a free block at the found offset, large enough for
the request. -/
theorem blkfind_found {spans : List Span} {g : Nat} {sp : Span} {o : Nat}
    (hwf : ∀ s ∈ spans, spanWF s) (h : blkfind spans g = some (some (sp, o))) :
    sp ∈ spans ∧ ∃ pre b post, sp.blocks = pre ++ b :: post ∧
      o = SPAN_HDR_PADSZ + sumGross pre ∧ b.inUse = false ∧ g ≤ b.gross := by
  obtain ⟨hmem, hfl, b, hget, hfit⟩ := blkfind_inv h
  have hw := hwf sp hmem
  have hfree : b.inUse = false := by
    have hmo : o ∈ freeOffsets sp := hw.1.2.2.2.2.2.2.2.2.1 o hfl
    have hpos : ∀ x ∈ sp.blocks, 0 < x.gross := by
      intro x hx
      exact basics_pos (spanWF0_basics hw.1) x hx
    obtain ⟨b', hb', hbf'⟩ := blkAt_free_of_mem_fOffs hpos hmo
    have : b = b' := by
      have h1 : getBlk sp o = some b' := hb'
      rw [hget] at h1
      exact Option.some.inj h1
    rw [this]
    exact hbf'
  obtain ⟨pre, post, hdec, hoff⟩ := getBlk_decomp hget
  exact ⟨hmem, pre, b, post, hdec, hoff, hfree, hfit⟩

/-- C `spalloc` when `mmap` answers a valid address, for sane page sizes and
bounded requests: the call succeeds and pushes a fresh well-formed span
holding exactly one all-covering free block (which starts `SPAN_HDR_PADSZ`
bytes after the base, has `footer = gross`, `IN_USE = 0` and, notably,
`PREV_IN_USE = 0` -- the pages arrive zeroed and nothing sets the bit) as
the sole free-list entry. -/
theorem spalloc_spec {h : Heap} {b g : Nat}
    (hwf : heapWF h) (hps : psOk h.pagesize = true)
    (hgub : g ≤ 2 ^ 63 + MIN_BLKSZ)
    (hmm : mmapOk h.spans b (spanSizeFor h.pagesize g) = true) :
    ∃ sp, spalloc h (some b) g =
        some ({ h with spans := sp :: h.spans, spanCount := h.spanCount + 1 }, some b) ∧
      heapWF { h with spans := sp :: h.spans, spanCount := h.spanCount + 1 } ∧
      spanWF sp ∧ sp.base = b ∧ sp.size = spanSizeFor h.pagesize g ∧
      sp.blkcount = 0 ∧ sp.freelist = [SPAN_HDR_PADSZ] ∧
      sp.blocks = [{ gross := spanSizeFor h.pagesize g - SPAN_HDR_PADSZ, inUse := false, prevInUse := false, owner := b, footer := spanSizeFor h.pagesize g - SPAN_HDR_PADSZ, magic := MAGIC_BABY }] ∧
      g ≤ spanSizeFor h.pagesize g - SPAN_HDR_PADSZ := by
  obtain ⟨hmin, hge, hmod, hub⟩ := spanSizeFor_spec hps hgub
  set spsz := spanSizeFor h.pagesize g with hspsz
  obtain ⟨hne0, hbm, hpos, hbub, hdisj⟩ : b ≠ 0 ∧ b % ALIGNMENT = 0 ∧ 0 < spsz ∧
      b + spsz ≤ U64 ∧
      ∀ sp ∈ h.spans, b + spsz ≤ sp.base ∨ sp.base + sp.size ≤ b := by
    unfold mmapOk at hmm
    simp only [Bool.and_eq_true, decide_eq_true_eq, List.all_eq_true, Bool.or_eq_true] at hmm
    exact ⟨hmm.1.1.1.1, hmm.1.1.1.2, hmm.1.1.2, hmm.1.2, fun sp hsp => by
      have := hmm.2 sp hsp
      simpa using this⟩
  have hszlt : spsz < U64 := by
    simp only [U64]
    simp only [MIN_MMAPSZ] at hmin
    omega
  have hsub : sub64 spsz SPAN_HDR_PADSZ = spsz - SPAN_HDR_PADSZ := by
    refine sub64_eq ?_ hszlt
    simp only [SPAN_HDR_PADSZ, MIN_MMAPSZ] at hmin ⊢
    omega
  unfold spalloc
  dsimp only
  rw [if_neg (by simp [hmm])]
  rw [hsub]
  have hinit : blkinitOk
      { base := b, size := spsz, blkcount := 0, blocks := [], freelist := [] }
      SPAN_HDR_PADSZ (spsz - SPAN_HDR_PADSZ) = true := by
    refine blkinitOk_true hbm (by norm_num [SPAN_HDR_PADSZ]) ?_
    show SPAN_HDR_PADSZ + (spsz - SPAN_HDR_PADSZ) ≤ spsz
    simp only [SPAN_HDR_PADSZ, MIN_MMAPSZ] at hmin ⊢
    omega
  rw [if_neg (by simp [hinit])]
  set blk : Block := { gross := spsz - SPAN_HDR_PADSZ, inUse := false, prevInUse := false, owner := b, footer := spsz - SPAN_HDR_PADSZ, magic := MAGIC_BABY } with hblk
  set sp : Span := { base := b, size := spsz, blkcount := 0, blocks := [blk], freelist := [SPAN_HDR_PADSZ] } with hsp
  have hgfit : g ≤ spsz - SPAN_HDR_PADSZ := by
    simp only [SPAN_HDR_PADSZ] at hge ⊢
    omega
  have hwfsp : spanWF sp := by
    constructor
    · refine ⟨hne0, hbm, hbub, hmin, ?_, ?_, ?_, by simp, ?_, ?_, ?_⟩
      · show SPAN_HDR_PADSZ + sumGross [blk] = spsz
        simp only [sumGross_cons, sumGross_nil, hblk]
        simp only [SPAN_HDR_PADSZ, MIN_MMAPSZ] at hmin ⊢
        omega
      · intro x hx
        simp only [List.mem_singleton] at hx
        subst hx
        refine ⟨?_, ?_, rfl, fun hf => rfl⟩
        · show MIN_BLKSZ ≤ blk.gross
          rw [hblk]
          show MIN_BLKSZ ≤ spsz - SPAN_HDR_PADSZ
          simp only [MIN_BLKSZ, SPAN_HDR_PADSZ, MIN_MMAPSZ] at hmin ⊢
          omega
        · show blk.gross % ALIGNMENT = 0
          rw [hblk]
          show (spsz - SPAN_HDR_PADSZ) % ALIGNMENT = 0
          simp only [ALIGNMENT, SPAN_HDR_PADSZ, MIN_MMAPSZ] at hmod hmin ⊢
          omega
      · show chainFlags false [blk] = true
        simp [hblk]
      · intro o ho
        simp only [List.mem_singleton] at ho
        subst ho
        show SPAN_HDR_PADSZ ∈ freeOffsets sp
        unfold freeOffsets
        show SPAN_HDR_PADSZ ∈ fOffs SPAN_HDR_PADSZ [blk]
        rw [fOffs_cons]
        simp [hblk]
      · intro o ho
        have ho2 : o ∈ fOffs SPAN_HDR_PADSZ [blk] := ho
        rw [fOffs_cons] at ho2
        simp only [hblk] at ho2
        simp at ho2
        simp [ho2]
      · show (0 : Nat) = (List.filter (fun x => x.inUse) [blk]).length
        simp [hblk]
    · show noAdjFrom true [blk] = true
      simp
  refine ⟨sp, rfl, ?_, hwfsp, rfl, rfl, rfl, rfl, rfl, hgfit⟩
  obtain ⟨hall, hpw, hcnt, hpsok, hnonempty⟩ := hwf
  refine ⟨?_, ?_, ?_, ?_, ?_⟩
  · intro t ht
    rcases List.mem_cons.mp ht with rfl | ht
    · exact hwfsp
    · exact hall t ht
  · refine List.Pairwise.cons ?_ hpw
    intro t ht
    rcases hdisj t ht with hd | hd
    · exact Or.inl hd
    · exact Or.inr hd
  · show h.spanCount + 1 = (sp :: h.spans).length
    simp [hcnt]
  · exact hpsok
  · intro hne2 hzero
    rw [hzero] at hps
    have hps0 : psOk 0 = false := by decide
    rw [hps0] at hps
    exact Bool.noConfusion hps

theorem gross_size_lt (n : Nat) : gross_size n < U64 := by
  unfold gross_size add64
  exact Nat.mod_lt _ (by norm_num [U64])

theorem blksizerequest_lt (n : Nat) : blksizerequest n < U64 := by
  unfold blksizerequest usz_max
  have h1 := gross_size_lt n
  split
  · exact h1
  · norm_num [MIN_BLKSZ, U64]

/-- Inversion of a completed `blkalloc`: whatever offset and request it was
handed, if it returned at all (no assert fired) then the request fit a free
block there, and the result is as `blkalloc_spec` describes. -/
theorem blkalloc_inv {sp : Span} {o g : Nat} {sp' : Span} {ro : Nat}
    (hwf : spanWF sp) (hg64 : MIN_BLKSZ ≤ g) (hg16 : g % ALIGNMENT = 0)
    (hglt : g < U64) (hrun : blkalloc sp o g = some (sp', ro)) :
    spanWF sp' ∧ sp'.base = sp.base ∧ sp'.size = sp.size ∧
      sp'.blkcount = sp.blkcount + 1 ∧ ro % 16 = 0 ∧
      ∃ b', getBlk sp' ro = some b' ∧ b'.inUse = true ∧ MIN_BLKSZ ≤ b'.gross ∧
        ro + b'.gross ≤ sp.size := by
  rcases hget : getBlk sp o with _ | b
  · unfold blkalloc at hrun
    rw [hget] at hrun
    exact Option.noConfusion hrun
  obtain ⟨pre, post, hdec, hoff⟩ := getBlk_decomp hget
  have hfree : b.inUse = false := by
    by_contra hc
    rw [Bool.not_eq_false] at hc
    unfold blkalloc at hrun
    rw [hget] at hrun
    dsimp only at hrun
    rw [if_pos hc] at hrun
    exact Option.noConfusion hrun
  have hb64 : MIN_BLKSZ ≤ b.gross := by
    have := hwf.1.2.2.2.2.2.1 b (by rw [hdec]; exact List.mem_append_right _ (by simp))
    exact this.1
  have hgle : g ≤ b.gross := by
    by_contra hc
    push_neg at hc
    have hstep : ¬ sub64 b.gross g < MIN_BLKSZ := by
      unfold sub64
      have hgm : g % U64 = g := Nat.mod_eq_of_lt hglt
      rw [hgm]
      have hv : b.gross + (U64 - g) < U64 := by omega
      rw [Nat.mod_eq_of_lt hv]
      simp only [MIN_BLKSZ, U64] at *
      omega
    unfold blkalloc at hrun
    rw [hget] at hrun
    dsimp only at hrun
    rw [if_neg (by simp [hfree]), if_neg hstep] at hrun
    unfold blksplit at hrun
    rw [hget] at hrun
    dsimp only at hrun
    rw [if_pos (by omega)] at hrun
    exact Option.noConfusion hrun
  obtain ⟨sp2, ro2, b', heq, hWF, hbase, hsize, hcnt, hg2, hu2, hro2, hmin2, hub2⟩ :=
    blkalloc_spec hwf hdec hoff hfree hg64 hg16 hgle
  rw [heq] at hrun
  have hpair := Option.some.inj hrun
  have h1 : sp2 = sp' := congrArg Prod.fst hpair
  have h2 : ro2 = ro := congrArg Prod.snd hpair
  subst h1
  subst h2
  exact ⟨hWF, hbase, hsize, hcnt, hro2, b', hg2, hu2, hmin2, hub2⟩

theorem psOk_ne0 {p : Nat} (h : psOk p = true) : p ≠ 0 := by
  intro hz
  rw [hz] at h
  have h0 : psOk 0 = false := by decide
  rw [h0] at h
  exact Bool.noConfusion h

/-- The span and heap `spalloc` builds are well formed, given the `mmap`
contract, a minimum size and 16-alignment. -/
theorem freshSpan_wf {h1 : Heap} {bb sz : Nat}
    (hwf : heapWF h1) (hps : psOk h1.pagesize = true)
    (hmm : mmapOk h1.spans bb sz = true)
    (hmin : MIN_MMAPSZ ≤ sz) (hmod : sz % ALIGNMENT = 0) :
    spanWF { base := bb, size := sz, blkcount := 0, blocks := [{ gross := sz - SPAN_HDR_PADSZ, inUse := false, prevInUse := false, owner := bb, footer := sz - SPAN_HDR_PADSZ, magic := MAGIC_BABY }], freelist := [SPAN_HDR_PADSZ] } ∧
    heapWF { h1 with spans := { base := bb, size := sz, blkcount := 0, blocks := [{ gross := sz - SPAN_HDR_PADSZ, inUse := false, prevInUse := false, owner := bb, footer := sz - SPAN_HDR_PADSZ, magic := MAGIC_BABY }], freelist := [SPAN_HDR_PADSZ] } :: h1.spans, spanCount := h1.spanCount + 1 } := by
  obtain ⟨hne0, hbm, hpos, hbub, hdisj⟩ : bb ≠ 0 ∧ bb % ALIGNMENT = 0 ∧ 0 < sz ∧
      bb + sz ≤ U64 ∧
      ∀ sp ∈ h1.spans, bb + sz ≤ sp.base ∨ sp.base + sp.size ≤ bb := by
    unfold mmapOk at hmm
    simp only [Bool.and_eq_true, decide_eq_true_eq, List.all_eq_true, Bool.or_eq_true] at hmm
    exact ⟨hmm.1.1.1.1, hmm.1.1.1.2, hmm.1.1.2, hmm.1.2, fun sp hsp => by
      have := hmm.2 sp hsp
      simpa using this⟩
  set blk : Block := { gross := sz - SPAN_HDR_PADSZ, inUse := false, prevInUse := false, owner := bb, footer := sz - SPAN_HDR_PADSZ, magic := MAGIC_BABY } with hblk
  set sp : Span := { base := bb, size := sz, blkcount := 0, blocks := [blk], freelist := [SPAN_HDR_PADSZ] } with hsp
  have hwfsp : spanWF sp := by
    constructor
    · refine ⟨hne0, hbm, hbub, hmin, ?_, ?_, ?_, by simp, ?_, ?_, ?_⟩
      · show SPAN_HDR_PADSZ + sumGross [blk] = sz
        simp only [sumGross_cons, sumGross_nil, hblk]
        simp only [SPAN_HDR_PADSZ, MIN_MMAPSZ] at hmin ⊢
        omega
      · intro x hx
        simp only [List.mem_singleton] at hx
        subst hx
        refine ⟨?_, ?_, rfl, fun hf => rfl⟩
        · show MIN_BLKSZ ≤ blk.gross
          rw [hblk]
          show MIN_BLKSZ ≤ sz - SPAN_HDR_PADSZ
          simp only [MIN_BLKSZ, SPAN_HDR_PADSZ, MIN_MMAPSZ] at hmin ⊢
          omega
        · show blk.gross % ALIGNMENT = 0
          rw [hblk]
          show (sz - SPAN_HDR_PADSZ) % ALIGNMENT = 0
          simp only [ALIGNMENT, SPAN_HDR_PADSZ, MIN_MMAPSZ] at hmod hmin ⊢
          omega
      · show chainFlags false [blk] = true
        simp [hblk]
      · intro o ho
        simp only [List.mem_singleton] at ho
        subst ho
        show SPAN_HDR_PADSZ ∈ freeOffsets sp
        unfold freeOffsets
        show SPAN_HDR_PADSZ ∈ fOffs SPAN_HDR_PADSZ [blk]
        rw [fOffs_cons]
        simp [hblk]
      · intro o ho
        have ho2 : o ∈ fOffs SPAN_HDR_PADSZ [blk] := ho
        rw [fOffs_cons] at ho2
        simp only [hblk] at ho2
        simp at ho2
        simp [ho2]
      · show (0 : Nat) = (List.filter (fun x => x.inUse) [blk]).length
        simp [hblk]
    · show noAdjFrom true [blk] = true
      simp
  refine ⟨hwfsp, ?_⟩
  obtain ⟨hall, hpw, hcnt, hpsok, hnonempty⟩ := hwf
  refine ⟨?_, ?_, ?_, hpsok, ?_⟩
  · intro t ht
    rcases List.mem_cons.mp ht with rfl | ht
    · exact hwfsp
    · exact hall t ht
  · refine List.Pairwise.cons ?_ hpw
    intro t ht
    rcases hdisj t ht with hd | hd
    · exact Or.inl hd
    · exact Or.inr hd
  · show h1.spanCount + 1 = (sp :: h1.spans).length
    simp [hcnt]
  · intro hne2 hzero
    exact psOk_ne0 hps hzero

/-- Inversion of a completed `spalloc` with a successful `mmap` answer: the
guards must have passed, the size computation did not wrap (a wrapped size
masks to zero and fails the guards), and the pushed span is exactly the
fresh one-free-block span, fully well formed. -/
theorem spalloc_inv {h1 : Heap} {bb g : Nat} {h2 : Heap} {sb : Nat}
    (hwf : heapWF h1) (hps : psOk h1.pagesize = true)
    (hrun : spalloc h1 (some bb) g = some (h2, some sb)) :
    sb = bb ∧ ∃ sp,
      h2 = { h1 with spans := sp :: h1.spans, spanCount := h1.spanCount + 1 } ∧
      heapWF h2 ∧ spanWF sp ∧ sp.base = bb ∧
      sp.size = spanSizeFor h1.pagesize g ∧ MIN_MMAPSZ ≤ sp.size ∧
      sp.blkcount = 0 ∧ sp.freelist = [SPAN_HDR_PADSZ] ∧
      sp.blocks = [{ gross := sp.size - SPAN_HDR_PADSZ, inUse := false, prevInUse := false, owner := bb, footer := sp.size - SPAN_HDR_PADSZ, magic := MAGIC_BABY }] := by
  unfold spalloc at hrun
  dsimp only at hrun
  by_cases hmm : mmapOk h1.spans bb (spanSizeFor h1.pagesize g) = true
  case neg =>
    rw [if_pos hmm] at hrun
    exact Option.noConfusion hrun
  rw [if_neg (not_not_intro hmm)] at hrun
  -- normal form of the computed span size
  obtain ⟨k, hk4, hk32, hpse⟩ := psOk_spec hps
  set v := usz_max (add64 g SPAN_HDR_PADSZ) MIN_MMAPSZ with hv
  have hvlt : v < U64 := by
    rw [hv]
    unfold usz_max
    have h1lt : add64 g SPAN_HDR_PADSZ < U64 := Nat.mod_lt _ (by norm_num [U64])
    split
    · exact h1lt
    · norm_num [MIN_MMAPSZ, U64]
  have hvge : MIN_MMAPSZ ≤ v := by
    rw [hv]
    unfold usz_max
    split <;> omega
  set x := (v + h1.pagesize - 1) % U64 with hx
  have hxlt : x < 2 ^ 64 := by
    rw [hx]
    exact Nat.mod_lt _ (by norm_num [U64])
  have hsz : spanSizeFor h1.pagesize g = x - x % 2 ^ k := by
    unfold spanSizeFor ALIGN_UP
    rw [show usz_max (add64 g SPAN_HDR_PADSZ) MIN_MMAPSZ = v from rfl]
    rw [show (v + h1.pagesize - 1) % U64 = x from rfl]
    rw [hpse, show U64 - 2 ^ k = 2 ^ 64 - 2 ^ k by norm_num [U64]]
    exact land_mask k 64 x (by omega) hxlt
  have hpos : 0 < spanSizeFor h1.pagesize g := by
    unfold mmapOk at hmm
    simp only [Bool.and_eq_true, decide_eq_true_eq] at hmm
    exact hmm.1.1.2
  have hkpos : 0 < 2 ^ k := Nat.pos_pow_of_pos k (by norm_num)
  have hnowrap : v + h1.pagesize - 1 < U64 := by
    by_contra hc
    push_neg at hc
    have hxeq : x = v + h1.pagesize - 1 - U64 := by
      rw [hx]
      have hlt2 : v + h1.pagesize - 1 < 2 * U64 := by
        have : h1.pagesize = 2 ^ k := hpse
        have h2k : (2:Nat) ^ k ≤ 2 ^ 32 := Nat.pow_le_pow_right (by norm_num) hk32
        simp only [U64] at *
        omega
      simp only [U64] at hc hlt2 ⊢
      omega
    have hxsmall : x < 2 ^ k := by
      rw [hxeq, hpse] at *
      have : v < U64 := hvlt
      simp only [U64] at *
      omega
    have : x % 2 ^ k = x := Nat.mod_eq_of_lt hxsmall
    rw [hsz, this] at hpos
    omega
  have hxeq : x = v + h1.pagesize - 1 := by
    rw [hx]
    exact Nat.mod_eq_of_lt hnowrap
  have hpsle : h1.pagesize ≤ 2 ^ 32 := by
    rw [hpse]
    exact Nat.pow_le_pow_right (by norm_num) hk32
  have hpspos : 0 < h1.pagesize := by
    rw [hpse]
    exact hkpos
  have hmin : MIN_MMAPSZ ≤ spanSizeFor h1.pagesize g := by
    rw [hsz, hxeq]
    have hmlt : x % 2 ^ k < 2 ^ k := Nat.mod_lt _ hkpos
    rw [hxeq] at hmlt
    rw [← hpse] at hmlt ⊢
    simp only [MIN_MMAPSZ] at hvge ⊢
    omega
  have hmod : spanSizeFor h1.pagesize g % ALIGNMENT = 0 := by
    have hdm := Nat.div_add_mod x (2 ^ k)
    have hdiv : spanSizeFor h1.pagesize g = 2 ^ k * (x / 2 ^ k) := by
      rw [hsz]
      omega
    have h16d : (16 : Nat) ∣ 2 ^ k := by
      have h4 : (2:Nat) ^ 4 ∣ 2 ^ k := Nat.pow_dvd_pow 2 hk4
      norm_num at h4
      exact h4
    obtain ⟨d, hd⟩ := h16d
    rw [hdiv, hd, Nat.mul_assoc]
    simp only [ALIGNMENT]
    exact Nat.mul_mod_right 16 _
  -- the sub64 and blkinit guard
  have hszlt : spanSizeFor h1.pagesize g < U64 := by
    rw [hsz]
    simp only [U64] at hxlt ⊢
    omega
  have hsub : sub64 (spanSizeFor h1.pagesize g) SPAN_HDR_PADSZ
      = spanSizeFor h1.pagesize g - SPAN_HDR_PADSZ := by
    refine sub64_eq ?_ hszlt
    simp only [SPAN_HDR_PADSZ, MIN_MMAPSZ] at hmin ⊢
    omega
  rw [hsub] at hrun
  by_cases hbi : blkinitOk { base := bb, size := spanSizeFor h1.pagesize g, blkcount := 0, blocks := [], freelist := [] } SPAN_HDR_PADSZ (spanSizeFor h1.pagesize g - SPAN_HDR_PADSZ) = true
  case neg =>
    rw [if_pos hbi] at hrun
    exact Option.noConfusion hrun
  rw [if_neg (not_not_intro hbi)] at hrun
  have hpair := Option.some.inj hrun
  have hh2 := congrArg Prod.fst hpair
  have hsb := congrArg Prod.snd hpair
  dsimp only at hh2 hsb
  have hsbeq : sb = bb := (Option.some.inj hsb).symm
  obtain ⟨hwf2sp, hwf2⟩ := freshSpan_wf hwf hps hmm hmin hmod
  refine ⟨hsbeq, { base := bb, size := spanSizeFor h1.pagesize g, blkcount := 0, blocks := [{ gross := spanSizeFor h1.pagesize g - SPAN_HDR_PADSZ, inUse := false, prevInUse := false, owner := bb, footer := spanSizeFor h1.pagesize g - SPAN_HDR_PADSZ, magic := MAGIC_BABY }], freelist := [SPAN_HDR_PADSZ] }, ?_, ?_, hwf2sp, rfl, rfl, hmin, rfl, rfl, rfl⟩
  · rw [← hh2]
  · rw [← hh2]
    exact hwf2

theorem payload_ok {sp' : Span} {ro : Nat} {b' : Block} (hWF : spanWF sp')
    (hro16 : ro % 16 = 0) (hub : ro + b'.gross ≤ sp'.size) (hmin' : MIN_BLKSZ ≤ b'.gross) :
    payloadAddr sp' ro % 16 = 0 ∧ payloadAddr sp' ro ≠ 0 := by
  have hb16 : sp'.base % ALIGNMENT = 0 := hWF.1.2.1
  have hbub : sp'.base + sp'.size ≤ U64 := hWF.1.2.2.1
  have hne0 : sp'.base ≠ 0 := hWF.1.1
  simp only [ALIGNMENT] at hb16
  have hlt : sp'.base + ro + BLOCK_HDR_PADSZ < U64 := by
    simp only [BLOCK_HDR_PADSZ, MIN_BLKSZ, U64] at *
    omega
  have hval : payloadAddr sp' ro = sp'.base + ro + BLOCK_HDR_PADSZ := by
    unfold payloadAddr add64
    have h1 : sp'.base + ro < U64 := by
      simp only [BLOCK_HDR_PADSZ, U64] at hlt ⊢
      omega
    rw [Nat.mod_eq_of_lt h1, Nat.mod_eq_of_lt hlt]
  constructor
  · rw [hval]
    simp only [BLOCK_HDR_PADSZ]
    omega
  · rw [hval]
    intro hz
    simp only [BLOCK_HDR_PADSZ] at hz
    omega

/-- Inversion of a completed `m_malloc`: the result heap is well formed, a
returned pointer is 16-aligned and non-null, and a null return leaves the
heap unchanged except possibly for the one-time page-size initialization. -/
theorem m_malloc_run {ps n : Nat} {os : Option Nat} {h : Heap} {r : Option Nat} {h' : Heap}
    (hwf : heapWF h) (hrun : m_malloc ps os n h = some (r, h')) :
    heapWF h' ∧ (∀ p, r = some p → p % 16 = 0 ∧ p ≠ 0) ∧
      (r = none → h' = h ∨ (h.pagesize = 0 ∧ h' = { h with pagesize := ps })) := by
  unfold m_malloc at hrun
  by_cases hn0 : n = 0
  · rw [if_pos hn0] at hrun
    have hpair := Option.some.inj hrun
    have hr : r = none := (congrArg Prod.fst hpair).symm
    have hh : h' = h := (congrArg Prod.snd hpair).symm
    subst hr
    subst hh
    exact ⟨hwf, fun p hp => Option.noConfusion hp, fun _ => Or.inl rfl⟩
  rw [if_neg hn0] at hrun
  rcases hIf : (if h.pagesize = 0 then (if psOk ps then some { h with pagesize := ps } else none) else some h) with _ | h1
  · rw [hIf] at hrun
    exact Option.noConfusion hrun
  rw [hIf] at hrun
  dsimp only at hrun
  have hprops : heapWF h1 ∧ psOk h1.pagesize = true ∧
      (h1 = h ∨ (h.pagesize = 0 ∧ h1 = { h with pagesize := ps })) := by
    by_cases hps0 : h.pagesize = 0
    · rw [if_pos hps0] at hIf
      by_cases hpsb : psOk ps = true
      · rw [if_pos hpsb] at hIf
        have he := Option.some.inj hIf
        subst he
        obtain ⟨hall, hpw, hcnt, hpsok, hne⟩ := hwf
        exact ⟨⟨hall, hpw, hcnt, Or.inr hpsb, fun _ => psOk_ne0 hpsb⟩, hpsb,
          Or.inr ⟨hps0, rfl⟩⟩
      · rw [if_neg hpsb] at hIf
        exact Option.noConfusion hIf
    · rw [if_neg hps0] at hIf
      have he := Option.some.inj hIf
      subst he
      refine ⟨hwf, ?_, Or.inl rfl⟩
      rcases hwf.2.2.2.1 with hz | hok
      · exact absurd hz hps0
      · exact hok
  obtain ⟨hwf1, hps1, hinit1⟩ := hprops
  rw [if_neg (by have := blksizerequest_min n; omega)] at hrun
  rcases hbf : blkfind h1.spans (blksizerequest n) with _ | found
  · rw [hbf] at hrun
    exact Option.noConfusion hrun
  rw [hbf] at hrun
  dsimp only at hrun
  rcases found with _ | x
  · -- no fit anywhere: the spalloc path
    rcases hos : os with _ | bb
    · subst hos
      have hspn : spalloc h1 none (blksizerequest n) = some (h1, none) := rfl
      rw [hspn] at hrun
      dsimp only at hrun
      have hpair := Option.some.inj hrun
      have hr : r = none := (congrArg Prod.fst hpair).symm
      have hh : h' = h1 := (congrArg Prod.snd hpair).symm
      subst hr
      subst hh
      refine ⟨hwf1, fun p hp => Option.noConfusion hp, fun _ => ?_⟩
      rcases hinit1 with he | ⟨hz, he⟩
      · exact Or.inl he
      · exact Or.inr ⟨hz, he⟩
    · subst hos
      rcases hsa : spalloc h1 (some bb) (blksizerequest n) with _ | z
      · rw [hsa] at hrun
        exact Option.noConfusion hrun
      rcases z with ⟨h2, sbo⟩
      rcases sbo with _ | sb
      · exfalso
        unfold spalloc at hsa
        dsimp only at hsa
        by_cases hmm2 : mmapOk h1.spans bb (spanSizeFor h1.pagesize (blksizerequest n)) = true
        · rw [if_neg (not_not_intro hmm2)] at hsa
          by_cases hbi2 : blkinitOk { base := bb, size := spanSizeFor h1.pagesize (blksizerequest n), blkcount := 0, blocks := [], freelist := [] } SPAN_HDR_PADSZ (sub64 (spanSizeFor h1.pagesize (blksizerequest n)) SPAN_HDR_PADSZ) = true
          · rw [if_neg (not_not_intro hbi2)] at hsa
            have := congrArg Prod.snd (Option.some.inj hsa)
            exact Option.noConfusion this
          · rw [if_pos hbi2] at hsa
            exact Option.noConfusion hsa
        · rw [if_pos hmm2] at hsa
          exact Option.noConfusion hsa
      · rw [hsa] at hrun
        dsimp only at hrun
        obtain ⟨hsbeq, sp, hh2, hwf2, hwfsp, hbase, hsize, hminsz, hcnt0, hfl, hblocks⟩ :=
          spalloc_inv hwf1 hps1 hsa
        subst hsbeq
        have hfind : h2.spans.find? (fun s => decide (s.base = sb)) = some sp := by
          rw [hh2]
          show List.find? _ (sp :: h1.spans) = some sp
          rw [List.find?_cons_of_pos]
          simp [hbase]
        rw [hfind] at hrun
        dsimp only at hrun
        rw [hfl] at hrun
        simp only [List.head?_cons] at hrun
        rcases hba : blkalloc sp SPAN_HDR_PADSZ (blksizerequest n) with _ | y
        · rw [hba] at hrun
          exact Option.noConfusion hrun
        rcases y with ⟨sp', ro⟩
        rw [hba] at hrun
        dsimp only at hrun
        have hpair := Option.some.inj hrun
        have hr : r = some (payloadAddr sp' ro) := (congrArg Prod.fst hpair).symm
        have hh : h' = updSpan h2 sp' := (congrArg Prod.snd hpair).symm
        subst hr
        subst hh
        obtain ⟨hWF', hbase', hsize', hcnt', hro16, b', hgb', hu', hmin', hub'⟩ :=
          blkalloc_inv hwfsp (blksizerequest_min n) (blksizerequest_mod16 n)
            (blksizerequest_lt n) hba
        have hmem2 : sp ∈ h2.spans := by
          rw [hh2]
          exact List.mem_cons_self _ _
        have hub2 : ro + b'.gross ≤ sp'.size := by
          rw [hsize']
          exact hub'
        refine ⟨updSpan_wf hwf2 hmem2 hWF' hbase' hsize', ?_, ?_⟩
        · intro p hp
          have hpeq : payloadAddr sp' ro = p := Option.some.inj hp
          rw [← hpeq]
          exact payload_ok hWF' hro16 hub2 hmin'
        · intro hre
          exact Option.noConfusion hre
  · -- a free block fit
    rcases x with ⟨sp, o⟩
    dsimp only at hrun
    rcases hba : blkalloc sp o (blksizerequest n) with _ | y
    · rw [hba] at hrun
      exact Option.noConfusion hrun
    rcases y with ⟨sp', ro⟩
    rw [hba] at hrun
    dsimp only at hrun
    have hpair := Option.some.inj hrun
    have hr : r = some (payloadAddr sp' ro) := (congrArg Prod.fst hpair).symm
    have hh : h' = updSpan h1 sp' := (congrArg Prod.snd hpair).symm
    subst hr
    subst hh
    obtain ⟨hmem, hflmem, b, hget, hfit⟩ := blkfind_inv hbf
    have hwfsp : spanWF sp := hwf1.1 sp hmem
    obtain ⟨hWF', hbase', hsize', hcnt', hro16, b', hgb', hu', hmin', hub'⟩ :=
      blkalloc_inv hwfsp (blksizerequest_min n) (blksizerequest_mod16 n)
        (blksizerequest_lt n) hba
    have hub2 : ro + b'.gross ≤ sp'.size := by
      rw [hsize']
      exact hub'
    refine ⟨updSpan_wf hwf1 hmem hWF' hbase' hsize', ?_, ?_⟩
    · intro p hp
      have hpeq : payloadAddr sp' ro = p := Option.some.inj hp
      rw [← hpeq]
      exact payload_ok hWF' hro16 hub2 hmin'
    · intro hre
      exact Option.noConfusion hre

/-- Calling `m_malloc` on an uninitialized heap first caches the page size;
afterwards the run coincides with a run on the initialized heap. -/
theorem m_malloc_init {ps n : Nat} {os : Option Nat} {h : Heap}
    (hps0 : h.pagesize = 0) (hps : psOk ps = true) (hn0 : n ≠ 0) :
    m_malloc ps os n h = m_malloc ps os n { h with pagesize := ps } := by
  unfold m_malloc
  rw [if_neg hn0, if_neg hn0]
  rw [if_pos hps0, if_pos hps]
  rw [if_neg (show ¬ ({ h with pagesize := ps } : Heap).pagesize = 0 from psOk_ne0 hps)]

/-- Progress and the null-return characterization of `m_malloc` on a heap
whose page size is already set, for requests up to `2 ^ 63` bytes and a
valid `mmap` oracle: the run completes, and it returns NULL exactly when
the request is zero or no free block fits and `mmap` fails. -/
theorem m_malloc_progress_set {ps n : Nat} {os : Option Nat} {h : Heap}
    (hwf : heapWF h) (hn : n ≤ 2 ^ 63) (hset : psOk h.pagesize = true)
    (hos : ∀ bb, os = some bb →
      mmapOk h.spans bb (spanSizeFor h.pagesize (blksizerequest n)) = true) :
    ∃ r h', m_malloc ps os n h = some (r, h') ∧
      (r = none ↔ n = 0 ∨ (blkfind h.spans (blksizerequest n) = some none ∧ os = none)) := by
  by_cases hn0 : n = 0
  · refine ⟨none, h, ?_, by simp [hn0]⟩
    unfold m_malloc
    rw [if_pos hn0]
  have hg64 := blksizerequest_min n
  have hg16 := blksizerequest_mod16 n
  obtain ⟨_, _, hgub⟩ := blksizerequest_spec hn
  unfold m_malloc
  rw [if_neg hn0]
  rw [if_neg (psOk_ne0 hset)]
  dsimp only
  rw [if_neg (by have := blksizerequest_min n; omega)]
  obtain ⟨found, hbf⟩ := blkfind_total (g := blksizerequest n) hwf.1
  rw [hbf]
  dsimp only
  rcases found with _ | x
  · rcases hos2 : os with _ | bb
    · subst hos2
      have hspn : spalloc h none (blksizerequest n) = some (h, none) := rfl
      rw [hspn]
      exact ⟨none, h, rfl, by simp [hbf]⟩
    · subst hos2
      obtain ⟨sp, heq, hwf2, hwfsp, hbase, hsize, hcnt0, hfl, hblocks, hgfit⟩ :=
        spalloc_spec hwf hset hgub (hos bb rfl)
      rw [heq]
      dsimp only
      have hfind : List.find? (fun s => decide (s.base = bb)) (sp :: h.spans) = some sp := by
        rw [List.find?_cons_of_pos]
        simp [hbase]
      rw [hfind]
      dsimp only
      rw [hfl]
      simp only [List.head?_cons]
      have hfree : ({ gross := spanSizeFor h.pagesize (blksizerequest n) - SPAN_HDR_PADSZ, inUse := false, prevInUse := false, owner := bb, footer := spanSizeFor h.pagesize (blksizerequest n) - SPAN_HDR_PADSZ, magic := MAGIC_BABY } : Block).inUse = false := rfl
      obtain ⟨sp', ro, b', hba, hWF', hbase', hsize', hcnt', hget', hu', hro16, hmin', hub'⟩ :=
        @blkalloc_spec _ [] [] _ SPAN_HDR_PADSZ _ hwfsp hblocks (by simp)
          hfree hg64 hg16 (by simpa using hgfit)
      rw [hba]
      dsimp only
      refine ⟨some (payloadAddr sp' ro), _, rfl, ?_⟩
      simp [hn0]
  · rcases x with ⟨sp, o⟩
    dsimp only
    obtain ⟨hmem, pre, b, post, hdec, hoff, hfree, hfit⟩ := blkfind_found hwf.1 hbf
    have hwfsp : spanWF sp := hwf.1 sp hmem
    obtain ⟨sp', ro, b', hba, hWF', hbase', hsize', hcnt', hget', hu', hro16, hmin', hub'⟩ :=
      blkalloc_spec hwfsp hdec hoff hfree hg64 hg16 hfit
    rw [hba]
    dsimp only
    refine ⟨some (payloadAddr sp' ro), _, rfl, ?_⟩
    simp [hn0, hbf]

/-- Progress and the null-return characterization of `m_malloc` from any
well-formed heap, initialized or not. -/
theorem m_malloc_progress {ps n : Nat} {os : Option Nat} {h : Heap}
    (hwf : heapWF h) (hn : n ≤ 2 ^ 63) (hps : psOk ps = true)
    (hos : ∀ bb, os = some bb →
      mmapOk h.spans bb
        (spanSizeFor (if h.pagesize = 0 then ps else h.pagesize) (blksizerequest n)) = true) :
    ∃ r h', m_malloc ps os n h = some (r, h') ∧
      (r = none ↔ n = 0 ∨ (blkfind h.spans (blksizerequest n) = some none ∧ os = none)) := by
  by_cases hn0 : n = 0
  · refine ⟨none, h, ?_, by simp [hn0]⟩
    unfold m_malloc
    rw [if_pos hn0]
  by_cases hps0 : h.pagesize = 0
  · rw [m_malloc_init hps0 hps hn0]
    have hwf1 : heapWF { h with pagesize := ps } := by
      obtain ⟨hall, hpw, hcnt, hpsok, hne⟩ := hwf
      exact ⟨hall, hpw, hcnt, Or.inr hps, fun _ => psOk_ne0 hps⟩
    have hos1 : ∀ bb, os = some bb →
        mmapOk ({ h with pagesize := ps } : Heap).spans bb
          (spanSizeFor ({ h with pagesize := ps } : Heap).pagesize (blksizerequest n)) = true := by
      intro bb hbb
      have := hos bb hbb
      rw [if_pos hps0] at this
      exact this
    exact m_malloc_progress_set hwf1 hn hps hos1
  · have hset : psOk h.pagesize = true := by
      rcases hwf.2.2.2.1 with hz | hok
      · exact absurd hz hps0
      · exact hok
    refine m_malloc_progress_set hwf hn hset ?_
    intro bb hbb
    have := hos bb hbb
    rw [if_neg hps0] at this
    exact this

/-- Inversion/characterization of a completed `realloc_truncate` on an
in-use block: it returns the original payload pointer, the heap stays well
formed, nothing changes when the cut-off would be below the minimum block
size, and otherwise the block is resized in place to the requested gross
size with the remainder carved off as a free block (coalesced eagerly). -/
theorem realloc_truncate_run {sp : Span} {o size : Nat} {h : Heap} {r : Option Nat} {h' : Heap}
    {pre post : List Block} {b : Block}
    (hwf : heapWF h) (hmem : sp ∈ h.spans)
    (hb : sp.blocks = pre ++ b :: post) (ho : o = SPAN_HDR_PADSZ + sumGross pre)
    (hused : b.inUse = true)
    (hrun : realloc_truncate sp o size h = some (r, h')) :
    heapWF h' ∧ r = some (payloadAddr sp o) ∧ blksizerequest size ≤ b.gross ∧
      (b.gross - blksizerequest size < MIN_BLKSZ → h' = h) ∧
      (MIN_BLKSZ ≤ b.gross - blksizerequest size →
        ∃ sp3, h' = updSpan h sp3 ∧ sp3.base = sp.base ∧ sp3.size = sp.size ∧
          sp3.blkcount = sp.blkcount ∧
          getBlk sp3 o = some { b with gross := blksizerequest size, footer := 0 }) := by
  have hwfsp : spanWF sp := hwf.1 sp hmem
  obtain ⟨h0, hnadj⟩ := hwfsp
  obtain ⟨hne, hbm, hbu, hmin, hsum, hblk, hchain, hnd, hsub, hsup, hcnt⟩ := h0
  have h0' : spanWF0 sp :=
    ⟨hne, hbm, hbu, hmin, hsum, hblk, hchain, hnd, hsub, hsup, hcnt⟩
  have hwfsp' : spanWF sp := ⟨h0', hnadj⟩
  have hB := spanWF0_basics h0'
  have hbmem : b ∈ sp.blocks := by rw [hb]; exact List.mem_append_right _ (by simp)
  have hbOk := hblk b hbmem
  have hprepos : ∀ x ∈ pre, 0 < x.gross :=
    fun x hx => basics_pos hB x (by rw [hb]; exact List.mem_append_left _ hx)
  have hub := decomp_off_ubB hB hb
  have homod := decomp_off_modB hB hb
  set g := blksizerequest size with hg
  have hg64 : MIN_BLKSZ ≤ g := blksizerequest_min size
  have hg16 : g % ALIGNMENT = 0 := blksizerequest_mod16 size
  unfold realloc_truncate at hrun
  rw [getBlk_of_decompB hB hb ho] at hrun
  dsimp only at hrun
  rw [if_neg (not_not_intro hused)] at hrun
  by_cases hfit : MIN_BLKSZ ≤ g ∧ g ≤ b.gross
  case neg =>
    rw [if_pos hfit] at hrun
    exact Option.noConfusion hrun
  rw [if_neg (not_not_intro hfit)] at hrun
  by_cases hnoop : b.gross - g < MIN_BLKSZ ∨ g < MIN_BLKSZ
  · rw [if_pos hnoop] at hrun
    have hpair := Option.some.inj hrun
    have hr : r = some (payloadAddr sp o) := (congrArg Prod.fst hpair).symm
    have hh : h' = h := (congrArg Prod.snd hpair).symm
    subst hr
    subst hh
    refine ⟨hwf, rfl, hfit.2, fun _ => rfl, fun hcut => ?_⟩
    rcases hnoop with hn1 | hn1 <;> omega
  · rw [if_neg hnoop] at hrun
    have hcut : MIN_BLKSZ ≤ b.gross - g := by
      rcases Nat.lt_or_ge (b.gross - g) MIN_BLKSZ with hlt | hge
      · exact absurd (Or.inl hlt) hnoop
      · exact hge
    have halign : (sp.base + (o + g)) % ALIGNMENT = 0 := by
      have h3 := hbOk.2.1
      simp only [ALIGNMENT] at hbm h3 hg16 ⊢
      rw [ho]
      omega
    rw [if_neg (not_not_intro halign)] at hrun
    have hbinit : blkinitOk sp (o + g) (b.gross - g) = true := by
      refine blkinitOk_true hbm ?_ ?_
      · have h3 := hbOk.2.1
        simp only [ALIGNMENT] at hg16 ⊢
        rw [ho]
        omega
      · show o + g + (b.gross - g) ≤ sp.size
        omega
    rw [if_neg (not_not_intro hbinit)] at hrun
    have hrep : replaceAt sp.blocks SPAN_HDR_PADSZ o
        [{ b with gross := g, footer := 0 },
          { gross := b.gross - g, inUse := false, prevInUse := true, owner := sp.base, footer := b.gross - g, magic := MAGIC_BABY }] =
        some (pre ++ [{ b with gross := g, footer := 0 },
          { gross := b.gross - g, inUse := false, prevInUse := true, owner := sp.base, footer := b.gross - g, magic := MAGIC_BABY }] ++ post) := by
      rw [hb, ho]
      exact replaceAt_of_decomp hprepos
    rw [hrep] at hrun
    dsimp only at hrun
    set b1 : Block := { b with gross := g, footer := 0 } with hb1
    set nb : Block := { gross := b.gross - g, inUse := false, prevInUse := true, owner := sp.base, footer := b.gross - g, magic := MAGIC_BABY } with hnb
    have hb1g : b1.gross = g := rfl
    have hb1u : b1.inUse = b.inUse := rfl
    have hb1p : b1.prevInUse = b.prevInUse := rfl
    have hnbg : nb.gross = b.gross - g := rfl
    have hnbu : nb.inUse = false := rfl
    have hnbp : nb.prevInUse = true := rfl
    have hglt : g < b.gross := by
      have hc2 := hcut
      simp only [MIN_BLKSZ] at hc2
      omega
    have hb1pos : 0 < b1.gross := by
      rw [hb1g]
      simp only [MIN_BLKSZ] at hg64
      omega
    have hb1Ok : blockOk sp.base b1 := by
      refine ⟨?_, ?_, ?_, ?_⟩
      · rw [hb1g]
        exact hg64
      · rw [hb1g]
        exact hg16
      · show b1.owner = sp.base
        rw [hb1]
        exact hbOk.2.2.1
      · intro hf
        rw [hb1u, hused] at hf
        exact Bool.noConfusion hf
    have hnbOk : blockOk sp.base nb := by
      refine ⟨?_, ?_, rfl, fun hf => rfl⟩
      · rw [hnbg]
        exact hcut
      · rw [hnbg]
        have h3 := hbOk.2.1
        simp only [ALIGNMENT] at h3 hg16 ⊢
        omega
    have hoff1 : o + g = SPAN_HDR_PADSZ + sumGross (pre ++ [b1]) := by
      simp only [sumGross_append, sumGross_cons, sumGross_nil, hb1g]
      omega
    have hpos2 : ∀ x ∈ pre ++ [b1], 0 < x.gross := by
      intro x hx
      rcases List.mem_append.mp hx with hx | hx
      · exact hprepos x hx
      · simp only [List.mem_singleton] at hx
        subst hx
        exact hb1pos
    -- the prefix boundary facts
    have hnadjpre : noAdjFrom true pre = true := by
      rw [hb, noAdjFrom_append] at hnadj
      exact (Bool.and_eq_true _ _ |>.mp hnadj).1
    have hnpost : noAdjFrom true post = true := by
      rw [hb, noAdjFrom_append] at hnadj
      have h2 := (Bool.and_eq_true _ _ |>.mp hnadj).2
      simp only [noAdjFrom_cons, Bool.and_eq_true, hused] at h2
      exact h2.2
    have hchain2 : b.prevInUse = endUse false pre ∧ chainFlags b.inUse post = true := by
      rw [hb, chainFlags_append] at hchain
      simp only [chainFlags_cons, Bool.and_eq_true, beq_iff_eq] at hchain
      exact ⟨hchain.2.1, hchain.2.2⟩
    have hB3 : spanBasics { sp with
        blocks := pre ++ [b1, nb] ++ post,
        freelist := (o + g) :: sp.freelist } := by
      refine ⟨hne, hbm, hbu, ?_, ?_⟩
      · show SPAN_HDR_PADSZ + sumGross (pre ++ [b1, nb] ++ post) = sp.size
        rw [hb] at hsum
        simp only [sumGross_append, sumGross_cons, sumGross_nil, hb1g, hnbg] at hsum ⊢
        omega
      · intro x hx
        simp only [List.mem_append, List.mem_cons, List.not_mem_nil, or_false] at hx
        rcases hx with (hx | hx | hx) | hx
        · have := hblk x (by rw [hb]; exact List.mem_append_left _ hx)
          exact ⟨this.1, this.2.1⟩
        · subst hx
          exact ⟨hb1Ok.1, hb1Ok.2.1⟩
        · subst hx
          exact ⟨hnbOk.1, hnbOk.2.1⟩
        · have := hblk x (by rw [hb]; exact List.mem_append_right _ (by simp [hx]))
          exact ⟨this.1, this.2.1⟩
    -- the new free offset is strictly inside the old block
    have hfresh : o + g ∉ sp.freelist := by
      intro hmem2
      have hfo := hsub _ hmem2
      unfold freeOffsets at hfo
      rw [hb] at hfo
      rw [fOffs_append, fOffs_cons] at hfo
      simp only [hused] at hfo
      simp only [List.mem_append, if_neg (by simp : ¬ (true = false)), List.not_mem_nil,
        or_false, false_or] at hfo
      rcases hfo with hfo | hfo
      · have hbd := mem_fOffs_bounds hprepos hfo
        omega
      · have hpostpos : ∀ x ∈ post, 0 < x.gross := by
          intro x hx
          exact basics_pos hB x (by rw [hb]; exact List.mem_append_right _ (by simp [hx]))
        have hbd := mem_fOffs_bounds hpostpos hfo
        omega
    cases hp : post with
    | nil =>
      subst hp
      rw [@blknextadj_lastB _ (pre ++ [b1]) _ _ hB3 (by show _ = (pre ++ [b1]) ++ [nb]; simp) hoff1] at hrun
      dsimp only at hrun
      have hpair := Option.some.inj hrun
      have hr : r = some (payloadAddr sp o) := (congrArg Prod.fst hpair).symm
      have hh : h' = updSpan h { sp with blocks := pre ++ [b1, nb] ++ [], freelist := (o + g) :: sp.freelist } := (congrArg Prod.snd hpair).symm
      subst hr
      subst hh
      have hfo : fOffs SPAN_HDR_PADSZ (pre ++ [b1, nb] ++ ([] : List Block))
          = fOffs SPAN_HDR_PADSZ pre ++ [o + g] := by
        rw [show (pre ++ [b1, nb]) ++ ([] : List Block) = pre ++ b1 :: nb :: [] by simp]
        rw [fOffs_append, fOffs_cons, fOffs_cons, fOffs_nil]
        simp only [hb1u, hused, hnbu, hb1g]
        rw [ho]
        simp
      have hfoOld : freeOffsets sp = fOffs SPAN_HDR_PADSZ pre := by
        unfold freeOffsets
        rw [hb]
        rw [fOffs_append, fOffs_cons, fOffs_nil]
        simp [hused]
      have hwfsp1 : spanWF { sp with blocks := pre ++ [b1, nb] ++ [], freelist := (o + g) :: sp.freelist } := by
        constructor
        · refine ⟨hne, hbm, hbu, hmin, hB3.2.2.2.1, ?_, ?_, ?_, ?_, ?_, ?_⟩
          · intro x hx
            simp only [List.mem_append, List.mem_cons, List.not_mem_nil, or_false] at hx
            rcases hx with hx | hx | hx
            · exact hblk x (by rw [hb]; exact List.mem_append_left _ hx)
            · subst hx
              exact hb1Ok
            · subst hx
              exact hnbOk
          · show chainFlags false (pre ++ [b1, nb] ++ []) = true
            rw [List.append_nil, chainFlags_append]
            rw [hb, chainFlags_append] at hchain
            simp only [chainFlags_cons, chainFlags_nil, Bool.and_eq_true, beq_iff_eq,
              hb1p, hb1u, hnbp, hnbu, hused] at hchain ⊢
            exact ⟨hchain.1, hchain.2.1, trivial, trivial⟩
          · show ((o + g) :: sp.freelist).Nodup
            exact List.nodup_cons.mpr ⟨hfresh, hnd⟩
          · intro oo hoo
            show oo ∈ fOffs SPAN_HDR_PADSZ (pre ++ [b1, nb] ++ ([] : List Block))
            rw [hfo]
            rcases List.mem_cons.mp hoo with rfl | hoo
            · simp
            · have := hsub oo hoo
              rw [hfoOld] at this
              exact List.mem_append_left _ this
          · intro oo hoo
            have hoo2 : oo ∈ fOffs SPAN_HDR_PADSZ (pre ++ [b1, nb] ++ ([] : List Block)) := hoo
            rw [hfo] at hoo2
            show oo ∈ (o + g) :: sp.freelist
            rcases List.mem_append.mp hoo2 with hoo2 | hoo2
            · exact List.mem_cons_of_mem _ (hsup oo (by rw [hfoOld]; exact hoo2))
            · simp only [List.mem_singleton] at hoo2
              subst hoo2
              exact List.mem_cons_self _ _
          · show sp.blkcount = ((pre ++ [b1, nb] ++ []).filter (fun x : Block => x.inUse)).length
            rw [hb] at hcnt
            simp only [List.append_nil, List.filter_append, List.filter_cons,
              List.filter_nil, List.length_append, hb1u, hnbu, hused] at hcnt ⊢
            simp at hcnt ⊢
            omega
        · show noAdjFrom true (pre ++ [b1, nb] ++ []) = true
          rw [List.append_nil, noAdjFrom_append]
          simp only [noAdjFrom_cons, noAdjFrom_nil, Bool.and_eq_true, Bool.or_eq_true,
            hb1u, hnbu, hused, hnadjpre]
          simp
      refine ⟨updSpan_wf hwf hmem hwfsp1 rfl rfl, rfl, hfit.2, fun hc => by omega, fun _ => ?_⟩
      refine ⟨_, rfl, rfl, rfl, rfl, ?_⟩
      show getBlk _ o = some b1
      unfold getBlk
      show blkAt (pre ++ [b1, nb] ++ []) _ _ = _
      rw [ho]
      have hh2 := @blkAt_of_decomp pre ([nb] ++ []) b1 SPAN_HDR_PADSZ hprepos
      simpa using hh2
    | cons q post2 =>
      subst hp
      rw [@blknextadj_midB _ (pre ++ [b1]) _ _ _ _ hB3 (by show _ = (pre ++ [b1]) ++ nb :: q :: post2; simp) hoff1] at hrun
      dsimp only at hrun
      unfold spSetBlk at hrun
      have hqmem : q ∈ sp.blocks := by rw [hb]; exact List.mem_append_right _ (by simp)
      have hqOk := hblk q hqmem
      have hpos3 : ∀ x ∈ pre ++ [b1, nb], 0 < x.gross := by
        intro x hx
        simp only [List.mem_append, List.mem_cons, List.not_mem_nil, or_false] at hx
        rcases hx with hx | hx | hx
        · exact hprepos x hx
        · subst hx
          exact hb1pos
        · subst hx
          rw [hnbg]
          simp only [MIN_BLKSZ] at hcut
          omega
      have hmod2 : modifyAt (pre ++ [b1, nb] ++ q :: post2) SPAN_HDR_PADSZ
          (o + g + nb.gross) (fun r => { r with prevInUse := false })
          = some (pre ++ [b1, nb] ++ { q with prevInUse := false } :: post2) := by
        have hh2 := @modifyAt_of_decomp (pre ++ [b1, nb]) post2 q SPAN_HDR_PADSZ
          (fun r => { r with prevInUse := false }) hpos3
        have hoff : SPAN_HDR_PADSZ + sumGross (pre ++ [b1, nb]) = o + g + nb.gross := by
          simp only [sumGross_append, sumGross_cons, sumGross_nil, hb1g, hnbg]
          omega
        rw [hoff] at hh2
        simpa using hh2
      rw [hmod2, Option.map_some'] at hrun
      dsimp only at hrun
      set q1 : Block := { q with prevInUse := false } with hq1
      have hq1g : q1.gross = q.gross := rfl
      have hq1u : q1.inUse = q.inUse := rfl
      have hq1p : q1.prevInUse = false := rfl
      -- well-formedness of the intermediate span
      have htails : fOffs (SPAN_HDR_PADSZ + sumGross pre) (b1 :: nb :: q1 :: post2)
          = [o + g] ++ fOffs (SPAN_HDR_PADSZ + sumGross pre + b.gross) (q :: post2) := by
        have harith : SPAN_HDR_PADSZ + sumGross pre + g + (b.gross - g)
            = SPAN_HDR_PADSZ + sumGross pre + b.gross := by omega
        rw [fOffs_cons, fOffs_cons, fOffs_cons]
        rw [@fOffs_cons (SPAN_HDR_PADSZ + sumGross pre + b.gross) q post2]
        simp only [hb1u, hused, hnbu, hq1u, hb1g, hnbg, harith]
        rw [ho]
        simp
      have hfoOld : freeOffsets sp
          = fOffs SPAN_HDR_PADSZ pre ++ fOffs (SPAN_HDR_PADSZ + sumGross pre + b.gross) (q :: post2) := by
        unfold freeOffsets
        rw [hb, fOffs_append, fOffs_cons]
        simp [hused]
      have hfoNew : fOffs SPAN_HDR_PADSZ (pre ++ [b1, nb] ++ q1 :: post2)
          = fOffs SPAN_HDR_PADSZ pre ++ ([o + g] ++ fOffs (SPAN_HDR_PADSZ + sumGross pre + b.gross) (q :: post2)) := by
        rw [show (pre ++ [b1, nb]) ++ q1 :: post2 = pre ++ b1 :: nb :: q1 :: post2 by simp]
        rw [fOffs_append, htails]
      have hwf02 : spanWF0 { sp with blocks := pre ++ [b1, nb] ++ q1 :: post2, freelist := (o + g) :: sp.freelist } := by
        refine ⟨hne, hbm, hbu, hmin, ?_, ?_, ?_, ?_, ?_, ?_, ?_⟩
        · show SPAN_HDR_PADSZ + sumGross (pre ++ [b1, nb] ++ q1 :: post2) = sp.size
          rw [hb] at hsum
          simp only [sumGross_append, sumGross_cons, sumGross_nil, hb1g, hnbg, hq1g] at hsum ⊢
          omega
        · intro x hx
          simp only [List.mem_append, List.mem_cons, List.not_mem_nil, or_false] at hx
          rcases hx with (hx | hx | hx) | hx | hx
          · exact hblk x (by rw [hb]; exact List.mem_append_left _ hx)
          · subst hx
            exact hb1Ok
          · subst hx
            exact hnbOk
          · subst hx
            refine ⟨hqOk.1, hqOk.2.1, hqOk.2.2.1, ?_⟩
            intro hf
            rw [hq1u] at hf
            exact hqOk.2.2.2 hf
          · exact hblk x (by rw [hb]; exact List.mem_append_right _ (by simp [hx]))
        · show chainFlags false (pre ++ [b1, nb] ++ q1 :: post2) = true
          rw [show (pre ++ [b1, nb]) ++ q1 :: post2 = pre ++ b1 :: nb :: q1 :: post2 by simp]
          rw [chainFlags_append]
          rw [hb, chainFlags_append] at hchain
          simp only [chainFlags_cons, Bool.and_eq_true, beq_iff_eq, hb1p, hb1u, hnbp,
            hnbu, hq1p, hq1u, hused] at hchain ⊢
          exact ⟨hchain.1, hchain.2.1, trivial, trivial, hchain.2.2.2⟩
        · show ((o + g) :: sp.freelist).Nodup
          exact List.nodup_cons.mpr ⟨hfresh, hnd⟩
        · intro oo hoo
          show oo ∈ fOffs SPAN_HDR_PADSZ (pre ++ [b1, nb] ++ q1 :: post2)
          rw [hfoNew]
          rcases List.mem_cons.mp hoo with rfl | hoo
          · simp
          · have := hsub oo hoo
            rw [hfoOld] at this
            rcases List.mem_append.mp this with hfo2 | hfo2
            · exact List.mem_append_left _ hfo2
            · exact List.mem_append_right _ (List.mem_append_right _ hfo2)
        · intro oo hoo
          have hoo2 : oo ∈ fOffs SPAN_HDR_PADSZ (pre ++ [b1, nb] ++ q1 :: post2) := hoo
          rw [hfoNew] at hoo2
          show oo ∈ (o + g) :: sp.freelist
          rcases List.mem_append.mp hoo2 with hoo2 | hoo2
          · exact List.mem_cons_of_mem _ (hsup oo (by rw [hfoOld]; exact List.mem_append_left _ hoo2))
          · rcases List.mem_append.mp hoo2 with hoo2 | hoo2
            · simp only [List.mem_singleton] at hoo2
              subst hoo2
              exact List.mem_cons_self _ _
            · exact List.mem_cons_of_mem _ (hsup oo (by rw [hfoOld]; exact List.mem_append_right _ hoo2))
        · show sp.blkcount = ((pre ++ [b1, nb] ++ q1 :: post2).filter (fun x : Block => x.inUse)).length
          rw [hb] at hcnt
          simp only [List.filter_append, List.filter_cons, List.filter_nil,
            List.length_append, hb1u, hnbu, hq1u, hused] at hcnt ⊢
          by_cases hqi : q.inUse = true <;> simp [hqi] at hcnt ⊢ <;> omega
      -- coalesce the carved-off free block forward
      have hnadjpre2 : noAdjFrom true (pre ++ [b1]) = true := by
        rw [noAdjFrom_append]
        simp only [noAdjFrom_cons, noAdjFrom_nil, Bool.and_eq_true, Bool.or_eq_true,
          hb1u, hused, hnadjpre]
        simp
      have hnadjpost2 : noAdjFrom true (q1 :: post2) = true := by
        simp only [noAdjFrom_cons, Bool.and_eq_true, Bool.or_eq_true, hq1u] at hnpost ⊢
        exact ⟨by simp, hnpost.2⟩
      obtain ⟨sp3, c, heq3, hwf3, hbase3, hsize3, hcnt3, hshape⟩ :=
        @coalesce_spec _ (pre ++ [b1]) (q1 :: post2) nb (o + g) hwf02
          (by show _ = (pre ++ [b1]) ++ nb :: q1 :: post2; simp) (by simpa using hoff1)
          hnbu hnadjpre2 hnadjpost2
      rw [heq3] at hrun
      dsimp only at hrun
      have hpair := Option.some.inj hrun
      have hr : r = some (payloadAddr sp o) := (congrArg Prod.fst hpair).symm
      have hh : h' = updSpan h sp3 := (congrArg Prod.snd hpair).symm
      subst hr
      subst hh
      obtain ⟨hceq, b2, post3, hblocks3, hfree2⟩ := hshape hnbp
      refine ⟨updSpan_wf hwf hmem hwf3 hbase3 hsize3, rfl, hfit.2, fun hc => by omega,
        fun _ => ⟨sp3, rfl, hbase3, hsize3, hcnt3, ?_⟩⟩
      show getBlk sp3 o = some b1
      unfold getBlk
      rw [hblocks3, ho]
      have hh2 := @blkAt_of_decomp pre (b2 :: post3) b1 SPAN_HDR_PADSZ hprepos
      simpa using hh2

/-- Inversion of a completed `realloc_extend` on an in-use block: the heap
stays well formed, any returned pointer is 16-aligned and non-null, and a
NULL return (the moving path's allocation failed) leaves the heap exactly
as it was. -/
theorem realloc_extend_run {ps : Nat} {os : Option Nat} {sp : Span} {o size : Nat} {h : Heap}
    {r : Option Nat} {h' : Heap} {pre post : List Block} {b : Block}
    (hwf : heapWF h) (hmem : sp ∈ h.spans)
    (hb : sp.blocks = pre ++ b :: post) (ho : o = SPAN_HDR_PADSZ + sumGross pre)
    (hused : b.inUse = true)
    (hrun : realloc_extend ps os sp o size h = some (r, h')) :
    heapWF h' ∧ (∀ p2, r = some p2 → p2 % 16 = 0 ∧ p2 ≠ 0) ∧ (r = none → h' = h) := by
  have hwfsp : spanWF sp := hwf.1 sp hmem
  obtain ⟨h0, hnadj⟩ := hwfsp
  obtain ⟨hne, hbm, hbu, hmin, hsum, hblk, hchain, hnd, hsub, hsup, hcnt⟩ := h0
  have h0' : spanWF0 sp :=
    ⟨hne, hbm, hbu, hmin, hsum, hblk, hchain, hnd, hsub, hsup, hcnt⟩
  have hwfsp' : spanWF sp := ⟨h0', hnadj⟩
  have hB := spanWF0_basics h0'
  have hbmem : b ∈ sp.blocks := by rw [hb]; exact List.mem_append_right _ (by simp)
  have hbOk := hblk b hbmem
  have hprepos : ∀ x ∈ pre, 0 < x.gross :=
    fun x hx => basics_pos hB x (by rw [hb]; exact List.mem_append_left _ hx)
  have hub := decomp_off_ubB hB hb
  have homod := decomp_off_modB hB hb
  set g := blksizerequest size with hg
  have hg64 : MIN_BLKSZ ≤ g := blksizerequest_min size
  have hg16 : g % ALIGNMENT = 0 := blksizerequest_mod16 size
  have hspne : h.spans ≠ [] := List.ne_nil_of_mem hmem
  have hpsne : h.pagesize ≠ 0 := hwf.2.2.2.2 hspne
  -- alignment of the in-place payload pointer
  have hpok : payloadAddr sp o % 16 = 0 ∧ payloadAddr sp o ≠ 0 := by
    refine payload_ok hwfsp' (ho ▸ homod) (show o + b.gross ≤ sp.size by omega) hbOk.1
  unfold realloc_extend at hrun
  rw [getBlk_of_decompB hB hb ho] at hrun
  try dsimp only at hrun
  rw [if_neg (not_not_intro hused)] at hrun
  by_cases hgrow : b.gross < g
  case neg =>
    rw [if_pos hgrow] at hrun
    exact Option.noConfusion hrun
  rw [if_neg (not_not_intro hgrow)] at hrun
  cases hp : post with
  | nil =>
    subst hp
    rw [blknextadj_lastB hB (by rw [hb]) ho] at hrun
    try dsimp only at hrun
    rcases hm : m_malloc ps os size h with _ | y
    · rw [hm] at hrun
      exact Option.noConfusion hrun
    rcases y with ⟨r1, h1⟩
    rw [hm] at hrun
    try dsimp only at hrun
    obtain ⟨hwf1, halign1, hnull1⟩ := m_malloc_run hwf hm
    rcases r1 with _ | q2
    · try dsimp only at hrun
      have hpair := Option.some.inj hrun
      have hr : r = none := (congrArg Prod.fst hpair).symm
      have hh : h' = h1 := (congrArg Prod.snd hpair).symm
      subst hr
      subst hh
      refine ⟨hwf1, fun p2 hp2 => Option.noConfusion hp2, fun _ => ?_⟩
      rcases hnull1 rfl with he | ⟨hz, _⟩
      · exact he
      · exact absurd hz hpsne
    · try dsimp only at hrun
      rcases hf : m_free (payloadAddr sp o) h1 with _ | h3
      · rw [hf] at hrun
        exact Option.noConfusion hrun
      rw [hf] at hrun
      try dsimp only at hrun
      have hpair := Option.some.inj hrun
      have hr : r = some q2 := (congrArg Prod.fst hpair).symm
      have hh : h' = h3 := (congrArg Prod.snd hpair).symm
      subst hr
      subst hh
      refine ⟨m_free_wf hwf1 hf, fun p2 hp2 => ?_, fun hre => Option.noConfusion hre⟩
      have : q2 = p2 := Option.some.inj hp2
      subst this
      exact halign1 q2 rfl
  | cons q post2 =>
    subst hp
    rw [blknextadj_midB hB (by rw [hb]) ho] at hrun
    try dsimp only at hrun
    have hgetq : getBlk sp (o + b.gross) = some q := by
      refine @getBlk_of_decompB _ (pre ++ [b]) _ _ _ hB (by simpa using hb) ?_
      simp only [sumGross_append, sumGross_cons, sumGross_nil]
      omega
    rw [hgetq] at hrun
    try dsimp only at hrun
    by_cases hfit2 : q.inUse = false ∧ g - b.gross ≤ q.gross
    · rw [if_pos hfit2] at hrun
      have hqf : q.inUse = false := hfit2.1
      have hqmem : q ∈ sp.blocks := by rw [hb]; exact List.mem_append_right _ (by simp)
      have hqOk := hblk q hqmem
      have hub2 : SPAN_HDR_PADSZ + sumGross pre + b.gross + q.gross + sumGross post2 = sp.size := by
        simp only [sumGross_cons] at hub
        omega
      have hgle2 : g ≤ b.gross + q.gross := by
        have := hfit2.2
        omega
      have halignL : (b.gross + q.gross - g) % ALIGNMENT = 0 := by
        have h3 := hbOk.2.1
        have h4 := hqOk.2.1
        simp only [ALIGNMENT] at h3 h4 hg16 ⊢
        omega
      rw [if_neg (not_not_intro halignL)] at hrun
      have hoq : o + b.gross = SPAN_HDR_PADSZ + sumGross (pre ++ [b]) := by
        simp only [sumGross_append, sumGross_cons, sumGross_nil]
        omega
      have hoqmem : o + b.gross ∈ sp.freelist := by
        refine hsup _ ?_
        unfold freeOffsets
        rw [hb, hoq]
        rw [show pre ++ b :: q :: post2 = (pre ++ [b]) ++ q :: post2 by simp]
        exact mem_fOffs_of_free hqf
      have hhsub : ∀ oo ∈ sp.freelist.erase (o + b.gross),
          oo ∈ freeOffsets sp ∧ oo ≠ o + b.gross :=
        fun oo hoo => ⟨hsub oo (hnd.mem_erase_iff.mp hoo).2, (hnd.mem_erase_iff.mp hoo).1⟩
      have hnpost : noAdjFrom q.inUse post2 = true := by
        rw [hb, noAdjFrom_append] at hnadj
        have h2 := (Bool.and_eq_true _ _ |>.mp hnadj).2
        simp only [noAdjFrom_cons, Bool.and_eq_true] at h2
        exact h2.2.2
      have hnadjpre : noAdjFrom true pre = true := by
        rw [hb, noAdjFrom_append] at hnadj
        exact (Bool.and_eq_true _ _ |>.mp hnadj).1
      have hchain2 : b.prevInUse = endUse false pre ∧ q.prevInUse = b.inUse ∧
          chainFlags q.inUse post2 = true := by
        rw [hb, chainFlags_append] at hchain
        simp only [chainFlags_cons, Bool.and_eq_true, beq_iff_eq] at hchain
        exact ⟨hchain.2.1, hchain.2.2.1, hchain.2.2.2⟩
      have hfoOld : freeOffsets sp =
          fOffs SPAN_HDR_PADSZ pre ++ [o + b.gross] ++
          fOffs (SPAN_HDR_PADSZ + sumGross pre + b.gross + q.gross) post2 := by
        refine (freeOffsets_window hb).trans ?_
        rw [ho]
        simp [hused, hqf]
      have hpostpos : ∀ x ∈ post2, 0 < x.gross := by
        intro x hx
        exact basics_pos hB x (by rw [hb]; exact List.mem_append_right _ (by simp [hx]))
      by_cases hlo : b.gross + q.gross - g < MIN_BLKSZ
      · -- absorb the whole neighbour
        rw [if_pos hlo] at hrun
        set mg : Block := { b with gross := b.gross + q.gross, footer := q.footer } with hmg
        have hmgg : mg.gross = b.gross + q.gross := rfl
        have hmgu : mg.inUse = b.inUse := rfl
        have hmgp : mg.prevInUse = b.prevInUse := rfl
        have hmgOk : blockOk sp.base mg := by
          refine ⟨?_, ?_, ?_, ?_⟩
          · rw [hmgg]
            have := hbOk.1
            simp only [MIN_BLKSZ] at this ⊢
            omega
          · rw [hmgg]
            have h3 := hbOk.2.1
            have h4 := hqOk.2.1
            simp only [ALIGNMENT] at h3 h4 ⊢
            omega
          · show mg.owner = sp.base
            rw [hmg]
            exact hbOk.2.2.1
          · intro hf
            rw [hmgu, hused] at hf
            exact Bool.noConfusion hf
        have hrep : replace2At sp.blocks SPAN_HDR_PADSZ o [mg]
            = some (pre ++ [mg] ++ post2) := by
          rw [hb, ho]
          exact replace2At_of_decomp hprepos
        cases hp2 : post2 with
        | nil =>
          subst hp2
          rw [blknextadj_lastB hB (by simpa using hb) hoq] at hrun
          try dsimp only at hrun
          unfold blksever at hrun
          rw [if_pos hoqmem] at hrun
          try dsimp only at hrun
          rw [show ({ sp with freelist := sp.freelist.erase (o + b.gross) } : Span).blocks = sp.blocks from rfl, hrep] at hrun
          try dsimp only at hrun
          have hpair := Option.some.inj hrun
          have hr : r = some (payloadAddr sp o) := (congrArg Prod.fst hpair).symm
          have hh : h' = updSpan h { sp with freelist := sp.freelist.erase (o + b.gross), blocks := pre ++ [mg] ++ [] } := (congrArg Prod.snd hpair).symm
          subst hr
          subst hh
          have hnew : fOffs SPAN_HDR_PADSZ (pre ++ [mg] ++ ([] : List Block))
              = fOffs SPAN_HDR_PADSZ pre := by
            rw [List.append_nil, fOffs_append, fOffs_cons, fOffs_nil]
            simp [hmgu, hused]
          have hwf1 : spanWF { sp with freelist := sp.freelist.erase (o + b.gross), blocks := pre ++ [mg] ++ [] } := by
            constructor
            · refine ⟨hne, hbm, hbu, hmin, ?_, ?_, ?_, hnd.erase _, ?_, ?_, ?_⟩
              · show SPAN_HDR_PADSZ + sumGross (pre ++ [mg] ++ []) = sp.size
                simp only [sumGross_nil] at hub2
                simp only [sumGross_append, sumGross_cons, sumGross_nil, hmgg]
                omega
              · intro x hx
                simp only [List.mem_append, List.mem_cons, List.not_mem_nil, or_false] at hx
                rcases hx with hx | hx
                · exact hblk x (by rw [hb]; exact List.mem_append_left _ hx)
                · subst hx
                  exact hmgOk
              · show chainFlags false (pre ++ [mg] ++ []) = true
                rw [List.append_nil, chainFlags_append]
                rw [hb, chainFlags_append] at hchain
                simp only [chainFlags_cons, chainFlags_nil, Bool.and_eq_true, beq_iff_eq,
                  hmgp, hmgu] at hchain ⊢
                exact ⟨hchain.1, hchain.2.1, trivial⟩
              · intro oo hoo
                obtain ⟨hold, hone⟩ := hhsub oo hoo
                show oo ∈ fOffs SPAN_HDR_PADSZ (pre ++ [mg] ++ ([] : List Block))
                rw [hnew]
                rw [hfoOld] at hold
                simp only [List.mem_append, List.mem_singleton, fOffs_nil,
                  List.not_mem_nil, or_false] at hold
                rcases hold with hold | hold
                · exact hold
                · exact absurd hold hone
              · intro oo hoo
                have hoo2 : oo ∈ fOffs SPAN_HDR_PADSZ (pre ++ [mg] ++ ([] : List Block)) := hoo
                rw [hnew] at hoo2
                show oo ∈ sp.freelist.erase (o + b.gross)
                refine hnd.mem_erase_iff.mpr ⟨?_,
                  hsup oo (by rw [hfoOld]; exact List.mem_append_left _ (List.mem_append_left _ hoo2))⟩
                have hbd := mem_fOffs_bounds hprepos hoo2
                omega
              · show sp.blkcount = ((pre ++ [mg] ++ []).filter (fun x : Block => x.inUse)).length
                rw [hb] at hcnt
                simp only [List.append_nil, List.filter_append, List.filter_cons,
                  List.filter_nil, List.length_append, hmgu, hused, hqf] at hcnt ⊢
                simp at hcnt ⊢
                omega
            · show noAdjFrom true (pre ++ [mg] ++ []) = true
              rw [List.append_nil, noAdjFrom_append]
              simp only [noAdjFrom_cons, noAdjFrom_nil, Bool.and_eq_true, Bool.or_eq_true,
                hmgu, hused, hnadjpre]
              simp
          refine ⟨updSpan_wf hwf hmem hwf1 rfl rfl, fun p2 hp2b => ?_, fun hre => Option.noConfusion hre⟩
          have hpe : payloadAddr sp o = p2 := Option.some.inj hp2b
          rw [← hpe]
          exact hpok
        | cons q2 post3 =>
          subst hp2
          rw [blknextadj_midB hB (by simpa using hb) hoq] at hrun
          try dsimp only at hrun
          unfold blksever at hrun
          rw [if_pos hoqmem] at hrun
          try dsimp only at hrun
          rw [show ({ sp with freelist := sp.freelist.erase (o + b.gross) } : Span).blocks = sp.blocks from rfl, hrep] at hrun
          try dsimp only at hrun
          unfold spSetBlk at hrun
          have hq2mem : q2 ∈ sp.blocks := by rw [hb]; exact List.mem_append_right _ (by simp)
          have hq2Ok := hblk q2 hq2mem
          have hq2used : q2.inUse = true := by
            simp only [hqf, noAdjFrom_cons, Bool.and_eq_true, Bool.or_eq_true] at hnpost
            rcases hnpost.1 with hx | hx
            · exact Bool.noConfusion hx
            · exact hx
          have hpos3 : ∀ x ∈ pre ++ [mg], 0 < x.gross := by
            intro x hx
            rcases List.mem_append.mp hx with hx | hx
            · exact hprepos x hx
            · simp only [List.mem_singleton] at hx
              subst hx
              rw [hmgg]
              have := hbOk.1
              simp only [MIN_BLKSZ] at this
              omega
          have hmod2 : modifyAt (pre ++ [mg] ++ q2 :: post3) SPAN_HDR_PADSZ
              (o + b.gross + q.gross) (fun r => { r with prevInUse := true })
              = some (pre ++ [mg] ++ { q2 with prevInUse := true } :: post3) := by
            have hh2 := @modifyAt_of_decomp (pre ++ [mg]) post3 q2 SPAN_HDR_PADSZ
              (fun r => { r with prevInUse := true }) hpos3
            have hoff : SPAN_HDR_PADSZ + sumGross (pre ++ [mg]) = o + b.gross + q.gross := by
              simp only [sumGross_append, sumGross_cons, sumGross_nil, hmgg]
              omega
            rw [hoff] at hh2
            simpa using hh2
          rw [hmod2, Option.map_some'] at hrun
          try dsimp only at hrun
          set q2n : Block := { q2 with prevInUse := true } with hq2n
          have hq2ng : q2n.gross = q2.gross := rfl
          have hq2nu : q2n.inUse = q2.inUse := rfl
          have hq2np : q2n.prevInUse = true := rfl
          have hpair := Option.some.inj hrun
          have hr : r = some (payloadAddr sp o) := (congrArg Prod.fst hpair).symm
          have hh : h' = updSpan h { sp with freelist := sp.freelist.erase (o + b.gross), blocks := pre ++ [mg] ++ q2n :: post3 } := (congrArg Prod.snd hpair).symm
          subst hr
          subst hh
          have harith2 : SPAN_HDR_PADSZ + sumGross pre + (b.gross + q.gross)
              = SPAN_HDR_PADSZ + sumGross pre + b.gross + q.gross := by omega
          have hnew : fOffs SPAN_HDR_PADSZ (pre ++ [mg] ++ q2n :: post3)
              = fOffs SPAN_HDR_PADSZ pre ++
                fOffs (SPAN_HDR_PADSZ + sumGross pre + b.gross + q.gross) (q2 :: post3) := by
            rw [show (pre ++ [mg]) ++ q2n :: post3 = pre ++ mg :: q2n :: post3 by simp]
            rw [fOffs_append, fOffs_cons, fOffs_cons]
            rw [@fOffs_cons (SPAN_HDR_PADSZ + sumGross pre + b.gross + q.gross) q2 post3]
            simp only [hmgu, hused, hq2nu, hq2ng, hmgg, harith2]
            simp
          have hwf1 : spanWF { sp with freelist := sp.freelist.erase (o + b.gross), blocks := pre ++ [mg] ++ q2n :: post3 } := by
            constructor
            · refine ⟨hne, hbm, hbu, hmin, ?_, ?_, ?_, hnd.erase _, ?_, ?_, ?_⟩
              · show SPAN_HDR_PADSZ + sumGross (pre ++ [mg] ++ q2n :: post3) = sp.size
                simp only [sumGross_cons] at hub2
                simp only [sumGross_append, sumGross_cons, sumGross_nil, hmgg, hq2ng]
                omega
              · intro x hx
                simp only [List.mem_append, List.mem_cons, List.not_mem_nil, or_false] at hx
                rcases hx with (hx | hx) | hx | hx
                · exact hblk x (by rw [hb]; exact List.mem_append_left _ hx)
                · subst hx
                  exact hmgOk
                · subst hx
                  refine ⟨hq2Ok.1, hq2Ok.2.1, hq2Ok.2.2.1, ?_⟩
                  intro hf
                  rw [hq2nu] at hf
                  exact hq2Ok.2.2.2 hf
                · exact hblk x (by rw [hb]; exact List.mem_append_right _ (by simp [hx]))
              · show chainFlags false (pre ++ [mg] ++ q2n :: post3) = true
                rw [show (pre ++ [mg]) ++ q2n :: post3 = pre ++ mg :: q2n :: post3 by simp]
                rw [chainFlags_append]
                rw [hb, chainFlags_append] at hchain
                simp only [chainFlags_cons, Bool.and_eq_true, beq_iff_eq, hmgp, hmgu,
                  hq2np, hq2nu, hused, hqf] at hchain ⊢
                exact ⟨hchain.1, hchain.2.1, trivial, hchain.2.2.2.2⟩
              · intro oo hoo
                obtain ⟨hold, hone⟩ := hhsub oo hoo
                show oo ∈ fOffs SPAN_HDR_PADSZ (pre ++ [mg] ++ q2n :: post3)
                rw [hnew]
                rw [hfoOld] at hold
                simp only [List.mem_append, List.mem_singleton] at hold ⊢
                rcases hold with (hold | hold) | hold
                · exact Or.inl hold
                · exact absurd hold hone
                · exact Or.inr hold
              · intro oo hoo
                have hoo2 : oo ∈ fOffs SPAN_HDR_PADSZ (pre ++ [mg] ++ q2n :: post3) := hoo
                rw [hnew] at hoo2
                show oo ∈ sp.freelist.erase (o + b.gross)
                rcases List.mem_append.mp hoo2 with hoo2 | hoo2
                · refine hnd.mem_erase_iff.mpr ⟨?_,
                    hsup oo (by rw [hfoOld]; exact List.mem_append_left _ (List.mem_append_left _ hoo2))⟩
                  have hbd := mem_fOffs_bounds hprepos hoo2
                  omega
                · refine hnd.mem_erase_iff.mpr ⟨?_,
                    hsup oo (by rw [hfoOld]; exact List.mem_append_right _ hoo2)⟩
                  have hq2pos : ∀ x ∈ q2 :: post3, 0 < x.gross := hpostpos
                  have hbd := mem_fOffs_bounds hq2pos hoo2
                  have := hqOk.1
                  simp only [MIN_BLKSZ] at this
                  omega
              · show sp.blkcount = ((pre ++ [mg] ++ q2n :: post3).filter (fun x : Block => x.inUse)).length
                rw [hb] at hcnt
                simp only [List.filter_append, List.filter_cons, List.filter_nil,
                  List.length_append, hmgu, hused, hqf, hq2nu, hq2used] at hcnt ⊢
                simp at hcnt ⊢
                omega
            · show noAdjFrom true (pre ++ [mg] ++ q2n :: post3) = true
              rw [show (pre ++ [mg]) ++ q2n :: post3 = pre ++ mg :: q2n :: post3 by simp]
              rw [noAdjFrom_append]
              have hnq3 : noAdjFrom true post3 = true := by
                simp only [hqf, noAdjFrom_cons, Bool.and_eq_true] at hnpost
                have h5 := hnpost.2
                rw [hq2used] at h5
                exact h5
              simp only [noAdjFrom_cons, noAdjFrom_nil, Bool.and_eq_true, Bool.or_eq_true,
                hmgu, hused, hq2nu, hq2used, hnadjpre, hnq3]
              simp
          refine ⟨updSpan_wf hwf hmem hwf1 rfl rfl, fun p2 hp2b => ?_, fun hre => Option.noConfusion hre⟩
          have hpe : payloadAddr sp o = p2 := Option.some.inj hp2b
          rw [← hpe]
          exact hpok
      · -- split the absorbed space: grow in place and carve a new free tail
        rw [if_neg hlo] at hrun
        have hlo2 : MIN_BLKSZ ≤ b.gross + q.gross - g := Nat.le_of_not_lt hlo
        have hbinit : blkinitOk sp (o + g) (b.gross + q.gross - g) = true := by
          refine blkinitOk_true hbm ?_ ?_
          · have h3 := hbOk.2.1
            simp only [ALIGNMENT] at hg16 ⊢
            rw [ho]
            omega
          · show o + g + (b.gross + q.gross - g) ≤ sp.size
            omega
        rw [if_neg (not_not_intro hbinit)] at hrun
        unfold blksever at hrun
        rw [if_pos hoqmem] at hrun
        try dsimp only at hrun
        set bg : Block := { b with gross := g, footer := 0 } with hbgd
        set nb : Block := { gross := b.gross + q.gross - g, inUse := false, prevInUse := true, owner := sp.base, footer := b.gross + q.gross - g, magic := MAGIC_BABY } with hnbd
        have hbgg : bg.gross = g := rfl
        have hbgu : bg.inUse = b.inUse := rfl
        have hbgp : bg.prevInUse = b.prevInUse := rfl
        have hnbg : nb.gross = b.gross + q.gross - g := rfl
        have hnbu : nb.inUse = false := rfl
        have hnbp : nb.prevInUse = true := rfl
        have hglt2 : b.gross < g := by
          rcases Nat.lt_or_ge b.gross g with hx | hx
          · exact hx
          · exfalso
            have hc := hgrow
            omega
        have hgltBQ : g < b.gross + q.gross := by
          simp only [MIN_BLKSZ] at hlo2
          omega
        have hbgOk : blockOk sp.base bg := by
          refine ⟨?_, ?_, ?_, ?_⟩
          · rw [hbgg]
            exact hg64
          · rw [hbgg]
            exact hg16
          · show bg.owner = sp.base
            rw [hbgd]
            exact hbOk.2.2.1
          · intro hf
            rw [hbgu, hused] at hf
            exact Bool.noConfusion hf
        have hnbOk : blockOk sp.base nb := by
          refine ⟨?_, ?_, rfl, fun hf => rfl⟩
          · rw [hnbg]
            exact hlo2
          · rw [hnbg]
            exact halignL
        have hrep : replace2At sp.blocks SPAN_HDR_PADSZ o [bg, nb]
            = some (pre ++ [bg, nb] ++ post2) := by
          rw [hb, ho]
          exact replace2At_of_decomp hprepos
        rw [show ({ sp with freelist := sp.freelist.erase (o + b.gross) } : Span).blocks = sp.blocks from rfl, hrep] at hrun
        try dsimp only at hrun
        have hpair := Option.some.inj hrun
        have hr : r = some (payloadAddr sp o) := (congrArg Prod.fst hpair).symm
        have hh : h' = updSpan h { sp with freelist := (o + g) :: sp.freelist.erase (o + b.gross), blocks := pre ++ [bg, nb] ++ post2 } := (congrArg Prod.snd hpair).symm
        subst hr
        subst hh
        have harith : SPAN_HDR_PADSZ + sumGross pre + g + (b.gross + q.gross - g)
            = SPAN_HDR_PADSZ + sumGross pre + b.gross + q.gross := by omega
        have hnew : fOffs SPAN_HDR_PADSZ (pre ++ [bg, nb] ++ post2)
            = fOffs SPAN_HDR_PADSZ pre ++ ([o + g] ++
              fOffs (SPAN_HDR_PADSZ + sumGross pre + b.gross + q.gross) post2) := by
          rw [show (pre ++ [bg, nb]) ++ post2 = pre ++ bg :: nb :: post2 by simp]
          rw [fOffs_append, fOffs_cons, fOffs_cons]
          simp only [hbgu, hused, hnbu, hbgg, hnbg, harith]
          rw [ho]
          simp
        have hfresh2 : o + g ∉ sp.freelist.erase (o + b.gross) := by
          intro hmem2
          obtain ⟨hold, hone⟩ := hhsub _ hmem2
          rw [hfoOld] at hold
          simp only [List.mem_append, List.mem_singleton] at hold
          rcases hold with (hold | hold) | hold
          · have hbd := mem_fOffs_bounds hprepos hold
            omega
          · exact hone hold
          · have hbd := mem_fOffs_bounds hpostpos hold
            omega
        have hwf1 : spanWF { sp with freelist := (o + g) :: sp.freelist.erase (o + b.gross), blocks := pre ++ [bg, nb] ++ post2 } := by
          constructor
          · refine ⟨hne, hbm, hbu, hmin, ?_, ?_, ?_, ?_, ?_, ?_, ?_⟩
            · show SPAN_HDR_PADSZ + sumGross (pre ++ [bg, nb] ++ post2) = sp.size
              simp only [sumGross_append, sumGross_cons, sumGross_nil, hbgg, hnbg]
              omega
            · intro x hx
              simp only [List.mem_append, List.mem_cons, List.not_mem_nil, or_false] at hx
              rcases hx with (hx | hx | hx) | hx
              · exact hblk x (by rw [hb]; exact List.mem_append_left _ hx)
              · subst hx
                exact hbgOk
              · subst hx
                exact hnbOk
              · exact hblk x (by rw [hb]; exact List.mem_append_right _ (by simp [hx]))
            · show chainFlags false (pre ++ [bg, nb] ++ post2) = true
              rw [show (pre ++ [bg, nb]) ++ post2 = pre ++ bg :: nb :: post2 by simp]
              rw [chainFlags_append]
              rw [hb, chainFlags_append] at hchain
              simp only [chainFlags_cons, Bool.and_eq_true, beq_iff_eq, hbgp, hbgu,
                hnbp, hnbu, hused, hqf] at hchain ⊢
              exact ⟨hchain.1, hchain.2.1, trivial, hchain.2.2.2⟩
            · show ((o + g) :: sp.freelist.erase (o + b.gross)).Nodup
              exact List.nodup_cons.mpr ⟨hfresh2, hnd.erase _⟩
            · intro oo hoo
              show oo ∈ fOffs SPAN_HDR_PADSZ (pre ++ [bg, nb] ++ post2)
              rw [hnew]
              rcases List.mem_cons.mp hoo with rfl | hoo
              · exact List.mem_append_right _ (List.mem_append_left _ (by simp))
              · obtain ⟨hold, hone⟩ := hhsub _ hoo
                rw [hfoOld] at hold
                simp only [List.mem_append, List.mem_singleton] at hold
                rcases hold with (hold | hold) | hold
                · exact List.mem_append_left _ hold
                · exact absurd hold hone
                · exact List.mem_append_right _ (List.mem_append_right _ hold)
            · intro oo hoo
              have hoo2 : oo ∈ fOffs SPAN_HDR_PADSZ (pre ++ [bg, nb] ++ post2) := hoo
              rw [hnew] at hoo2
              show oo ∈ (o + g) :: sp.freelist.erase (o + b.gross)
              rcases List.mem_append.mp hoo2 with hoo2 | hoo2
              · refine List.mem_cons_of_mem _ (hnd.mem_erase_iff.mpr ⟨?_,
                  hsup oo (by rw [hfoOld]; exact List.mem_append_left _ (List.mem_append_left _ hoo2))⟩)
                have hbd := mem_fOffs_bounds hprepos hoo2
                omega
              · rcases List.mem_append.mp hoo2 with hoo2 | hoo2
                · simp only [List.mem_singleton] at hoo2
                  subst hoo2
                  exact List.mem_cons_self _ _
                · refine List.mem_cons_of_mem _ (hnd.mem_erase_iff.mpr ⟨?_,
                    hsup oo (by rw [hfoOld]; exact List.mem_append_right _ hoo2)⟩)
                  have hbd := mem_fOffs_bounds hpostpos hoo2
                  have := hqOk.1
                  simp only [MIN_BLKSZ] at this
                  omega
            · show sp.blkcount = ((pre ++ [bg, nb] ++ post2).filter (fun x : Block => x.inUse)).length
              rw [hb] at hcnt
              simp only [List.filter_append, List.filter_cons, List.filter_nil,
                List.length_append, hbgu, hnbu, hused, hqf] at hcnt ⊢
              simp at hcnt ⊢
              omega
          · show noAdjFrom true (pre ++ [bg, nb] ++ post2) = true
            rw [show (pre ++ [bg, nb]) ++ post2 = pre ++ bg :: nb :: post2 by simp]
            rw [noAdjFrom_append]
            have hnq3 : noAdjFrom false post2 = true := by
              rw [← hqf]
              exact hnpost
            simp only [noAdjFrom_cons, Bool.and_eq_true, Bool.or_eq_true, hbgu, hused,
              hnbu, hnadjpre, hnq3]
            simp
        refine ⟨updSpan_wf hwf hmem hwf1 rfl rfl, fun p2 hp2b => ?_, fun hre => Option.noConfusion hre⟩
        have hpe : payloadAddr sp o = p2 := Option.some.inj hp2b
        rw [← hpe]
        exact hpok
    · rw [if_neg hfit2] at hrun
      rcases hm : m_malloc ps os size h with _ | y
      · rw [hm] at hrun
        exact Option.noConfusion hrun
      rcases y with ⟨r1, h1⟩
      rw [hm] at hrun
      try dsimp only at hrun
      obtain ⟨hwf1, halign1, hnull1⟩ := m_malloc_run hwf hm
      rcases r1 with _ | q2
      · try dsimp only at hrun
        have hpair := Option.some.inj hrun
        have hr : r = none := (congrArg Prod.fst hpair).symm
        have hh : h' = h1 := (congrArg Prod.snd hpair).symm
        subst hr
        subst hh
        refine ⟨hwf1, fun p2 hp2 => Option.noConfusion hp2, fun _ => ?_⟩
        rcases hnull1 rfl with he | ⟨hz, _⟩
        · exact he
        · exact absurd hz hpsne
      · try dsimp only at hrun
        rcases hf : m_free (payloadAddr sp o) h1 with _ | h3
        · rw [hf] at hrun
          exact Option.noConfusion hrun
        rw [hf] at hrun
        try dsimp only at hrun
        have hpair := Option.some.inj hrun
        have hr : r = some q2 := (congrArg Prod.fst hpair).symm
        have hh : h' = h3 := (congrArg Prod.snd hpair).symm
        subst hr
        subst hh
        refine ⟨m_free_wf hwf1 hf, fun p2 hp2 => ?_, fun hre => Option.noConfusion hre⟩
        have : q2 = p2 := Option.some.inj hp2
        subst this
        exact halign1 q2 rfl

/-- Inversion of a completed `m_calloc`: it is `m_malloc` on the wrapped
product. -/
theorem m_calloc_run {ps n s : Nat} {os : Option Nat} {h : Heap} {r : Option Nat} {h' : Heap}
    (hwf : heapWF h) (hrun : m_calloc ps os n s h = some (r, h')) :
    heapWF h' ∧ (∀ p, r = some p → p % 16 = 0 ∧ p ≠ 0) := by
  unfold m_calloc at hrun
  obtain ⟨h1, h2, _⟩ := m_malloc_run hwf hrun
  exact ⟨h1, h2⟩

/-- Inversion of a completed `m_realloc`: the heap stays well formed, any
returned pointer is 16-aligned and non-null, and for a non-null argument a
NULL return leaves the heap exactly as it was. -/
theorem m_realloc_run {ps p n : Nat} {os : Option Nat} {h : Heap} {r : Option Nat} {h' : Heap}
    (hwf : heapWF h) (hrun : m_realloc ps os p n h = some (r, h')) :
    heapWF h' ∧ (∀ p2, r = some p2 → p2 % 16 = 0 ∧ p2 ≠ 0) ∧
      (p ≠ 0 → r = none → h' = h) := by
  unfold m_realloc at hrun
  by_cases hp0 : p = 0
  · rw [if_pos hp0] at hrun
    obtain ⟨h1, h2, _⟩ := m_malloc_run hwf hrun
    exact ⟨h1, h2, fun hpne => absurd hp0 hpne⟩
  rw [if_neg hp0] at hrun
  rcases hl : locate h.spans (plblkAddr p) with _ | y
  · rw [hl] at hrun
    exact Option.noConfusion hrun
  rcases y with ⟨sp, o⟩
  rw [hl] at hrun
  try dsimp only at hrun
  obtain ⟨hmem, hoeq, hble, hsome⟩ := locate_sound hl
  rcases hg : getBlk sp o with _ | b
  · rw [hg] at hrun
    exact Option.noConfusion hrun
  rw [hg] at hrun
  try dsimp only at hrun
  obtain ⟨pre, post, hdec, hoff⟩ := getBlk_decomp hg
  have hwfsp : spanWF sp := hwf.1 sp hmem
  have hB := spanWF0_basics hwfsp.1
  have homod := decomp_off_modB hB hdec
  have hbm16 : sp.base % 16 = 0 := by
    have := hB.2.1
    simpa [ALIGNMENT] using this
  have hp16 : p % 16 = 0 := by
    have ha : plblkAddr p = sp.base + o := by omega
    unfold plblkAddr sub64 at ha
    rw [hoff] at ha
    simp only [U64, BLOCK_HDR_PADSZ] at ha
    omega
  by_cases hsame : blksizerequest n = b.gross
  · rw [if_pos hsame] at hrun
    try dsimp only at hrun
    have hpair := Option.some.inj hrun
    have hr : r = some p := (congrArg Prod.fst hpair).symm
    have hh : h' = h := (congrArg Prod.snd hpair).symm
    subst hr
    subst hh
    refine ⟨hwf, fun p2 hp2 => ?_, fun _ hre => Option.noConfusion hre⟩
    have : p = p2 := Option.some.inj hp2
    subst this
    exact ⟨hp16, hp0⟩
  rw [if_neg hsame] at hrun
  have hbused : b.inUse = true ∨ b.inUse = false := by
    cases b.inUse <;> simp
  by_cases htr : n = 0 ∨ blksizerequest n < b.gross
  · rw [if_pos htr] at hrun
    have hused : b.inUse = true := by
      by_contra hc
      unfold realloc_truncate at hrun
      rw [hg] at hrun
      try dsimp only at hrun
      rw [if_pos hc] at hrun
      exact Option.noConfusion hrun
    obtain ⟨hwf', hr, hble2, hnoop, hsplit⟩ :=
      realloc_truncate_run hwf hmem hdec hoff hused hrun
    subst hr
    have hub := decomp_off_ubB hB hdec
    have hbOk := hwfsp.1.2.2.2.2.2.1 b (by rw [hdec]; exact List.mem_append_right _ (by simp))
    refine ⟨hwf', fun p2 hp2 => ?_, fun _ hre => Option.noConfusion hre⟩
    have hpe : payloadAddr sp o = p2 := Option.some.inj hp2
    rw [← hpe]
    exact payload_ok hwfsp (hoff ▸ homod) (show o + b.gross ≤ sp.size by omega) hbOk.1
  · rw [if_neg htr] at hrun
    have hused : b.inUse = true := by
      by_contra hc
      unfold realloc_extend at hrun
      rw [hg] at hrun
      try dsimp only at hrun
      rw [if_pos hc] at hrun
      exact Option.noConfusion hrun
    obtain ⟨hwf', halign, hnull⟩ := realloc_extend_run hwf hmem hdec hoff hused hrun
    exact ⟨hwf', halign, fun _ hre => hnull hre⟩

/-- Every public operation that completes preserves heap well-formedness. -/
theorem step_wf {h h' : Heap} (hwf : heapWF h) (hs : Step h h') : heapWF h' := by
  cases hs with
  | malloc ps os n r h h' he => exact (m_malloc_run hwf he).1
  | free p h h' he => exact m_free_wf hwf he
  | calloc ps os n s r h h' he => exact (m_calloc_run hwf he).1
  | realloc ps os p n r h h' he => exact (m_realloc_run hwf he).1

/-- Every heap reachable from the empty heap by public operations is well
formed; in particular no two physically-adjacent blocks of any span are
both free. -/
theorem reachable_wf {h : Heap} (hr : Reachable h) : heapWF h := by
  induction hr with
  | init => decide
  | step hr hs ih => exact step_wf ih hs

theorem realloc_truncate_spec {sp : Span} {o size : Nat} {h : Heap}
    {pre post : List Block} {b : Block}
    (hwf : heapWF h) (hmem : sp ∈ h.spans)
    (hb : sp.blocks = pre ++ b :: post) (ho : o = SPAN_HDR_PADSZ + sumGross pre)
    (hused : b.inUse = true) (hfit2 : blksizerequest size ≤ b.gross) :
    ∃ h2, realloc_truncate sp o size h = some (some (payloadAddr sp o), h2) ∧ heapWF h2 ∧
      (b.gross - blksizerequest size < MIN_BLKSZ → h2 = h) ∧
      (MIN_BLKSZ ≤ b.gross - blksizerequest size →
        ∃ sp3, h2 = updSpan h sp3 ∧ sp3.base = sp.base ∧ sp3.size = sp.size ∧
          sp3.blkcount = sp.blkcount ∧
          getBlk sp3 o = some { b with gross := blksizerequest size, footer := 0 }) := by
  have hwfsp : spanWF sp := hwf.1 sp hmem
  obtain ⟨h0, hnadj⟩ := hwfsp
  obtain ⟨hne, hbm, hbu, hmin, hsum, hblk, hchain, hnd, hsub, hsup, hcnt⟩ := h0
  have h0' : spanWF0 sp :=
    ⟨hne, hbm, hbu, hmin, hsum, hblk, hchain, hnd, hsub, hsup, hcnt⟩
  have hwfsp' : spanWF sp := ⟨h0', hnadj⟩
  have hB := spanWF0_basics h0'
  have hbmem : b ∈ sp.blocks := by rw [hb]; exact List.mem_append_right _ (by simp)
  have hbOk := hblk b hbmem
  have hprepos : ∀ x ∈ pre, 0 < x.gross :=
    fun x hx => basics_pos hB x (by rw [hb]; exact List.mem_append_left _ hx)
  have hub := decomp_off_ubB hB hb
  have homod := decomp_off_modB hB hb
  set g := blksizerequest size with hg
  have hg64 : MIN_BLKSZ ≤ g := blksizerequest_min size
  have hg16 : g % ALIGNMENT = 0 := blksizerequest_mod16 size
  unfold realloc_truncate
  rw [getBlk_of_decompB hB hb ho]
  try dsimp only
  rw [if_neg (not_not_intro hused)]
  have hfit : MIN_BLKSZ ≤ g ∧ g ≤ b.gross := ⟨hg64, hfit2⟩
  rw [if_neg (not_not_intro hfit)]
  by_cases hnoop : b.gross - g < MIN_BLKSZ ∨ g < MIN_BLKSZ
  · rw [if_pos hnoop]
    refine ⟨h, rfl, hwf, fun _ => rfl, fun hcut => ?_⟩
    rcases hnoop with hn1 | hn1 <;> omega
  · rw [if_neg hnoop]
    have hcut : MIN_BLKSZ ≤ b.gross - g := by
      rcases Nat.lt_or_ge (b.gross - g) MIN_BLKSZ with hlt | hge
      · exact absurd (Or.inl hlt) hnoop
      · exact hge
    have halign : (sp.base + (o + g)) % ALIGNMENT = 0 := by
      have h3 := hbOk.2.1
      simp only [ALIGNMENT] at hbm h3 hg16 ⊢
      rw [ho]
      omega
    rw [if_neg (not_not_intro halign)]
    have hbinit : blkinitOk sp (o + g) (b.gross - g) = true := by
      refine blkinitOk_true hbm ?_ ?_
      · have h3 := hbOk.2.1
        simp only [ALIGNMENT] at hg16 ⊢
        rw [ho]
        omega
      · show o + g + (b.gross - g) ≤ sp.size
        omega
    rw [if_neg (not_not_intro hbinit)]
    have hrep : replaceAt sp.blocks SPAN_HDR_PADSZ o
        [{ b with gross := g, footer := 0 },
          { gross := b.gross - g, inUse := false, prevInUse := true, owner := sp.base, footer := b.gross - g, magic := MAGIC_BABY }] =
        some (pre ++ [{ b with gross := g, footer := 0 },
          { gross := b.gross - g, inUse := false, prevInUse := true, owner := sp.base, footer := b.gross - g, magic := MAGIC_BABY }] ++ post) := by
      rw [hb, ho]
      exact replaceAt_of_decomp hprepos
    rw [hrep]
    try dsimp only
    set b1 : Block := { b with gross := g, footer := 0 } with hb1
    set nb : Block := { gross := b.gross - g, inUse := false, prevInUse := true, owner := sp.base, footer := b.gross - g, magic := MAGIC_BABY } with hnb
    have hb1g : b1.gross = g := rfl
    have hb1u : b1.inUse = b.inUse := rfl
    have hb1p : b1.prevInUse = b.prevInUse := rfl
    have hnbg : nb.gross = b.gross - g := rfl
    have hnbu : nb.inUse = false := rfl
    have hnbp : nb.prevInUse = true := rfl
    have hglt : g < b.gross := by
      have hc2 := hcut
      simp only [MIN_BLKSZ] at hc2
      omega
    have hb1pos : 0 < b1.gross := by
      rw [hb1g]
      simp only [MIN_BLKSZ] at hg64
      omega
    have hb1Ok : blockOk sp.base b1 := by
      refine ⟨?_, ?_, ?_, ?_⟩
      · rw [hb1g]
        exact hg64
      · rw [hb1g]
        exact hg16
      · show b1.owner = sp.base
        rw [hb1]
        exact hbOk.2.2.1
      · intro hf
        rw [hb1u, hused] at hf
        exact Bool.noConfusion hf
    have hnbOk : blockOk sp.base nb := by
      refine ⟨?_, ?_, rfl, fun hf => rfl⟩
      · rw [hnbg]
        exact hcut
      · rw [hnbg]
        have h3 := hbOk.2.1
        simp only [ALIGNMENT] at h3 hg16 ⊢
        omega
    have hoff1 : o + g = SPAN_HDR_PADSZ + sumGross (pre ++ [b1]) := by
      simp only [sumGross_append, sumGross_cons, sumGross_nil, hb1g]
      omega
    have hpos2 : ∀ x ∈ pre ++ [b1], 0 < x.gross := by
      intro x hx
      rcases List.mem_append.mp hx with hx | hx
      · exact hprepos x hx
      · simp only [List.mem_singleton] at hx
        subst hx
        exact hb1pos
    -- the prefix boundary facts
    have hnadjpre : noAdjFrom true pre = true := by
      rw [hb, noAdjFrom_append] at hnadj
      exact (Bool.and_eq_true _ _ |>.mp hnadj).1
    have hnpost : noAdjFrom true post = true := by
      rw [hb, noAdjFrom_append] at hnadj
      have h2 := (Bool.and_eq_true _ _ |>.mp hnadj).2
      simp only [noAdjFrom_cons, Bool.and_eq_true, hused] at h2
      exact h2.2
    have hchain2 : b.prevInUse = endUse false pre ∧ chainFlags b.inUse post = true := by
      rw [hb, chainFlags_append] at hchain
      simp only [chainFlags_cons, Bool.and_eq_true, beq_iff_eq] at hchain
      exact ⟨hchain.2.1, hchain.2.2⟩
    have hB3 : spanBasics { sp with
        blocks := pre ++ [b1, nb] ++ post,
        freelist := (o + g) :: sp.freelist } := by
      refine ⟨hne, hbm, hbu, ?_, ?_⟩
      · show SPAN_HDR_PADSZ + sumGross (pre ++ [b1, nb] ++ post) = sp.size
        rw [hb] at hsum
        simp only [sumGross_append, sumGross_cons, sumGross_nil, hb1g, hnbg] at hsum ⊢
        omega
      · intro x hx
        simp only [List.mem_append, List.mem_cons, List.not_mem_nil, or_false] at hx
        rcases hx with (hx | hx | hx) | hx
        · have := hblk x (by rw [hb]; exact List.mem_append_left _ hx)
          exact ⟨this.1, this.2.1⟩
        · subst hx
          exact ⟨hb1Ok.1, hb1Ok.2.1⟩
        · subst hx
          exact ⟨hnbOk.1, hnbOk.2.1⟩
        · have := hblk x (by rw [hb]; exact List.mem_append_right _ (by simp [hx]))
          exact ⟨this.1, this.2.1⟩
    -- the new free offset is strictly inside the old block
    have hfresh : o + g ∉ sp.freelist := by
      intro hmem2
      have hfo := hsub _ hmem2
      unfold freeOffsets at hfo
      rw [hb] at hfo
      rw [fOffs_append, fOffs_cons] at hfo
      simp only [hused] at hfo
      simp only [List.mem_append, if_neg (by simp : ¬ (true = false)), List.not_mem_nil,
        or_false, false_or] at hfo
      rcases hfo with hfo | hfo
      · have hbd := mem_fOffs_bounds hprepos hfo
        omega
      · have hpostpos : ∀ x ∈ post, 0 < x.gross := by
          intro x hx
          exact basics_pos hB x (by rw [hb]; exact List.mem_append_right _ (by simp [hx]))
        have hbd := mem_fOffs_bounds hpostpos hfo
        omega
    cases hp : post with
    | nil =>
      subst hp
      rw [@blknextadj_lastB _ (pre ++ [b1]) _ _ hB3 (by show _ = (pre ++ [b1]) ++ [nb]; simp) hoff1]
      try dsimp only
      have hfo : fOffs SPAN_HDR_PADSZ (pre ++ [b1, nb] ++ ([] : List Block))
          = fOffs SPAN_HDR_PADSZ pre ++ [o + g] := by
        rw [show (pre ++ [b1, nb]) ++ ([] : List Block) = pre ++ b1 :: nb :: [] by simp]
        rw [fOffs_append, fOffs_cons, fOffs_cons, fOffs_nil]
        simp only [hb1u, hused, hnbu, hb1g]
        rw [ho]
        simp
      have hfoOld : freeOffsets sp = fOffs SPAN_HDR_PADSZ pre := by
        unfold freeOffsets
        rw [hb]
        rw [fOffs_append, fOffs_cons, fOffs_nil]
        simp [hused]
      have hwfsp1 : spanWF { sp with blocks := pre ++ [b1, nb] ++ [], freelist := (o + g) :: sp.freelist } := by
        constructor
        · refine ⟨hne, hbm, hbu, hmin, hB3.2.2.2.1, ?_, ?_, ?_, ?_, ?_, ?_⟩
          · intro x hx
            simp only [List.mem_append, List.mem_cons, List.not_mem_nil, or_false] at hx
            rcases hx with hx | hx | hx
            · exact hblk x (by rw [hb]; exact List.mem_append_left _ hx)
            · subst hx
              exact hb1Ok
            · subst hx
              exact hnbOk
          · show chainFlags false (pre ++ [b1, nb] ++ []) = true
            rw [List.append_nil, chainFlags_append]
            rw [hb, chainFlags_append] at hchain
            simp only [chainFlags_cons, chainFlags_nil, Bool.and_eq_true, beq_iff_eq,
              hb1p, hb1u, hnbp, hnbu, hused] at hchain ⊢
            exact ⟨hchain.1, hchain.2.1, trivial, trivial⟩
          · show ((o + g) :: sp.freelist).Nodup
            exact List.nodup_cons.mpr ⟨hfresh, hnd⟩
          · intro oo hoo
            show oo ∈ fOffs SPAN_HDR_PADSZ (pre ++ [b1, nb] ++ ([] : List Block))
            rw [hfo]
            rcases List.mem_cons.mp hoo with rfl | hoo
            · simp
            · have := hsub oo hoo
              rw [hfoOld] at this
              exact List.mem_append_left _ this
          · intro oo hoo
            have hoo2 : oo ∈ fOffs SPAN_HDR_PADSZ (pre ++ [b1, nb] ++ ([] : List Block)) := hoo
            rw [hfo] at hoo2
            show oo ∈ (o + g) :: sp.freelist
            rcases List.mem_append.mp hoo2 with hoo2 | hoo2
            · exact List.mem_cons_of_mem _ (hsup oo (by rw [hfoOld]; exact hoo2))
            · simp only [List.mem_singleton] at hoo2
              subst hoo2
              exact List.mem_cons_self _ _
          · show sp.blkcount = ((pre ++ [b1, nb] ++ []).filter (fun x : Block => x.inUse)).length
            rw [hb] at hcnt
            simp only [List.append_nil, List.filter_append, List.filter_cons,
              List.filter_nil, List.length_append, hb1u, hnbu, hused] at hcnt ⊢
            simp at hcnt ⊢
            omega
        · show noAdjFrom true (pre ++ [b1, nb] ++ []) = true
          rw [List.append_nil, noAdjFrom_append]
          simp only [noAdjFrom_cons, noAdjFrom_nil, Bool.and_eq_true, Bool.or_eq_true,
            hb1u, hnbu, hused, hnadjpre]
          simp
      refine ⟨_, rfl, updSpan_wf hwf hmem hwfsp1 rfl rfl, fun hc => by omega,
        fun _ => ⟨_, rfl, rfl, rfl, rfl, ?_⟩⟩
      show getBlk _ o = some b1
      unfold getBlk
      show blkAt (pre ++ [b1, nb] ++ []) _ _ = _
      rw [ho]
      have hh2 := @blkAt_of_decomp pre ([nb] ++ []) b1 SPAN_HDR_PADSZ hprepos
      simpa using hh2
    | cons q post2 =>
      subst hp
      rw [@blknextadj_midB _ (pre ++ [b1]) _ _ _ _ hB3 (by show _ = (pre ++ [b1]) ++ nb :: q :: post2; simp) hoff1]
      try dsimp only
      unfold spSetBlk
      have hqmem : q ∈ sp.blocks := by rw [hb]; exact List.mem_append_right _ (by simp)
      have hqOk := hblk q hqmem
      have hpos3 : ∀ x ∈ pre ++ [b1, nb], 0 < x.gross := by
        intro x hx
        simp only [List.mem_append, List.mem_cons, List.not_mem_nil, or_false] at hx
        rcases hx with hx | hx | hx
        · exact hprepos x hx
        · subst hx
          exact hb1pos
        · subst hx
          rw [hnbg]
          simp only [MIN_BLKSZ] at hcut
          omega
      have hmod2 : modifyAt (pre ++ [b1, nb] ++ q :: post2) SPAN_HDR_PADSZ
          (o + g + nb.gross) (fun r => { r with prevInUse := false })
          = some (pre ++ [b1, nb] ++ { q with prevInUse := false } :: post2) := by
        have hh2 := @modifyAt_of_decomp (pre ++ [b1, nb]) post2 q SPAN_HDR_PADSZ
          (fun r => { r with prevInUse := false }) hpos3
        have hoff : SPAN_HDR_PADSZ + sumGross (pre ++ [b1, nb]) = o + g + nb.gross := by
          simp only [sumGross_append, sumGross_cons, sumGross_nil, hb1g, hnbg]
          omega
        rw [hoff] at hh2
        simpa using hh2
      rw [hmod2, Option.map_some']
      try dsimp only
      set q1 : Block := { q with prevInUse := false } with hq1
      have hq1g : q1.gross = q.gross := rfl
      have hq1u : q1.inUse = q.inUse := rfl
      have hq1p : q1.prevInUse = false := rfl
      -- well-formedness of the intermediate span
      have htails : fOffs (SPAN_HDR_PADSZ + sumGross pre) (b1 :: nb :: q1 :: post2)
          = [o + g] ++ fOffs (SPAN_HDR_PADSZ + sumGross pre + b.gross) (q :: post2) := by
        have harith : SPAN_HDR_PADSZ + sumGross pre + g + (b.gross - g)
            = SPAN_HDR_PADSZ + sumGross pre + b.gross := by omega
        rw [fOffs_cons, fOffs_cons, fOffs_cons]
        rw [@fOffs_cons (SPAN_HDR_PADSZ + sumGross pre + b.gross) q post2]
        simp only [hb1u, hused, hnbu, hq1u, hb1g, hnbg, harith]
        rw [ho]
        simp
      have hfoOld : freeOffsets sp
          = fOffs SPAN_HDR_PADSZ pre ++ fOffs (SPAN_HDR_PADSZ + sumGross pre + b.gross) (q :: post2) := by
        unfold freeOffsets
        rw [hb, fOffs_append, fOffs_cons]
        simp [hused]
      have hfoNew : fOffs SPAN_HDR_PADSZ (pre ++ [b1, nb] ++ q1 :: post2)
          = fOffs SPAN_HDR_PADSZ pre ++ ([o + g] ++ fOffs (SPAN_HDR_PADSZ + sumGross pre + b.gross) (q :: post2)) := by
        rw [show (pre ++ [b1, nb]) ++ q1 :: post2 = pre ++ b1 :: nb :: q1 :: post2 by simp]
        rw [fOffs_append, htails]
      have hwf02 : spanWF0 { sp with blocks := pre ++ [b1, nb] ++ q1 :: post2, freelist := (o + g) :: sp.freelist } := by
        refine ⟨hne, hbm, hbu, hmin, ?_, ?_, ?_, ?_, ?_, ?_, ?_⟩
        · show SPAN_HDR_PADSZ + sumGross (pre ++ [b1, nb] ++ q1 :: post2) = sp.size
          rw [hb] at hsum
          simp only [sumGross_append, sumGross_cons, sumGross_nil, hb1g, hnbg, hq1g] at hsum ⊢
          omega
        · intro x hx
          simp only [List.mem_append, List.mem_cons, List.not_mem_nil, or_false] at hx
          rcases hx with (hx | hx | hx) | hx | hx
          · exact hblk x (by rw [hb]; exact List.mem_append_left _ hx)
          · subst hx
            exact hb1Ok
          · subst hx
            exact hnbOk
          · subst hx
            refine ⟨hqOk.1, hqOk.2.1, hqOk.2.2.1, ?_⟩
            intro hf
            rw [hq1u] at hf
            exact hqOk.2.2.2 hf
          · exact hblk x (by rw [hb]; exact List.mem_append_right _ (by simp [hx]))
        · show chainFlags false (pre ++ [b1, nb] ++ q1 :: post2) = true
          rw [show (pre ++ [b1, nb]) ++ q1 :: post2 = pre ++ b1 :: nb :: q1 :: post2 by simp]
          rw [chainFlags_append]
          rw [hb, chainFlags_append] at hchain
          simp only [chainFlags_cons, Bool.and_eq_true, beq_iff_eq, hb1p, hb1u, hnbp,
            hnbu, hq1p, hq1u, hused] at hchain ⊢
          exact ⟨hchain.1, hchain.2.1, trivial, trivial, hchain.2.2.2⟩
        · show ((o + g) :: sp.freelist).Nodup
          exact List.nodup_cons.mpr ⟨hfresh, hnd⟩
        · intro oo hoo
          show oo ∈ fOffs SPAN_HDR_PADSZ (pre ++ [b1, nb] ++ q1 :: post2)
          rw [hfoNew]
          rcases List.mem_cons.mp hoo with rfl | hoo
          · simp
          · have := hsub oo hoo
            rw [hfoOld] at this
            rcases List.mem_append.mp this with hfo2 | hfo2
            · exact List.mem_append_left _ hfo2
            · exact List.mem_append_right _ (List.mem_append_right _ hfo2)
        · intro oo hoo
          have hoo2 : oo ∈ fOffs SPAN_HDR_PADSZ (pre ++ [b1, nb] ++ q1 :: post2) := hoo
          rw [hfoNew] at hoo2
          show oo ∈ (o + g) :: sp.freelist
          rcases List.mem_append.mp hoo2 with hoo2 | hoo2
          · exact List.mem_cons_of_mem _ (hsup oo (by rw [hfoOld]; exact List.mem_append_left _ hoo2))
          · rcases List.mem_append.mp hoo2 with hoo2 | hoo2
            · simp only [List.mem_singleton] at hoo2
              subst hoo2
              exact List.mem_cons_self _ _
            · exact List.mem_cons_of_mem _ (hsup oo (by rw [hfoOld]; exact List.mem_append_right _ hoo2))
        · show sp.blkcount = ((pre ++ [b1, nb] ++ q1 :: post2).filter (fun x : Block => x.inUse)).length
          rw [hb] at hcnt
          simp only [List.filter_append, List.filter_cons, List.filter_nil,
            List.length_append, hb1u, hnbu, hq1u, hused] at hcnt ⊢
          by_cases hqi : q.inUse = true <;> simp [hqi] at hcnt ⊢ <;> omega
      -- coalesce the carved-off free block forward
      have hnadjpre2 : noAdjFrom true (pre ++ [b1]) = true := by
        rw [noAdjFrom_append]
        simp only [noAdjFrom_cons, noAdjFrom_nil, Bool.and_eq_true, Bool.or_eq_true,
          hb1u, hused, hnadjpre]
        simp
      have hnadjpost2 : noAdjFrom true (q1 :: post2) = true := by
        simp only [noAdjFrom_cons, Bool.and_eq_true, Bool.or_eq_true, hq1u] at hnpost ⊢
        exact ⟨by simp, hnpost.2⟩
      obtain ⟨sp3, c, heq3, hwf3, hbase3, hsize3, hcnt3, hshape⟩ :=
        @coalesce_spec _ (pre ++ [b1]) (q1 :: post2) nb (o + g) hwf02
          (by show _ = (pre ++ [b1]) ++ nb :: q1 :: post2; simp) (by simpa using hoff1)
          hnbu hnadjpre2 hnadjpost2
      rw [heq3]
      try dsimp only
      obtain ⟨hceq, b2, post3, hblocks3, hfree2⟩ := hshape hnbp
      refine ⟨_, rfl, updSpan_wf hwf hmem hwf3 hbase3 hsize3, fun hc => by omega,
        fun _ => ⟨sp3, rfl, hbase3, hsize3, hcnt3, ?_⟩⟩
      show getBlk sp3 o = some b1
      unfold getBlk
      rw [hblocks3, ho]
      have hh2 := @blkAt_of_decomp pre (b2 :: post3) b1 SPAN_HDR_PADSZ hprepos
      simpa using hh2

/-! ## The claims -/

/-- C1: every non-null pointer returned by `m_malloc` (allocate), `m_calloc`
(zero_alloc) or `m_realloc` (resize) from a well-formed heap is a multiple
of 16. -/
theorem alloc_pointers_aligned :
    (∀ ps os n h h2 p, heapWF h →
      m_malloc ps os n h = some (some p, h2) → p % 16 = 0) ∧
    (∀ ps os n s h h2 p, heapWF h →
      m_calloc ps os n s h = some (some p, h2) → p % 16 = 0) ∧
    (∀ ps os q n h h2 p, heapWF h →
      m_realloc ps os q n h = some (some p, h2) → p % 16 = 0) := by
  refine ⟨?_, ?_, ?_⟩
  · intro ps os n h h2 p hwf hrun
    exact ((m_malloc_run hwf hrun).2.1 p rfl).1
  · intro ps os n s h h2 p hwf hrun
    exact ((m_calloc_run hwf hrun).2 p rfl).1
  · intro ps os q n h h2 p hwf hrun
    exact ((m_realloc_run hwf hrun).2.1 p rfl).1

/-- C2 (amended): for a request of at most `2^63` bytes, with a sane
`sysconf` answer and any `mmap` answer honouring the mmap contract,
`allocate` completes and returns NULL exactly when the request is zero, or
no free block fits and the page-mapping call failed; any returned pointer
is non-null.  (At the very top of the size range the 64-bit size
arithmetic wraps and this dichotomy fails; see the counterexample.) -/
theorem malloc_null_iff_bounded {ps n : Nat} {os : Option Nat} {h : Heap}
    (hwf : heapWF h) (hn : n ≤ 2 ^ 63) (hps : psOk ps = true)
    (hos : ∀ bb, os = some bb →
      mmapOk h.spans bb
        (spanSizeFor (if h.pagesize = 0 then ps else h.pagesize)
          (blksizerequest n)) = true) :
    ∃ r h2, m_malloc ps os n h = some (r, h2) ∧
      (r = none ↔ n = 0 ∨
        (blkfind h.spans (blksizerequest n) = some none ∧ os = none)) ∧
      (∀ p, r = some p → p ≠ 0) := by
  obtain ⟨r, h2, heq, hiff⟩ := m_malloc_progress hwf hn hps hos
  obtain ⟨_, halign, _⟩ := m_malloc_run hwf heq
  exact ⟨r, h2, heq, hiff, fun p hp => (halign p hp).2⟩

/-- Witness for C2 at the empty heap: `allocate(1)` with `sysconf = 4096`
and `mmap = 0x10000` returns a non-null pointer. -/
theorem malloc_null_iff_bounded_witness :
    heapWF emptyHeap ∧
      ∃ r h2, m_malloc 4096 (some 65536) 1 emptyHeap = some (r, h2) ∧
        (r = none ↔ (1 : Nat) = 0 ∨
          (blkfind emptyHeap.spans (blksizerequest 1) = some none ∧
            (some 65536 : Option Nat) = none)) ∧
        (∀ p, r = some p → p ≠ 0) :=
  ⟨by decide, malloc_null_iff_bounded (by decide) (by decide) (by decide)
    (by intro bb hbb; rw [← Option.some.inj hbb]; decide)⟩

/-- C2 counterexample: `allocate(2^64 − 64)` on the empty heap aborts (hits
an assert, modelled as `none`) even though the request is non-zero and the
OS map call succeeds, contradicting "in every other case it returns a
non-null payload pointer".  The failure is confined to the wrap band at the
very top of the size range: `allocate(2^63 + 1)` with a failed map call
returns NULL normally, and at `2^64 − 48` the gross size wraps to the
64-byte minimum, so `allocate` returns a non-null pointer to a 64-byte
block. -/
theorem malloc_huge_request_aborts :
    m_malloc 4096 (some 65536) (2 ^ 64 - 64) emptyHeap = none ∧
      (2 : Nat) ^ 64 - 64 ≠ 0 ∧
      mmapOk emptyHeap.spans 65536
        (spanSizeFor 4096 (blksizerequest (2 ^ 64 - 64))) = true ∧
      m_malloc 4096 none (2 ^ 63 + 1) emptyHeap = some (none, exH0) ∧
      m_malloc 4096 (some 65536) (2 ^ 64 - 48) emptyHeap =
        some (some 131056, chpA) :=
  ⟨by decide, by decide, by decide, by decide, by decide⟩

/-- C3: after `free(p)` on a non-null in-use payload, the owning span is
removed from the span list exactly when its in-use count reached zero (it
was 1 before the free) and more than `SPAN_CACHE = 1` spans existed;
otherwise a span with the same base stays mapped and the span count is
unchanged. -/
theorem free_releases_span_iff {h : Heap} {p : Nat} {sp : Span} {o : Nat} {b : Block}
    (hwf : heapWF h) (hp : p ≠ 0)
    (hloc : locate h.spans (plblkAddr p) = some (sp, o))
    (hget : getBlk sp o = some b) (hused : b.inUse = true) :
    ∃ h2, m_free p h = some h2 ∧ h2.pagesize = h.pagesize ∧
      (sp.blkcount = 1 ∧ SPAN_CACHE < h.spanCount →
        (∀ t ∈ h2.spans, t.base ≠ sp.base) ∧ h2.spanCount = h.spanCount - 1) ∧
      (¬ (sp.blkcount = 1 ∧ SPAN_CACHE < h.spanCount) →
        (∃ t ∈ h2.spans, t.base = sp.base) ∧ h2.spanCount = h.spanCount) := by
  obtain ⟨h2, heq, _, hps2, hrel, hkeep⟩ := m_free_spec hwf hp hloc hget hused
  exact ⟨h2, heq, hps2, hrel, hkeep⟩

/-- Witness for C3: freeing the only allocation of a one-span heap keeps
the span mapped (the span cache) with the span count unchanged. -/
theorem free_releases_span_iff_witness :
    ∃ h2, m_free 131056 chpA = some h2 ∧ h2.pagesize = chpA.pagesize ∧
      (spanA.blkcount = 1 ∧ SPAN_CACHE < chpA.spanCount →
        (∀ t ∈ h2.spans, t.base ≠ spanA.base) ∧
          h2.spanCount = chpA.spanCount - 1) ∧
      (¬ (spanA.blkcount = 1 ∧ SPAN_CACHE < chpA.spanCount) →
        (∃ t ∈ h2.spans, t.base = spanA.base) ∧
          h2.spanCount = chpA.spanCount) :=
  @free_releases_span_iff chpA 131056 spanA 65472 blkA (by decide) (by decide)
    (by decide) (by decide) (by decide)

/-- C4: in every heap state reachable from the empty heap by the public
operations, no span holds two physically-adjacent free blocks. -/
theorem reachable_no_adjacent_free {h : Heap} (hr : Reachable h) :
    ∀ sp ∈ h.spans, noAdjFrom true sp.blocks = true :=
  fun sp hsp => ((reachable_wf hr).1 sp hsp).2

/-- Witness for C4: the heap after `allocate(1)` from the empty heap is
reachable, and its single span has no adjacent free blocks. -/
theorem reachable_no_adjacent_free_witness :
    noAdjFrom true spanA.blocks = true :=
  reachable_no_adjacent_free
    (Reachable.step Reachable.init
      (Step.malloc 4096 (some 65536) 1 (some 131056) emptyHeap chpA
        (by decide)))
    spanA (by decide)

/-- C5 (amended): a span freshly mapped by `spalloc` holds exactly one free
block at offset 32 from the span base, of gross size `spsz − 32`, footer
equal to that size, `IN_USE = 0` and `PREV_IN_USE = 0` (the source writes
the flag word as plain `0`; the "conventionally 1" in the claim does not
match the code), and that block's offset is the sole free-list entry. -/
theorem spalloc_fresh_span_block {h : Heap} {b g : Nat}
    (hwf : heapWF h) (hps : psOk h.pagesize = true)
    (hgub : g ≤ 2 ^ 63 + MIN_BLKSZ)
    (hmm : mmapOk h.spans b (spanSizeFor h.pagesize g) = true) :
    ∃ sp, spalloc h (some b) g =
        some ({ h with spans := sp :: h.spans, spanCount := h.spanCount + 1 },
          some b) ∧
      sp.blocks = [{ gross := spanSizeFor h.pagesize g - SPAN_HDR_PADSZ, inUse := false, prevInUse := false, owner := b, footer := spanSizeFor h.pagesize g - SPAN_HDR_PADSZ, magic := MAGIC_BABY }] ∧
      sp.freelist = [SPAN_HDR_PADSZ] := by
  obtain ⟨sp, heq, _, _, _, _, _, hfl, hblocks, _⟩ := spalloc_spec hwf hps hgub hmm
  exact ⟨sp, heq, hblocks, hfl⟩

/-- Witness for C5: `spalloc` of a 64-byte request on a cached-page-size
empty heap. -/
theorem spalloc_fresh_span_block_witness :
    ∃ sp, spalloc exH0 (some 65536) 64 =
        some ({ exH0 with spans := sp :: exH0.spans, spanCount := exH0.spanCount + 1 }, some 65536) ∧
      sp.blocks = [{ gross := 65504, inUse := false, prevInUse := false, owner := 65536, footer := 65504, magic := MAGIC_BABY }] ∧
      sp.freelist = [SPAN_HDR_PADSZ] :=
  spalloc_fresh_span_block (by decide) (by decide) (by decide) (by decide)

/-- C5 counterexample: the fresh span's single block has `PREV_IN_USE = 0`,
not 1 as the claim states. -/
theorem spalloc_prev_in_use_clear :
    spalloc exH0 (some 65536) 64 = some (exH5, some 65536) ∧
      spanF.blocks = [{ gross := 65504, inUse := false, prevInUse := false, owner := 65536, footer := 65504, magic := MAGIC_BABY }] ∧
      (∀ blk ∈ spanF.blocks, blk.prevInUse = false) :=
  ⟨by decide, by decide, by decide⟩

/-- C6 (amended): `resize(p, 0)` on an in-use payload `p` returns `p`
itself without moving it, and truncates the block in place to the minimum
gross size of 64 bytes only when the block's gross size is at least 128
bytes; a block smaller than 128 bytes is left entirely unchanged (the
remainder would be below the minimum block size). -/
theorem resize_zero_truncates_iff {ps : Nat} {os : Option Nat} {h : Heap}
    {p : Nat} {sp : Span} {o : Nat} {b : Block}
    (hwf : heapWF h) (hp0 : p ≠ 0) (hpU : p < U64)
    (hloc : locate h.spans (plblkAddr p) = some (sp, o))
    (hget : getBlk sp o = some b) (hused : b.inUse = true) :
    ∃ h2, m_realloc ps os p 0 h = some (some p, h2) ∧ heapWF h2 ∧
      (b.gross < 2 * MIN_BLKSZ → h2 = h) ∧
      (2 * MIN_BLKSZ ≤ b.gross → ∃ sp3, h2 = updSpan h sp3 ∧
        getBlk sp3 o = some { b with gross := MIN_BLKSZ, footer := 0 }) := by
  obtain ⟨hmem, hoeq, hble, _⟩ := locate_sound hloc
  have hwfsp : spanWF sp := hwf.1 sp hmem
  have hB := spanWF0_basics hwfsp.1
  obtain ⟨pre, post, hdec, hoff⟩ := getBlk_decomp hget
  have hbmem : b ∈ sp.blocks := by
    rw [hdec]; exact List.mem_append_right _ (by simp)
  have hb64 : MIN_BLKSZ ≤ b.gross := (hwfsp.1.2.2.2.2.2.1 b hbmem).1
  have hbub : sp.base + sp.size ≤ U64 := hwfsp.1.2.2.1
  have hub := decomp_off_ubB hB hdec
  have hoff' := hoff
  simp only [SPAN_HDR_PADSZ] at hub hoff'
  have hg0 : blksizerequest 0 = MIN_BLKSZ := by decide
  have hlt : sp.base + o + 48 < 2 ^ 64 := by
    simp only [MIN_BLKSZ] at hb64
    simp only [U64] at hbub
    omega
  have hval : payloadAddr sp o = sp.base + o + 48 := by
    unfold payloadAddr add64
    simp only [BLOCK_HDR_PADSZ, U64]
    omega
  have habs : plblkAddr p = sp.base + o := by omega
  have hpeq : p = payloadAddr sp o := by
    rw [hval]
    simp only [plblkAddr, sub64, BLOCK_HDR_PADSZ, U64] at habs
    simp only [U64] at hpU
    omega
  unfold m_realloc
  rw [if_neg hp0, hloc]
  try dsimp only
  rw [hget]
  try dsimp only
  by_cases hcase : blksizerequest 0 = b.gross
  · rw [if_pos hcase]
    refine ⟨h, rfl, hwf, fun _ => rfl, ?_⟩
    intro h128
    exfalso
    rw [← hcase, hg0] at h128
    simp only [MIN_BLKSZ] at h128
    omega
  · rw [if_neg hcase]
    rw [if_pos (show (0 : Nat) = 0 ∨ blksizerequest 0 < b.gross from Or.inl rfl)]
    obtain ⟨h2, heq, hwf2, hnoop, hsplit⟩ :=
      realloc_truncate_spec hwf hmem hdec hoff hused (by rw [hg0]; exact hb64)
    rw [heq]
    refine ⟨h2, by rw [hpeq], hwf2, ?_, ?_⟩
    · intro hsmall
      apply hnoop
      rw [hg0]
      simp only [MIN_BLKSZ] at hsmall ⊢
      omega
    · intro hbig
      obtain ⟨sp3, hh2, _, _, _, hget3⟩ := hsplit (by
        rw [hg0]
        simp only [MIN_BLKSZ] at hbig ⊢
        omega)
      refine ⟨sp3, hh2, ?_⟩
      rw [hg0] at hget3
      exact hget3

/-- Witness for C6: `resize(p, 0)` on the 64-byte allocation of `chpA`
returns `p` and (the block being below 128 bytes) changes nothing. -/
theorem resize_zero_truncates_iff_witness :
    ∃ h2, m_realloc 4096 none 131056 0 chpA = some (some 131056, h2) ∧
      heapWF h2 ∧
      (blkA.gross < 2 * MIN_BLKSZ → h2 = chpA) ∧
      (2 * MIN_BLKSZ ≤ blkA.gross → ∃ sp3, h2 = updSpan chpA sp3 ∧
        getBlk sp3 65472 =
          some { blkA with gross := MIN_BLKSZ, footer := 0 }) :=
  @resize_zero_truncates_iff 4096 none chpA 131056 spanA 65472 blkA
    (by decide) (by decide) (by decide) (by decide) (by decide) (by decide)

/-- C6 counterexample: on an in-use 80-byte block, `resize(p, 0)` returns
`p` but does NOT truncate the block to 64 bytes — the heap is unchanged and
the block keeps gross size 80, contradicting "truncates p's block in place
to the minimum gross size of 64 bytes" for every in-use payload. -/
theorem resize_zero_no_truncate_small_block :
    m_realloc 4096 none 65616 0 chp80 = some (some 65616, chp80) ∧
      locate chp80.spans (plblkAddr 65616) = some (span80, 32) ∧
      getBlk span80 32 = some blk80 ∧ blk80.inUse = true ∧
      blk80.gross = 80 ∧ (80 : Nat) ≠ MIN_BLKSZ :=
  ⟨by decide, by decide, by decide, by decide, by decide, by decide⟩

/-- C7: `resize(p, n)` on an in-use payload whose block's gross size
already equals `gross_size(n)` returns `p` and leaves the heap exactly
unchanged. -/
theorem resize_same_size_noop {ps n : Nat} {os : Option Nat} {h : Heap}
    {p : Nat} {sp : Span} {o : Nat} {b : Block}
    (hwf : heapWF h) (hp0 : p ≠ 0)
    (hloc : locate h.spans (plblkAddr p) = some (sp, o))
    (hget : getBlk sp o = some b) (hused : b.inUse = true)
    (hsame : blksizerequest n = b.gross) :
    m_realloc ps os p n h = some (some p, h) := by
  unfold m_realloc
  rw [if_neg hp0, hloc]
  try dsimp only
  rw [hget]
  try dsimp only
  rw [if_pos hsame]

/-- Witness for C7: same-size resize of the 64-byte allocation of `chpA`
(request 1 has gross size 64). -/
theorem resize_same_size_noop_witness :
    m_realloc 4096 none 131056 1 chpA = some (some 131056, chpA) :=
  @resize_same_size_noop 4096 1 none chpA 131056 spanA 65472 blkA
    (by decide) (by decide) (by decide) (by decide) (by decide) (by decide)

/-- C8: when `resize(p, n)` must grow by moving (the block is last in its
span, or the next block cannot absorb the growth), no free block fits, and
the fresh allocation gets no memory from the OS, `resize` returns NULL and
the heap — including the original block — is exactly unchanged. -/
theorem resize_move_fail_preserves {ps n : Nat} {h : Heap} {p : Nat}
    {sp : Span} {o : Nat} {b : Block} {pre post : List Block}
    (hwf : heapWF h) (hp0 : p ≠ 0)
    (hloc : locate h.spans (plblkAddr p) = some (sp, o))
    (hb : sp.blocks = pre ++ b :: post)
    (ho : o = SPAN_HDR_PADSZ + sumGross pre)
    (hused : b.inUse = true)
    (hgrow : b.gross < blksizerequest n)
    (hnext : post = [] ∨ ∃ q post2, post = q :: post2 ∧
      ¬ (q.inUse = false ∧ blksizerequest n - b.gross ≤ q.gross))
    (hn : n ≤ 2 ^ 63) (hps : psOk ps = true)
    (hnofit : blkfind h.spans (blksizerequest n) = some none) :
    m_realloc ps none p n h = some (none, h) := by
  obtain ⟨hmem, _, _, _⟩ := locate_sound hloc
  have hwfsp : spanWF sp := hwf.1 sp hmem
  have hB := spanWF0_basics hwfsp.1
  have hget : getBlk sp o = some b := getBlk_of_decompB hB hb ho
  have hbmem : b ∈ sp.blocks := by
    rw [hb]; exact List.mem_append_right _ (by simp)
  have hb64 : MIN_BLKSZ ≤ b.gross := (hwfsp.1.2.2.2.2.2.1 b hbmem).1
  have hg0 : blksizerequest 0 = MIN_BLKSZ := by decide
  have hn0 : n ≠ 0 := by
    intro h0
    subst h0
    rw [hg0] at hgrow
    omega
  have hspne : h.spans ≠ [] := List.ne_nil_of_mem hmem
  unfold m_realloc
  rw [if_neg hp0, hloc]
  try dsimp only
  rw [hget]
  try dsimp only
  have hcond1 : ¬ blksizerequest n = b.gross := by omega
  rw [if_neg hcond1]
  have hcond2 : ¬ (n = 0 ∨ blksizerequest n < b.gross) := by
    rintro (hx | hx)
    · exact hn0 hx
    · omega
  rw [if_neg hcond2]
  unfold realloc_extend
  rw [hget]
  try dsimp only
  rw [if_neg (not_not_intro hused)]
  try dsimp only
  rw [if_neg (not_not_intro hgrow)]
  try dsimp only
  obtain ⟨r1, h1, heq1, hiff⟩ :=
    @m_malloc_progress ps n none h hwf hn hps (fun bb hbb => Option.noConfusion hbb)
  have hr1 : r1 = none := hiff.mpr (Or.inr ⟨hnofit, rfl⟩)
  subst hr1
  have hnull := (m_malloc_run hwf heq1).2.2 rfl
  have hh1 : h1 = h := by
    rcases hnull with he | ⟨hz, _⟩
    · exact he
    · exact absurd hz (hwf.2.2.2.2 hspne)
  subst hh1
  rcases hnext with hpost | ⟨q, post2, hpost, hnofit2⟩
  · subst hpost
    rw [blknextadj_lastB hB hb ho]
    try dsimp only
    rw [heq1]
  · subst hpost
    rw [blknextadj_midB hB hb ho]
    try dsimp only
    have hgetq : getBlk sp (o + b.gross) = some q := by
      refine @getBlk_of_decompB _ (pre ++ [b]) _ _ _ hB (by simpa using hb) ?_
      simp only [sumGross_append, sumGross_cons, sumGross_nil]
      omega
    rw [hgetq]
    try dsimp only
    rw [if_neg hnofit2]
    try dsimp only
    rw [heq1]

/-- Witness for C8: growing the last (64-byte) block of `chpA` to 131072
gross bytes must move; with no fitting free block and a failed map call,
`resize` returns NULL and leaves `chpA` unchanged. -/
theorem resize_move_fail_preserves_witness :
    m_realloc 4096 none 131056 131072 chpA = some (none, chpA) :=
  @resize_move_fail_preserves 4096 131072 chpA 131056 spanA 65472 blkA
    [blkAfree] [] (by decide) (by decide) (by decide) (by decide) (by decide)
    (by decide) (by decide) (Or.inl rfl) (by decide) (by decide) (by decide)

/-- C9 (amended): `zero_alloc(count, size)` computes the byte count as the
64-bit wrapping product `size * count` and forwards it to `allocate`
unchanged: there is no overflow check, and an overflowing product is
silently reduced modulo `2^64` (it can even return a non-null pointer for
a wrapped small product; see the counterexample). -/
theorem calloc_wraps_product (ps : Nat) (os : Option Nat) (n s : Nat) (h : Heap) :
    m_calloc ps os n s h = m_malloc ps os (mul64 s n) h := rfl

/-- C9 counterexample: `zero_alloc(2^63 + 1, 2)` overflows (the true
product is `2^64 + 2`), yet returns a non-null pointer — the wrapped
product is 2 — contradicting "returns null whenever the product
overflows". -/
theorem calloc_overflow_returns_pointer :
    2 ^ 64 ≤ (2 ^ 63 + 1) * 2 ∧
      m_calloc 4096 (some 65536) (2 ^ 63 + 1) 2 emptyHeap =
        some (some 131056, chpA) :=
  ⟨by norm_num, by decide⟩

/-- C10: `zero_alloc(count, size)` returns NULL whenever the true product
`count * size` is zero: the wrapped byte count is then also zero and
`allocate(0)` returns NULL with the heap untouched. -/
theorem calloc_zero_returns_null {ps n s : Nat} {os : Option Nat} {h : Heap}
    (hz : n * s = 0) : m_calloc ps os n s h = some (none, h) := by
  have hm : mul64 s n = 0 := by
    unfold mul64
    have hsz : s * n = 0 := by rw [Nat.mul_comm]; exact hz
    rw [hsz]
    simp
  unfold m_calloc
  try dsimp only
  rw [hm]
  unfold m_malloc
  rw [if_pos rfl]

/-- Witness for C10: `zero_alloc(0, 5)` on the empty heap returns NULL. -/
theorem calloc_zero_returns_null_witness :
    m_calloc 4096 none 0 5 emptyHeap = some (none, emptyHeap) :=
  calloc_zero_returns_null (by decide)

end BabyMalloc
